import Mathlib

/-!
# SkSVGAttributeParser: a shallow embedding

The attribute string is a NUL-terminated C string.  The read position `fCurPos`
is modelled by the list of bytes that remain before the terminator, so that
`*fCurPos` is the head of the list (NUL on the empty list) and `fCurPos++` is
its tail.  Every method threads the cursor explicitly, also on failure, because
the source keeps `fCurPos` wherever a failing method left it.
-/

namespace SkSVGAttributeParser

/-- The read position: the bytes from `fCurPos` up to the terminator. -/
abbrev Cursor := List Char

/-- The byte under the cursor, `*fCurPos`; NUL at the terminator. -/
def peek (cur : Cursor) : Char := cur.headD (Char.ofNat 0)

/-- The test `(unsigned)(c - min) <= (unsigned)(max - min)` on 32-bit unsigned. -/
def is_between (c : Char) (min max : Nat) : Bool :=
  decide ((((c.toNat : Int) - (min : Int)) % 4294967296)
            ≤ (((max : Int) - (min : Int)) % 4294967296))

def is_eos (c : Char) : Bool := c.toNat == 0

def is_ws (c : Char) : Bool := is_between c 1 32

def is_sep (c : Char) : Bool := is_ws c || c == ',' || c == ';'

/-- The loop `while (f(*fCurPos)) fCurPos++`.  Every predicate the source passes
is false on NUL, so the loop stops at the terminator at the latest. -/
def skipWhile (f : Char → Bool) : Cursor → Cursor
  | [] => []
  | c :: cs => if f c then skipWhile f cs else c :: cs

/-- The method `advanceWhile`: the returned flag is `fCurPos != initial`. -/
def advanceWhile (f : Char → Bool) (cur : Cursor) : Bool × Cursor :=
  (decide ((skipWhile f cur).length ≠ cur.length), skipWhile f cur)

def parseEOSToken (cur : Cursor) : Bool := is_eos (peek cur)

def parseSepToken (cur : Cursor) : Bool × Cursor := advanceWhile is_sep cur

def parseWSToken (cur : Cursor) : Bool × Cursor := advanceWhile is_ws cur

/-- The scan of `parseExpectedStringToken`: `some c` is the local pointer `c`
when `expected` was exhausted, `none` when the scan stopped with `*expected`
still non-NUL.  `expected` holds the bytes of the literal before its NUL. -/
def matchExpected : List Char → Cursor → Option Cursor
  | [], cur => some cur
  | _ :: _, [] => none
  | e :: es, c :: cs => if c = e then matchExpected es cs else none

/-- The method `parseExpectedStringToken`: `fCurPos` is assigned only on success. -/
def parseExpectedStringToken (expected : List Char) (cur : Cursor) : Bool × Cursor :=
  match matchExpected expected cur with
  | some c => (true, c)
  | none => (false, cur)

def parseCommaWspToken (cur : Cursor) : Bool × Cursor :=
  let r := parseWSToken cur
  if r.1 then r else parseExpectedStringToken [','] r.2

/-- The method `parseEnumMap`, and the hand-written table loops of the keyword
grammars: the first key that matches decides. -/
def parseEnumMap {T : Type} : List (String × T) → Cursor → Option T × Cursor
  | [], cur => (none, cur)
  | (k, v) :: rest, cur =>
    let r := parseExpectedStringToken k.toList cur
    if r.1 then (some v, r.2) else parseEnumMap rest r.2

/-- The external tokenizers of `SkParse`, which are not part of this module and
are taken as a parameter.  Each returns `none` for a null result, and otherwise
the value it stores and the position it returns.  `S` is the type of `SkScalar`
values; the value of `FindHex` is a `uint32_t` and that of `FindS32` an
`int32_t`. -/
structure SkParse (S : Type) where
  FindScalar : Cursor → Option (S × Cursor)
  FindHex : Cursor → Option (Nat × Cursor)
  FindS32 : Cursor → Option (Int × Cursor)
  FindNamedColor : Cursor → Option (Nat × Cursor)
  /-- The value of `SkScalarRoundToInt(s * 255.0f / 100)`. -/
  percentToByte : S → Int

/-- What a call leaves behind: the returned `bool`, the value stored through the
output pointer during the call (if any), and `fCurPos` at return. -/
structure Outcome (T : Type) where
  ok : Bool
  out : Option T
  cur : Cursor
deriving DecidableEq, Repr

/-- The caller's output object after the call, when it held `old` before. -/
def Outcome.output {T : Type} (r : Outcome T) (old : T) : T := r.out.getD old

variable {S : Type}

def parseScalarToken (P : SkParse S) (cur : Cursor) : Option S × Cursor :=
  match P.FindScalar cur with
  | some (v, next) => (some v, next)
  | none => (none, cur)

def parseHexToken (P : SkParse S) (cur : Cursor) : Option Nat × Cursor :=
  match P.FindHex cur with
  | some (v, next) => (some v, next)
  | none => (none, cur)

namespace SkSVGLength

/-- Modelled from the spec: the enumeration `SkSVGLength::Unit` of
`SkSVGTypes.h`, one constant per unit of the unit table and `kNumber` for a
unitless length. -/
inductive Unit where
  | kNumber | kPercentage | kEMS | kEXS | kPX | kCM | kMM | kIN | kPT | kPC
deriving DecidableEq, Repr

end SkSVGLength

/-- Modelled from the spec: the class `SkSVGLength` of `SkSVGTypes.h`, a
scalar with its unit; `⟨s, u⟩` is `SkSVGLength(s, u)`. -/
structure SkSVGLength (S : Type) where
  fValue : S
  fUnit : SkSVGLength.Unit
deriving DecidableEq, Repr

def gUnitInfo : List (String × SkSVGLength.Unit) :=
  [ ("%" , .kPercentage), ("em", .kEMS), ("ex", .kEXS), ("px", .kPX), ("cm", .kCM),
    ("mm", .kMM), ("in", .kIN), ("pt", .kPT), ("pc", .kPC) ]

def parseLengthUnitToken (cur : Cursor) : Option SkSVGLength.Unit × Cursor :=
  parseEnumMap gUnitInfo cur

def parseLength (P : SkParse S) (cur : Cursor) : Outcome (SkSVGLength S) :=
  match parseScalarToken P cur with
  | (none, c1) => ⟨false, none, c1⟩
  | (some s, c1) =>
    match parseLengthUnitToken c1 with
    | (some u, c2) => ⟨true, some ⟨s, u⟩, (parseSepToken c2).2⟩
    | (none, c2) =>
      let r := parseSepToken c2
      if r.1 || parseEOSToken r.2 then
        ⟨true, some ⟨s, .kNumber⟩, (parseSepToken r.2).2⟩
      else ⟨false, none, r.2⟩

/-- The tail shared by the value grammars once an alternative has matched:
`*out = v; parsedValue = true; ... return parsedValue && this->parseEOSToken();` -/
def storeThenEOS {T : Type} (v : T) (cur : Cursor) : Outcome T :=
  ⟨parseEOSToken cur, some v, cur⟩

/-! ## Colors -/

/-- Modelled from the spec: a 32-bit `SkColor`, 0xAARRGGBB. -/
abbrev SkColor := Nat

/-- Modelled from the spec: the class `SkSVGColorType`, which wraps one `SkColor`. -/
abbrev SkSVGColorType := SkColor

/-- Modelled from the spec: the string type `SkSVGStringType`, as its bytes. -/
abbrev SkSVGStringType := List Char

/-- Modelled from the spec: `SkColorSetARGB(a, r, g, b)` of `SkColor.h`, the
color with the given alpha, red, green and blue bytes. -/
def SkColorSetARGB (a r g b : Nat) : SkColor :=
  (a <<< 24) ||| (r <<< 16) ||| (g <<< 8) ||| b

/-- Modelled from the spec: the macro `SkColorSetRGB(r, g, b)` of `SkColor.h`,
which packs the three channels under a fully opaque alpha byte. -/
def SkColorSetRGB (r g b : Nat) : SkColor := SkColorSetARGB 255 r g b

/-- Modelled from the spec: `SkTPin(x, lo, hi)` of `SkTPin.h`, the value
clamped into `[lo, hi]`. -/
def SkTPin (x lo hi : Int) : Int := max lo (min x hi)

/-- Modelled from the spec: `SkScalarRoundToInt(c * 255.0f / 100)` on an
integer `c`, rounding to the nearest integer (halves upward). -/
def intPercentToByte (c : Int) : Int := (c * 255 + 50) / 100

def parseNamedColorToken (P : SkParse S) (cur : Cursor) : Option SkColor × Cursor :=
  match P.FindNamedColor cur with
  | some (c, next) => (some c, next)
  | none => (none, cur)

def parseHexColorToken (P : SkParse S) (cur : Cursor) : Option SkColor × Cursor :=
  let r := parseExpectedStringToken ['#'] cur
  if !r.1 then (none, r.2) else
  match parseHexToken P r.2 with
  | (none, c) => (none, c)
  | (some v, c) =>
    if (cur.length : Int) - (c.length : Int) = 7 then
      (some (v ||| 0xff000000), c)
    else if (cur.length : Int) - (c.length : Int) = 4 then
      (some (((((v <<< 12) % 4294967296) &&& 0x00f00000) |||
              (((v <<< 8) % 4294967296) &&& 0x000ff000) |||
              (((v <<< 4) % 4294967296) &&& 0x00000ff0) |||
              (((v <<< 0) % 4294967296) &&& 0x0000000f)) ||| 0xff000000), c)
    else (none, c)

/-- The lambda `parseIntegral` of `parseColorComponentToken`. -/
def parseIntegral (P : SkParse S) (cur : Cursor) : Option Int × Cursor :=
  match P.FindS32 cur with
  | none => (none, cur)
  | some (n, p) =>
    if peek p = '.' then (none, cur)
    else if peek p = '%' then (some (intPercentToByte n), p.tail)
    else (some n, p)

/-- The lambda `parseFractional` of `parseColorComponentToken`. -/
def parseFractional (P : SkParse S) (cur : Cursor) : Option Int × Cursor :=
  match P.FindScalar cur with
  | none => (none, cur)
  | some (s, p) =>
    if peek p ≠ '%' then (none, cur)
    else (some (P.percentToByte s), p.tail)

def parseColorComponentToken (P : SkParse S) (cur : Cursor) : Option Int × Cursor :=
  match parseIntegral P cur with
  | (some c, c1) => (some (SkTPin c 0 255), c1)
  | (none, c1) =>
    match parseFractional P c1 with
    | (some c, c2) => (some (SkTPin c 0 255), c2)
    | (none, c2) => (none, c2)

/-- The method `parseParenthesized`; `pre = none` stands for a null `prefix`. -/
def parseParenthesized {T : Type} (pre : Option String)
    (f : Cursor → Option T × Cursor) (cur : Cursor) : Option T × Cursor :=
  let c1 := (parseWSToken cur).2
  let r1 := match pre with
    | some p => parseExpectedStringToken p.toList c1
    | none => (true, c1)
  if !r1.1 then (none, r1.2) else
  let c2 := (parseWSToken r1.2).2
  let r2 := parseExpectedStringToken ['('] c2
  if !r2.1 then (none, r2.2) else
  let c3 := (parseWSToken r2.2).2
  match f c3 with
  | (none, c4) => (none, c4)
  | (some v, c4) =>
    let c5 := (parseWSToken c4).2
    let r3 := parseExpectedStringToken [')'] c5
    (if r3.1 then some v else none, r3.2)

/-- The body lambda of `parseRGBColorToken`. -/
def rgbBody (P : SkParse S) (cur : Cursor) : Option SkColor × Cursor :=
  match parseColorComponentToken P cur with
  | (none, c1) => (none, c1)
  | (some r, c1) =>
    let s1 := parseSepToken c1
    if !s1.1 then (none, s1.2) else
    match parseColorComponentToken P s1.2 with
    | (none, c2) => (none, c2)
    | (some g, c2) =>
      let s2 := parseSepToken c2
      if !s2.1 then (none, s2.2) else
      match parseColorComponentToken P s2.2 with
      | (none, c3) => (none, c3)
      | (some b, c3) =>
        (some (SkColorSetRGB (r % 256).toNat (g % 256).toNat (b % 256).toNat), c3)

def parseRGBColorToken (P : SkParse S) (cur : Cursor) : Option SkColor × Cursor :=
  parseParenthesized (some "rgb") (rgbBody P) cur

/-- The alternation `parseHexColorToken || parseNamedColorToken ||
parseRGBColorToken` of `parseColor`, each tried where the previous one stopped. -/
def colorToken (P : SkParse S) (cur : Cursor) : Option SkColor × Cursor :=
  match parseHexColorToken P cur with
  | (some c, c1) => (some c, c1)
  | (none, c1) =>
    match parseNamedColorToken P c1 with
    | (some c, c2) => (some c, c2)
    | (none, c2) => parseRGBColorToken P c2

def parseColor (P : SkParse S) (cur : Cursor) : Outcome SkSVGColorType :=
  match colorToken P (parseWSToken cur).2 with
  | (some c, c1) => storeThenEOS c (parseWSToken c1).2
  | (none, c1) => ⟨false, none, c1⟩

/-! ## IRIs, numbers, view boxes -/

def parseIRI (cur : Cursor) : Option SkSVGStringType × Cursor :=
  let r := parseExpectedStringToken ['#'] (parseWSToken cur).2
  if !r.1 then (none, r.2) else
  let c2 := (advanceWhile (fun c => !is_eos c && c != ')') r.2).2
  if c2.length = r.2.length then (none, c2)
  else (some (r.2.take (r.2.length - c2.length)), c2)

def parseFuncIRI (cur : Cursor) : Option SkSVGStringType × Cursor :=
  parseParenthesized (some "url") parseIRI cur

def parseNumber (P : SkParse S) (cur : Cursor) : Outcome S :=
  match parseScalarToken P (parseWSToken cur).2 with
  | (some s, c1) => ⟨true, some s, (parseSepToken c1).2⟩
  | (none, c1) => ⟨false, none, c1⟩

/-- Modelled from the spec: the class `SkSVGViewBoxType`, holding the
rectangle `SkRect::MakeXYWH(x, y, w, h)`. -/
structure SkSVGViewBoxType (S : Type) where
  x : S
  y : S
  w : S
  h : S
deriving DecidableEq, Repr

/-- The chain `parseScalarToken(&x) && parseSepToken() && ...` of `parseViewBox`. -/
def viewBoxScalars (P : SkParse S) (cur : Cursor) : Option (SkSVGViewBoxType S) × Cursor :=
  match parseScalarToken P cur with
  | (none, c) => (none, c)
  | (some x, c) =>
    let s1 := parseSepToken c
    if !s1.1 then (none, s1.2) else
    match parseScalarToken P s1.2 with
    | (none, c) => (none, c)
    | (some y, c) =>
      let s2 := parseSepToken c
      if !s2.1 then (none, s2.2) else
      match parseScalarToken P s2.2 with
      | (none, c) => (none, c)
      | (some w, c) =>
        let s3 := parseSepToken c
        if !s3.1 then (none, s3.2) else
        match parseScalarToken P s3.2 with
        | (none, c) => (none, c)
        | (some h, c) => (some ⟨x, y, w, h⟩, c)

def parseViewBox (P : SkParse S) (cur : Cursor) : Outcome (SkSVGViewBoxType S) :=
  match viewBoxScalars P (parseWSToken cur).2 with
  | (some vb, c1) => storeThenEOS vb (parseWSToken c1).2
  | (none, c1) => ⟨false, none, c1⟩

/-! ## Transforms -/

/-- The part of `SkMatrix` and of the scalar arithmetic that the transform
grammar uses; both are external to this module.  `Mat` is the type of matrices;
`preConcat a m` is the value of `a` after `a.preConcat(m)`. -/
structure SkMatrixOps (S Mat : Type) where
  zero : S
  one : S
  I : Mat
  preConcat : Mat → Mat → Mat
  setAll : S → S → S → S → S → S → S → S → S → Mat
  setTranslate : S → S → Mat
  setScale : S → S → Mat
  setRotate : S → S → S → Mat
  setSkewX : S → Mat
  setSkewY : S → Mat
  /-- The value of `tanf(SkDegreesToRadians(angle))`. -/
  tanDegrees : S → S

variable {Mat : Type}

/-- The loop of `parseMatrixToken`, entered at index `i` with the scalars read
so far: `scalars[i]` must parse and, for `i <= 4`, a separator must follow. -/
def matrixScalars (P : SkParse S) : Nat → Nat → List S → Cursor → Option (List S) × Cursor
  | 0, _, acc, cur => (some acc, cur)
  | n + 1, i, acc, cur =>
    match parseScalarToken P cur with
    | (none, c) => (none, c)
    | (some s, c) =>
      if i > 4 then matrixScalars P n (i + 1) (acc ++ [s]) c
      else
        let r := parseSepToken c
        if !r.1 then (none, r.2) else matrixScalars P n (i + 1) (acc ++ [s]) r.2

def parseMatrixToken (P : SkParse S) (M : SkMatrixOps S Mat) (cur : Cursor) :
    Option Mat × Cursor :=
  parseParenthesized (some "matrix") (fun c =>
    match matrixScalars P 6 0 [] c with
    | (some [s0, s1, s2, s3, s4, s5], c1) =>
      (some (M.setAll s0 s2 s4 s1 s3 s5 M.zero M.zero M.one), c1)
    | (_, c1) => (none, c1)) cur

def parseTranslateToken (P : SkParse S) (M : SkMatrixOps S Mat) (cur : Cursor) :
    Option Mat × Cursor :=
  parseParenthesized (some "translate") (fun c =>
    match parseScalarToken P (parseWSToken c).2 with
    | (none, c1) => (none, c1)
    | (some tx, c1) =>
      let r := parseSepToken c1
      if !r.1 then (some (M.setTranslate tx M.zero), r.2) else
      match parseScalarToken P r.2 with
      | (none, c2) => (some (M.setTranslate tx M.zero), c2)
      | (some ty, c2) => (some (M.setTranslate tx ty), c2)) cur

def parseScaleToken (P : SkParse S) (M : SkMatrixOps S Mat) (cur : Cursor) :
    Option Mat × Cursor :=
  parseParenthesized (some "scale") (fun c =>
    match parseScalarToken P c with
    | (none, c1) => (none, c1)
    | (some sx, c1) =>
      let r := parseSepToken c1
      if !r.1 then (some (M.setScale sx sx), r.2) else
      match parseScalarToken P r.2 with
      | (none, c2) => (some (M.setScale sx sx), c2)
      | (some sy, c2) => (some (M.setScale sx sy), c2)) cur

def parseRotateToken (P : SkParse S) (M : SkMatrixOps S Mat) (cur : Cursor) :
    Option Mat × Cursor :=
  parseParenthesized (some "rotate") (fun c =>
    match parseScalarToken P c with
    | (none, c1) => (none, c1)
    | (some angle, c1) =>
      let r := parseSepToken c1
      if !r.1 then (some (M.setRotate angle M.zero M.zero), r.2) else
      match parseScalarToken P r.2 with
      | (none, c2) => (some (M.setRotate angle M.zero M.zero), c2)
      | (some cx, c2) =>
        let r2 := parseSepToken c2
        if !r2.1 then (none, r2.2) else
        match parseScalarToken P r2.2 with
        | (none, c3) => (none, c3)
        | (some cy, c3) => (some (M.setRotate angle cx cy), c3)) cur

def parseSkewXToken (P : SkParse S) (M : SkMatrixOps S Mat) (cur : Cursor) :
    Option Mat × Cursor :=
  parseParenthesized (some "skewX") (fun c =>
    match parseScalarToken P c with
    | (none, c1) => (none, c1)
    | (some angle, c1) => (some (M.setSkewX (M.tanDegrees angle)), c1)) cur

def parseSkewYToken (P : SkParse S) (M : SkMatrixOps S Mat) (cur : Cursor) :
    Option Mat × Cursor :=
  parseParenthesized (some "skewY") (fun c =>
    match parseScalarToken P c with
    | (none, c1) => (none, c1)
    | (some angle, c1) => (some (M.setSkewY (M.tanDegrees angle)), c1)) cur

/-- The alternation at the head of the loop of `parseTransform`, each function
tried where the previous attempt stopped. -/
def transformToken (P : SkParse S) (M : SkMatrixOps S Mat) (cur : Cursor) :
    Option Mat × Cursor :=
  match parseMatrixToken P M cur with
  | (some m, c) => (some m, c)
  | (none, c) =>
  match parseTranslateToken P M c with
  | (some m, c) => (some m, c)
  | (none, c) =>
  match parseScaleToken P M c with
  | (some m, c) => (some m, c)
  | (none, c) =>
  match parseRotateToken P M c with
  | (some m, c) => (some m, c)
  | (none, c) =>
  match parseSkewXToken P M c with
  | (some m, c) => (some m, c)
  | (none, c) => parseSkewYToken P M c

/-- The `while (true)` loop of `parseTransform` with its state `(matrix, parsed)`;
the first argument bounds the number of iterations, and `none` means the bound
was reached before the loop exited. -/
def transformLoop (P : SkParse S) (M : SkMatrixOps S Mat) :
    Nat → Cursor → Mat → Bool → Option (Mat × Bool × Cursor)
  | 0, _, _, _ => none
  | fuel + 1, cur, matrix, parsed =>
    match transformToken P M cur with
    | (none, c) => some (matrix, parsed, c)
    | (some m, c) =>
      transformLoop P M fuel (parseCommaWspToken c).2 (M.preConcat matrix m) true

/-- The method `parseTransform`; every iteration that stays in the loop consumes
input, so one more iteration than there are bytes is allowed. -/
def parseTransform (P : SkParse S) (M : SkMatrixOps S Mat) (cur : Cursor) :
    Option (Outcome Mat) :=
  match transformLoop P M (cur.length + 1) cur M.I false with
  | none => none
  | some (matrix, parsed, c) =>
    let c1 := (parseWSToken c).2
    if !parsed || !parseEOSToken c1 then some ⟨false, none, c1⟩
    else some ⟨true, some matrix, c1⟩

/-! ## Paints, clips and keyword grammars -/

/-- Modelled from the spec: the class `SkSVGPaint` of `SkSVGTypes.h`, with one
constructor per `SkSVGPaint::Type`, the color and the IRI kinds with their
payload. -/
inductive SkSVGPaint where
  | kNone | kCurrentColor | kInherit
  | kColor (c : SkSVGColorType)
  | kIRI (iri : SkSVGStringType)
deriving DecidableEq, Repr

def parsePaint (P : SkParse S) (cur : Cursor) : Outcome SkSVGPaint :=
  let rc := parseColor P cur
  if rc.ok then ⟨parseEOSToken rc.cur, rc.out.map SkSVGPaint.kColor, rc.cur⟩ else
  let r1 := parseExpectedStringToken "none".toList rc.cur
  if r1.1 then storeThenEOS SkSVGPaint.kNone r1.2 else
  let r2 := parseExpectedStringToken "currentColor".toList r1.2
  if r2.1 then storeThenEOS SkSVGPaint.kCurrentColor r2.2 else
  let r3 := parseExpectedStringToken "inherit".toList r2.2
  if r3.1 then storeThenEOS SkSVGPaint.kInherit r3.2 else
  match parseFuncIRI r3.2 with
  | (some iri, c) => storeThenEOS (SkSVGPaint.kIRI iri) c
  | (none, c) => ⟨false, none, c⟩

/-- Modelled from the spec: the class `SkSVGClip` of `SkSVGTypes.h`: none,
inherit, or a reference to a local fragment. -/
inductive SkSVGClip where
  | kNone | kInherit
  | kIRI (iri : SkSVGStringType)
deriving DecidableEq, Repr

def parseClipPath (cur : Cursor) : Outcome SkSVGClip :=
  let r1 := parseExpectedStringToken "none".toList cur
  if r1.1 then storeThenEOS SkSVGClip.kNone r1.2 else
  let r2 := parseExpectedStringToken "inherit".toList r1.2
  if r2.1 then storeThenEOS SkSVGClip.kInherit r2.2 else
  match parseFuncIRI r2.2 with
  | (some iri, c) => storeThenEOS (SkSVGClip.kIRI iri) c
  | (none, c) => ⟨false, none, c⟩

/-- The shape shared by the keyword grammars: scan the table, store the
constant of the first key that matches, then require the end of input. -/
def parseKeyword {T : Type} (table : List (String × T)) (cur : Cursor) : Outcome T :=
  match parseEnumMap table cur with
  | (some v, c) => storeThenEOS v c
  | (none, c) => ⟨false, none, c⟩

/-- Modelled from the spec: the class `SkSVGLineCap`, as its `Type` constants. -/
inductive SkSVGLineCap where
  | kButt | kRound | kSquare | kInherit
deriving DecidableEq, Repr

def gCapInfo : List (String × SkSVGLineCap) :=
  [ ("butt", .kButt), ("round", .kRound), ("square", .kSquare), ("inherit", .kInherit) ]

def parseLineCap (cur : Cursor) : Outcome SkSVGLineCap := parseKeyword gCapInfo cur

/-- Modelled from the spec: the class `SkSVGLineJoin`, as its `Type` constants. -/
inductive SkSVGLineJoin where
  | kMiter | kRound | kBevel | kInherit
deriving DecidableEq, Repr

def gJoinInfo : List (String × SkSVGLineJoin) :=
  [ ("miter", .kMiter), ("round", .kRound), ("bevel", .kBevel), ("inherit", .kInherit) ]

def parseLineJoin (cur : Cursor) : Outcome SkSVGLineJoin := parseKeyword gJoinInfo cur

/-- Modelled from the spec: the class `SkSVGSpreadMethod`, as its `Type`
constants. -/
inductive SkSVGSpreadMethod where
  | kPad | kReflect | kRepeat
deriving DecidableEq, Repr

def gSpreadInfo : List (String × SkSVGSpreadMethod) :=
  [ ("pad", .kPad), ("reflect", .kReflect), ("repeat", .kRepeat) ]

def parseSpreadMethod (cur : Cursor) : Outcome SkSVGSpreadMethod :=
  parseKeyword gSpreadInfo cur

/-- Modelled from the spec: the class `SkSVGStopColor`: a color, or one of its
keyword kinds. -/
inductive SkSVGStopColor where
  | kColor (c : SkSVGColorType)
  | kCurrentColor | kInherit
deriving DecidableEq, Repr

def parseStopColor (P : SkParse S) (cur : Cursor) : Outcome SkSVGStopColor :=
  let rc := parseColor P cur
  if rc.ok then ⟨parseEOSToken rc.cur, rc.out.map SkSVGStopColor.kColor, rc.cur⟩ else
  let r1 := parseExpectedStringToken "currentColor".toList rc.cur
  if r1.1 then storeThenEOS SkSVGStopColor.kCurrentColor r1.2 else
  let r2 := parseExpectedStringToken "inherit".toList r1.2
  if r2.1 then storeThenEOS SkSVGStopColor.kInherit r2.2 else
  ⟨false, none, r2.2⟩

/-- Modelled from the spec: the class `SkSVGGradientUnits`, as its `Type`
constants. -/
inductive SkSVGGradientUnits where
  | kUserSpaceOnUse | kObjectBoundingBox
deriving DecidableEq, Repr

def parseGradientUnits (cur : Cursor) : Outcome SkSVGGradientUnits :=
  let r1 := parseExpectedStringToken "userSpaceOnUse".toList cur
  if r1.1 then storeThenEOS SkSVGGradientUnits.kUserSpaceOnUse r1.2 else
  let r2 := parseExpectedStringToken "objectBoundingBox".toList r1.2
  if r2.1 then storeThenEOS SkSVGGradientUnits.kObjectBoundingBox r2.2 else
  ⟨false, none, r2.2⟩

/-- Modelled from the spec: the class `SkSVGFillRule`, as its `Type` constants. -/
inductive SkSVGFillRule where
  | kNonZero | kEvenOdd | kInherit
deriving DecidableEq, Repr

def gFillRuleInfo : List (String × SkSVGFillRule) :=
  [ ("nonzero", .kNonZero), ("evenodd", .kEvenOdd), ("inherit", .kInherit) ]

def parseFillRule (cur : Cursor) : Outcome SkSVGFillRule := parseKeyword gFillRuleInfo cur

/-- Modelled from the spec: the class `SkSVGVisibility`, as its `Type`
constants. -/
inductive SkSVGVisibility where
  | kVisible | kHidden | kCollapse | kInherit
deriving DecidableEq, Repr

def gVisibilityInfo : List (String × SkSVGVisibility) :=
  [ ("visible", .kVisible), ("hidden", .kHidden), ("collapse", .kCollapse),
    ("inherit", .kInherit) ]

def parseVisibility (cur : Cursor) : Outcome SkSVGVisibility :=
  parseKeyword gVisibilityInfo cur

/-! ## Points and dash arrays -/

/-- The `for (;;)` loop of `parsePoints` with its state `(pts, parsedValue)`;
the first argument bounds the number of iterations, and `none` means the bound
was reached before the loop exited. -/
def pointsLoop (P : SkParse S) :
    Nat → Cursor → List (S × S) → Bool → Option (List (S × S) × Bool × Cursor)
  | 0, _, _, _ => none
  | fuel + 1, cur, pts, parsedValue =>
    let r0 := if parsedValue then parseCommaWspToken cur else (true, cur)
    if !r0.1 then some (pts, parsedValue, r0.2) else
    match parseScalarToken P r0.2 with
    | (none, c1) => some (pts, parsedValue, c1)
    | (some x, c1) =>
      let r1 := parseCommaWspToken c1
      if !r1.1 && !parseEOSToken r1.2 && peek r1.2 != '-' then
        some (pts, parsedValue, r1.2)
      else
        match parseScalarToken P r1.2 with
        | (none, c2) => some (pts, parsedValue, c2)
        | (some y, c2) => pointsLoop P fuel c2 (pts ++ [(x, y)]) true

/-- Modelled from the spec: the array of points `SkSVGPointsType`, as the list
of its `(x, y)` pairs in order. -/
abbrev SkSVGPointsType (S : Type) := List (S × S)

def parsePoints (P : SkParse S) (cur : Cursor) : Option (Outcome (SkSVGPointsType S)) :=
  let c0 := (advanceWhile is_ws cur).2
  match pointsLoop P (c0.length + 1) c0 [] false with
  | none => none
  | some (pts, parsedValue, c) =>
    if parsedValue && parseEOSToken c then some ⟨true, some pts, c⟩
    else some ⟨false, none, c⟩

/-- Modelled from the spec: the class `SkSVGDashArray`: none, inherit, or the
array of dash lengths in order. -/
inductive SkSVGDashArray (S : Type) where
  | kNone | kInherit
  | kDashArray (dashes : List (SkSVGLength S))
deriving DecidableEq, Repr

/-- The `for (;;)` loop of `parseDashArray`; `parsedValue` is true exactly when
`dashes` is non-empty.  The first argument bounds the number of iterations. -/
def dashLoop (P : SkParse S) :
    Nat → Cursor → List (SkSVGLength S) → Option (List (SkSVGLength S) × Cursor)
  | 0, _, _ => none
  | fuel + 1, cur, dashes =>
    let r := parseLength P cur
    if !r.ok then some (dashes, r.cur)
    else dashLoop P fuel r.cur (dashes ++ r.out.toList)

def parseDashArray (P : SkParse S) (cur : Cursor) : Option (Outcome (SkSVGDashArray S)) :=
  let r1 := parseExpectedStringToken "none".toList cur
  if r1.1 then some (storeThenEOS SkSVGDashArray.kNone r1.2) else
  let r2 := parseExpectedStringToken "inherit".toList r1.2
  if r2.1 then some (storeThenEOS SkSVGDashArray.kInherit r2.2) else
  match dashLoop P (r2.2.length + 1) r2.2 [] with
  | none => none
  | some (dashes, c) =>
    if dashes.isEmpty then some ⟨false, none, c⟩
    else some (storeThenEOS (SkSVGDashArray.kDashArray dashes) c)

/-! ## Fonts and preserveAspectRatio -/

/-- Modelled from the spec: the class `SkSVGFontFamily`; the default-constructed
value `SkSVGFontFamily()` is the inherit one. -/
inductive SkSVGFontFamily where
  | kInherit
  | kFamily (family : SkSVGStringType)
deriving DecidableEq, Repr

def parseFontFamily (cur : Cursor) : Outcome SkSVGFontFamily :=
  let r1 := parseExpectedStringToken "inherit".toList cur
  if r1.1 then storeThenEOS SkSVGFontFamily.kInherit r1.2 else
  let str := r1.2.takeWhile (fun c => !is_eos c)
  storeThenEOS (SkSVGFontFamily.kFamily (str.takeWhile (fun c => c != ',')))
    (r1.2.drop str.length)

/-- Modelled from the spec: the class `SkSVGFontSize`; the default-constructed
value `SkSVGFontSize()` is the inherit one. -/
inductive SkSVGFontSize (S : Type) where
  | kInherit
  | kLength (size : SkSVGLength S)
deriving DecidableEq, Repr

def parseFontSize (P : SkParse S) (cur : Cursor) : Outcome (SkSVGFontSize S) :=
  let r1 := parseExpectedStringToken "inherit".toList cur
  if r1.1 then storeThenEOS SkSVGFontSize.kInherit r1.2 else
  let rl := parseLength P r1.2
  if rl.ok then ⟨parseEOSToken rl.cur, rl.out.map SkSVGFontSize.kLength, rl.cur⟩
  else ⟨false, none, rl.cur⟩

/-- Modelled from the spec: the class `SkSVGFontStyle`, as its `Type` constants. -/
inductive SkSVGFontStyle where
  | kNormal | kItalic | kOblique | kInherit
deriving DecidableEq, Repr

def gStyleMap : List (String × SkSVGFontStyle) :=
  [ ("normal", .kNormal), ("italic", .kItalic), ("oblique", .kOblique),
    ("inherit", .kInherit) ]

def parseFontStyle (cur : Cursor) : Outcome SkSVGFontStyle := parseKeyword gStyleMap cur

/-- Modelled from the spec: the class `SkSVGFontWeight`, as its `Type`
constants. -/
inductive SkSVGFontWeight where
  | k100 | k200 | k300 | k400 | k500 | k600 | k700 | k800 | k900
  | kNormal | kBold | kBolder | kLighter | kInherit
deriving DecidableEq, Repr

def gWeightMap : List (String × SkSVGFontWeight) :=
  [ ("normal" , .kNormal), ("bold", .kBold), ("bolder", .kBolder), ("lighter", .kLighter),
    ("100", .k100), ("200", .k200), ("300", .k300), ("400", .k400), ("500", .k500),
    ("600", .k600), ("700", .k700), ("800", .k800), ("900", .k900),
    ("inherit", .kInherit) ]

def parseFontWeight (cur : Cursor) : Outcome SkSVGFontWeight := parseKeyword gWeightMap cur

namespace SkSVGPreserveAspectRatio

/-- Modelled from the spec: the enumeration `SkSVGPreserveAspectRatio::Align`. -/
inductive Align where
  | kXMinYMin | kXMidYMin | kXMaxYMin | kXMinYMid | kXMidYMid | kXMaxYMid
  | kXMinYMax | kXMidYMax | kXMaxYMax | kNone
deriving DecidableEq, Repr

/-- Modelled from the spec: the enumeration `SkSVGPreserveAspectRatio::Scale`. -/
inductive Scale where
  | kMeet | kSlice
deriving DecidableEq, Repr

end SkSVGPreserveAspectRatio

/-- Modelled from the spec: the struct `SkSVGPreserveAspectRatio` with its two
fields. -/
structure SkSVGPreserveAspectRatio where
  fAlign : SkSVGPreserveAspectRatio.Align
  fScale : SkSVGPreserveAspectRatio.Scale
deriving DecidableEq, Repr

def gAlignMap : List (String × SkSVGPreserveAspectRatio.Align) :=
  [ ("none", .kNone), ("xMinYMin", .kXMinYMin), ("xMidYMin", .kXMidYMin),
    ("xMaxYMin", .kXMaxYMin), ("xMinYMid", .kXMinYMid), ("xMidYMid", .kXMidYMid),
    ("xMaxYMid", .kXMaxYMid), ("xMinYMax", .kXMinYMax), ("xMidYMax", .kXMidYMax),
    ("xMaxYMax", .kXMaxYMax) ]

def gScaleMap : List (String × SkSVGPreserveAspectRatio.Scale) :=
  [ ("meet", .kMeet), ("slice", .kSlice) ]

/-- The method `parsePreserveAspectRatio`.  The two fields of `*par` are written
separately, so the object the caller passed in is an argument: `out` is the
whole object after the writes. -/
def parsePreserveAspectRatio (cur : Cursor) (par : SkSVGPreserveAspectRatio) :
    Outcome SkSVGPreserveAspectRatio :=
  let c1 := (parseWSToken (parseExpectedStringToken "defer".toList cur).2).2
  match parseEnumMap gAlignMap c1 with
  | (none, c2) => ⟨false, none, c2⟩
  | (some a, c2) =>
    match parseEnumMap gScaleMap (parseWSToken c2).2 with
    | (some sc, c3) => ⟨parseEOSToken c3, some ⟨a, sc⟩, c3⟩
    | (none, c3) => ⟨parseEOSToken c3, some ⟨a, par.fScale⟩, c3⟩

/-- The alignment position in the words of the specification: the input after
an optional `defer` keyword and the whitespace that follows. -/
def alignmentPosition (cur : Cursor) : Cursor :=
  (if "defer".toList.isPrefixOf cur then cur.drop 5 else cur).dropWhile is_ws

/-- The transform functions written at the cursor, in textual order: the
matrices of the successive function calls, each separated from the next by an
optional comma-wsp, together with the position at which no further function
call is recognized.  The first argument bounds the number of calls read. -/
def transformList (P : SkParse S) (M : SkMatrixOps S Mat) :
    Nat → Cursor → Option (List Mat × Cursor)
  | 0, _ => none
  | fuel + 1, cur =>
    match transformToken P M cur with
    | (none, c) => some ([], c)
    | (some m, c) =>
      (transformList P M fuel (parseCommaWspToken c).2).map (fun r => (m :: r.1, r.2))

/-- A coordinate pair in the words of the specification: two scalars separated
by comma-wsp, or by nothing when the second one begins with `-`. -/
def coordinatePair (P : SkParse S) (cur : Cursor) : Option ((S × S) × Cursor) :=
  match P.FindScalar cur with
  | none => none
  | some (x, c1) =>
    let second := if (parseCommaWspToken c1).1 then some (parseCommaWspToken c1).2
      else if peek c1 = '-' then some c1 else none
    match second with
    | none => none
    | some c =>
      match P.FindScalar c with
      | none => none
      | some (y, c2) => some ((x, y), c2)

/-- A list of points in the words of the specification: coordinate pairs
separated by comma-wsp, the last one followed by the end of input; `none` when
the text at the cursor is not such a list.  The first argument bounds the number
of pairs read. -/
def coordinatePairs (P : SkParse S) : Nat → Cursor → Option (List (S × S))
  | 0, _ => none
  | fuel + 1, cur =>
    match coordinatePair P cur with
    | none => none
    | some (p, c2) =>
      if parseEOSToken c2 then some [p]
      else if (parseCommaWspToken c2).1 then
        (coordinatePairs P fuel (parseCommaWspToken c2).2).map (fun ps => p :: ps)
      else none

/-! ## A reference instance of the external collaborators -/

/-- Modelled from the spec: the decimal digits read by the numeric tokenizer,
accumulated most significant first; returns the value and the rest. -/
def refDigits : Nat → Cursor → Nat × Cursor
  | acc, [] => (acc, [])
  | acc, c :: cs =>
    if 48 ≤ c.toNat ∧ c.toNat ≤ 57 then refDigits (10 * acc + (c.toNat - 48)) cs
    else (acc, c :: cs)

/-- Modelled from the spec: the signed-integer tokenizer, `(text, position) ->
(value, newPosition) | none`, on an optional `-` and the longest run of decimal
digits. -/
def refFindS32 (cur : Cursor) : Option (Int × Cursor) :=
  match cur with
  | [] => none
  | c :: cs =>
    if c = '-' then
      (if (refDigits 0 cs).2.length < cs.length
        then some (-((refDigits 0 cs).1 : Int), (refDigits 0 cs).2) else none)
    else
      (if (refDigits 0 cur).2.length < cur.length
        then some (((refDigits 0 cur).1 : Int), (refDigits 0 cur).2) else none)


/-- Modelled from the spec: the value of a hexadecimal digit, if it is one. -/
def refHexDigit (c : Char) : Option Nat :=
  if 48 ≤ c.toNat ∧ c.toNat ≤ 57 then some (c.toNat - 48)
  else if 97 ≤ c.toNat ∧ c.toNat ≤ 102 then some (c.toNat - 87)
  else if 65 ≤ c.toNat ∧ c.toNat ≤ 70 then some (c.toNat - 55)
  else none

/-- Modelled from the spec: the hexadecimal digits read by the hex tokenizer. -/
def refHexDigits : Nat → Cursor → Nat × Cursor
  | acc, [] => (acc, [])
  | acc, c :: cs =>
    match refHexDigit c with
    | some d => refHexDigits (16 * acc + d) cs
    | none => (acc, c :: cs)

/-- Modelled from the spec: the hex variant of the numeric tokenizer, on the
longest run of hexadecimal digits, as a 32-bit value. -/
def refFindHex (cur : Cursor) : Option (Nat × Cursor) :=
  if (refHexDigits 0 cur).2.length < cur.length
  then some ((refHexDigits 0 cur).1 % 4294967296, (refHexDigits 0 cur).2) else none

/-- Modelled from the spec: a named-color table, `(text, length) -> (color,
newPosition) | none`, holding a few of the CSS color names. -/
def refColorNames : List (String × SkColor) :=
  [ ("black", 0xFF000000), ("blue", 0xFF0000FF), ("green", 0xFF008000),
    ("red", 0xFFFF0000), ("white", 0xFFFFFFFF) ]

/-- Modelled from the spec: the lookup in the named-color table. -/
def refFindNamedColor (cur : Cursor) : Option (Nat × Cursor) :=
  match parseEnumMap refColorNames cur with
  | (some c, next) => some (c, next)
  | (none, _) => none

/-- Modelled from the spec: the external tokenizers, with integer scalars: the
scalar tokenizer reads an optional `-` and decimal digits. -/
def refParse : SkParse Int where
  FindScalar := refFindS32
  FindHex := refFindHex
  FindS32 := refFindS32
  FindNamedColor := refFindNamedColor
  percentToByte := intPercentToByte

/-- Modelled from the spec: a 2-D affine matrix
`[sx kx tx; ky sy ty; 0 0 1]` over the integers. -/
structure RefMatrix where
  sx : Int
  kx : Int
  tx : Int
  ky : Int
  sy : Int
  ty : Int
deriving DecidableEq, Repr

/-- Modelled from the spec: the matrix product `a * b`. -/
def RefMatrix.mul (a b : RefMatrix) : RefMatrix :=
  ⟨a.sx * b.sx + a.kx * b.ky, a.sx * b.kx + a.kx * b.sy, a.sx * b.tx + a.kx * b.ty + a.tx,
   a.ky * b.sx + a.sy * b.ky, a.ky * b.kx + a.sy * b.sy, a.ky * b.tx + a.sy * b.ty + a.ty⟩

/-- Modelled from the spec: the image of the point `(x, y)` under the matrix. -/
def RefMatrix.mapXY (m : RefMatrix) (x y : Int) : Int × Int :=
  (m.sx * x + m.kx * y + m.tx, m.ky * x + m.sy * y + m.ty)

/-- Modelled from the spec: the matrix operations on integer affine matrices.
`preConcat a m` is `a * m`.  Rotations and skews have no integer matrix in
general; `rot` and `tanDeg` stand for the external trigonometry. -/
def refMatrixOps (rot : Int → Int → Int → RefMatrix) (tanDeg : Int → Int) :
    SkMatrixOps Int RefMatrix where
  zero := 0
  one := 1
  I := ⟨1, 0, 0, 0, 1, 0⟩
  preConcat := RefMatrix.mul
  setAll := fun sx kx tx ky sy ty _ _ _ => ⟨sx, kx, tx, ky, sy, ty⟩
  setTranslate := fun tx ty => ⟨1, 0, tx, 0, 1, ty⟩
  setScale := fun sx sy => ⟨sx, 0, 0, 0, sy, 0⟩
  setRotate := rot
  setSkewX := fun t => ⟨1, t, 0, 0, 1, 0⟩
  setSkewY := fun t => ⟨1, 0, 0, t, 1, 0⟩
  tanDegrees := tanDeg

/-! ## Typed values (`SkSVGValue.h`) -/

namespace SkSVGValue

/-- The enumeration `SkSVGValue::Type`, in the order of its declaration. -/
inductive ValueType where
  | kClip | kColor | kDashArray | kFillRule | kFontFamily | kFontSize | kFontStyle
  | kFontWeight | kGradientUnits | kLength | kLineCap | kLineJoin | kNumber | kPaint
  | kPath | kPoints | kPreserveAspectRatio | kSpreadMethod | kStopColor | kString
  | kTransform | kViewBox | kVisibility
deriving DecidableEq, Repr

end SkSVGValue

/-- The class `SkSVGValue`: its only state is the tag `fType`, set by the
protected constructor `SkSVGValue(Type t)`. -/
structure SkSVGValue where
  fType : SkSVGValue.ValueType
deriving DecidableEq, Repr

/-- The accessor `type()`. -/
def SkSVGValue.type (v : SkSVGValue) : SkSVGValue.ValueType := v.fType

/-- The member template `as<T>()`, with `T` given by its constant `T::TYPE`:
the value itself when the tags agree, `none` for the null pointer. -/
def SkSVGValue.as (TYPE : SkSVGValue.ValueType) (v : SkSVGValue) : Option SkSVGValue :=
  if v.fType = TYPE then some v else none

/-- The class template `SkSVGWrapperValue<T, ValueType>`: an `SkSVGValue` with
the wrapped payload. -/
structure SkSVGWrapperValue (T : Type) (VT : SkSVGValue.ValueType) where
  toValue : SkSVGValue
  fWrappedValue : T

/-- The constant `SkSVGWrapperValue<T, ValueType>::TYPE`. -/
def SkSVGWrapperValue.TYPE {T : Type} {VT : SkSVGValue.ValueType}
    (_ : SkSVGWrapperValue T VT) : SkSVGValue.ValueType := VT

/-- The constructor `SkSVGWrapperValue(const T& v)`, which initialises the base
class with `ValueType`. -/
def SkSVGWrapperValue.wrap {T : Type} (VT : SkSVGValue.ValueType) (v : T) :
    SkSVGWrapperValue T VT := ⟨⟨VT⟩, v⟩

/-- The `using` declarations of the wrapper aliases, in the order of the
header: the alias and the `SkSVGValue::Type` it is instantiated with. -/
def wrapperAliases : List (String × SkSVGValue.ValueType) :=
  [ ("SkSVGClipValue", .kClip), ("SkSVGColorValue", .kColor),
    ("SkSVGFillRuleValue", .kFillRule), ("SkSVGLengthValue", .kLength),
    ("SkSVGPathValue", .kPath), ("SkSVGTransformValue", .kTransform),
    ("SkSVGViewBoxValue", .kViewBox), ("SkSVGPaintValue", .kPaint),
    ("SkSVGLineCapValue", .kLineCap), ("SkSVGLineJoinValue", .kLineJoin),
    ("SkSVGNumberValue", .kNumber), ("SkSVGPointsValue", .kPoints),
    ("SkSVGStringValue", .kString), ("SkSVGSpreadMethodValue", .kSpreadMethod),
    ("SkSVGStopColorValue", .kStopColor), ("SkSVGGradientUnitsValue", .kGradientUnits),
    ("SkSVGVisibilityValue", .kVisibility), ("SkSVGDashArrayValue", .kDashArray),
    ("SkSVGFontFamilyValue", .kFontFamily), ("SkSVGFontSizeValue", .kFontSize),
    ("SkSVGFontStyleValue", .kFontStyle), ("SkSVGFontWeightValue", .kFontWeight),
    ("SkSVGPreserveAspectRatioValue", .kPreserveAspectRatio) ]

/-! ## The grammars in the words of the specification -/

/-- Modelled from the spec: the macro `SkColorGetA(color)` of `SkColor.h`, the
alpha byte of a color. -/
def SkColorGetA (c : SkColor) : Nat := (c >>> 24) &&& 0xFF

/-- A dash length in the words of the specification: a scalar with an optional
unit of the unit table, the number unit when there is none. -/
def dashLength (P : SkParse S) (cur : Cursor) : Option (SkSVGLength S × Cursor) :=
  match P.FindScalar cur with
  | none => none
  | some (v, c1) =>
    match parseLengthUnitToken c1 with
    | (some u, c2) => some (⟨v, u⟩, c2)
    | (none, _) => some (⟨v, SkSVGLength.Unit.kNumber⟩, c1)

/-- A list of dash lengths in the words of the specification: lengths separated
by separators, the last one followed by the end of input; `none` when the text
at the cursor is not such a list.  The first argument bounds the number of
lengths read. -/
def dashLengths (P : SkParse S) : Nat → Cursor → Option (List (SkSVGLength S))
  | 0, _ => none
  | fuel + 1, cur =>
    match dashLength P cur with
    | none => none
    | some (l, c) =>
      if parseEOSToken c then some [l]
      else if (parseSepToken c).1 then
        (dashLengths P fuel (parseSepToken c).2).map (fun ls => l :: ls)
      else none

/-- The two keywords that `parseGradientUnits` tests one after the other, as a
keyword table. -/
def gGradientUnitsInfo : List (String × SkSVGGradientUnits) :=
  [ ("userSpaceOnUse", .kUserSpaceOnUse), ("objectBoundingBox", .kObjectBoundingBox) ]

/-- A keyword grammar that matches whole strings exactly, in the words of the
specification: on a string without NUL byte it succeeds exactly when the string
is one keyword of the table, a keyword yields its constant, and a keyword
followed by a further character or cut short fails. -/
def ExactKeywordGrammar {T : Type} (parse : Cursor → Outcome T)
    (table : List (String × T)) : Prop :=
  (∀ s : Cursor, (∀ c ∈ s, is_eos c = false) →
    ((parse s).ok = true ↔ ∃ p ∈ table, s = p.1.toList)) ∧
  (∀ p ∈ table, parse p.1.toList = ⟨true, some p.2, []⟩) ∧
  (∀ p ∈ table, ∀ (c : Char) (rest : Cursor), is_eos c = false →
    (parse (p.1.toList ++ c :: rest)).ok = false) ∧
  (∀ p ∈ table, ∀ pre t : Cursor, p.1.toList = pre ++ t → t ≠ [] → (parse pre).ok = false)

/-- The end of `parseParenthesized` once the body has returned `r`: nothing
more on failure; on success the whitespace skip and the closing `)`. -/
def closeParenthesized {T : Type} (r : Option T × Cursor) : Option T × Cursor :=
  match r with
  | (none, c4) => (none, c4)
  | (some v, c4) =>
    (if (parseExpectedStringToken [')'] (parseWSToken c4).2).1 then some v else none,
     (parseExpectedStringToken [')'] (parseWSToken c4).2).2)

/-- The names of the transform functions, in the order `parseTransform` tries
them. -/
def transformNames : List String :=
  ["matrix", "translate", "scale", "rotate", "skewX", "skewY"]

/-! ## Cursor positions -/

/-- The position `q` lies at or after the position `p` of the same input and
not past its end: what remains at `p` is some consumed text followed by what
remains at `q`. -/
def Advances (p q : Cursor) : Prop := ∃ consumed : List Char, p = consumed ++ q

/-- The assumption on the external tokenizers: a successful call returns a
position between the one it was given and the end of the input. -/
def TokenizersAdvance (P : SkParse S) : Prop :=
  (∀ c v n, P.FindScalar c = some (v, n) → Advances c n) ∧
  (∀ c v n, P.FindHex c = some (v, n) → Advances c n) ∧
  (∀ c v n, P.FindS32 c = some (v, n) → Advances c n) ∧
  (∀ c v n, P.FindNamedColor c = some (v, n) → Advances c n)

/-- The assumption on the external numeric tokenizers: a successful call
consumes at least one character. -/
def NumericTokensConsume (P : SkParse S) : Prop :=
  (∀ c v n, P.FindScalar c = some (v, n) → ∃ consumed, consumed ≠ [] ∧ c = consumed ++ n) ∧
  (∀ c v n, P.FindHex c = some (v, n) → ∃ consumed, consumed ≠ [] ∧ c = consumed ++ n) ∧
  (∀ c v n, P.FindS32 c = some (v, n) → ∃ consumed, consumed ≠ [] ∧ c = consumed ++ n)

/-- The cursor `cur` stands at byte offset `p` of `input`: the offset does not
exceed the length of the input, and `cur` holds the bytes from that offset on. -/
def AtPosition (input : List Char) (p : Nat) (cur : Cursor) : Prop :=
  p ≤ input.length ∧ cur = input.drop p

/-- An operation entered at offset `p` of `input` has stopped with the cursor
`c`: the cursor stands at some offset `q` with `p ≤ q ≤ length input`. -/
def EndsWithin (input : List Char) (p : Nat) (c : Cursor) : Prop :=
  ∃ q, p ≤ q ∧ AtPosition input q c

/-! ## Basic facts about the token primitives -/

theorem char_toNat_lt (c : Char) : c.toNat < 1114112 := by
  have hv := c.valid
  simp only [UInt32.isValidChar, Nat.isValidChar] at hv
  show c.val.toNat < 1114112
  omega

theorem is_ws_iff (c : Char) : is_ws c = true ↔ 1 ≤ c.toNat ∧ c.toNat ≤ 32 := by
  have hlt := char_toNat_lt c
  unfold is_ws is_between
  simp only [decide_eq_true_eq]
  constructor
  · intro h
    omega
  · intro h
    omega

theorem is_ws_ne {w c : Char} (hw : is_ws w = true) (hc : is_ws c = false) : w ≠ c := by
  intro h
  rw [h, hc] at hw
  exact Bool.noConfusion hw

theorem is_sep_of_is_ws {c : Char} (h : is_ws c = true) : is_sep c = true := by
  simp [is_sep, h]

theorem is_eos_of_is_ws {c : Char} (h : is_ws c = true) : is_eos c = false := by
  have h1 := (is_ws_iff c).1 h
  simp only [is_eos, beq_eq_false_iff_ne, ne_eq]
  omega

theorem skipWhile_append (f : Char → Bool) (ws cur : Cursor)
    (h : ∀ c ∈ ws, f c = true) : skipWhile f (ws ++ cur) = skipWhile f cur := by
  induction ws with
  | nil => rfl
  | cons w ws ih =>
    have hw : f w = true := h w (List.mem_cons_self _ _)
    have hrest : ∀ c ∈ ws, f c = true := fun c hc => h c (List.mem_cons_of_mem _ hc)
    simp [skipWhile, hw, ih hrest]

theorem skipWhile_stop (f : Char → Bool) (c : Char) (cs : Cursor)
    (h : f c = false) : skipWhile f (c :: cs) = c :: cs := by
  simp [skipWhile, h]

theorem skipWhile_peek (f : Char → Bool) (cur : Cursor)
    (h : f (peek cur) = false) : skipWhile f cur = cur := by
  cases cur with
  | nil => rfl
  | cons c cs =>
    have hc : f c = false := by simpa [peek] using h
    simp [skipWhile, hc]

theorem matchExpected_append (e c : Cursor) : matchExpected e (e ++ c) = some c := by
  induction e with
  | nil => cases c <;> rfl
  | cons x xs ih => simp [matchExpected, ih]

theorem matchExpected_eq_some {e cur c : Cursor} (h : matchExpected e cur = some c) :
    cur = e ++ c := by
  induction e generalizing cur with
  | nil =>
    cases cur <;> simp [matchExpected] at h <;> simp [h]
  | cons x xs ih =>
    cases cur with
    | nil => simp [matchExpected] at h
    | cons y ys =>
      simp only [matchExpected] at h
      split at h
      · rename_i hxy
        rw [hxy, ih h]
        rfl
      · exact Option.noConfusion h

theorem parseExpectedStringToken_append (e c : Cursor) :
    parseExpectedStringToken e (e ++ c) = (true, c) := by
  simp [parseExpectedStringToken, matchExpected_append]

theorem parseExpectedStringToken_fail {e cur : Cursor}
    (h : ∀ t, cur ≠ e ++ t) : parseExpectedStringToken e cur = (false, cur) := by
  unfold parseExpectedStringToken
  cases hm : matchExpected e cur with
  | none => rfl
  | some c => exact absurd (matchExpected_eq_some hm) (h c)

theorem parseEnumMap_none {T : Type} (table : List (String × T)) (cur : Cursor)
    (h : ∀ p ∈ table, ∀ t, cur ≠ p.1.toList ++ t) : parseEnumMap table cur = (none, cur) := by
  induction table with
  | nil => rfl
  | cons p rest ih =>
    obtain ⟨k, v⟩ := p
    have hk : parseExpectedStringToken k.toList cur = (false, cur) :=
      parseExpectedStringToken_fail (h (k, v) (List.mem_cons_self _ _))
    have hrest : ∀ q ∈ rest, ∀ t, cur ≠ q.1.toList ++ t :=
      fun q hq => h q (List.mem_cons_of_mem _ hq)
    rw [parseEnumMap]
    simp only [hk, Bool.false_eq_true, if_false]
    exact ih hrest

theorem parseSepToken_skip (ws : Cursor) (g : Char) (gs : Cursor)
    (hws : ws ≠ []) (hall : ∀ c ∈ ws, is_ws c = true) (hg : is_sep g = false) :
    parseSepToken (ws ++ g :: gs) = (true, g :: gs) := by
  have hsep : ∀ c ∈ ws, is_sep c = true := fun c hc => is_sep_of_is_ws (hall c hc)
  have hlen : 0 < ws.length := List.length_pos.2 hws
  unfold parseSepToken advanceWhile
  rw [skipWhile_append is_sep ws (g :: gs) hsep, skipWhile_stop is_sep g gs hg]
  simp only [List.length_append, List.length_cons, ne_eq, Prod.mk.injEq, decide_eq_true_eq,
    and_true]
  omega

theorem parseSepToken_stop (g : Char) (gs : Cursor) (hg : is_sep g = false) :
    parseSepToken (g :: gs) = (false, g :: gs) := by
  unfold parseSepToken advanceWhile
  rw [skipWhile_stop is_sep g gs hg]
  simp

theorem parseLengthUnitToken_unit {u : String} {unit : SkSVGLength.Unit}
    (hu : (u, unit) ∈ gUnitInfo) (rest : Cursor) :
    parseLengthUnitToken (u.toList ++ rest) = (some unit, rest) := by
  unfold gUnitInfo at hu
  fin_cases hu <;>
  simp [parseLengthUnitToken, gUnitInfo, parseEnumMap, parseExpectedStringToken, matchExpected]

theorem parseLengthUnitToken_ws (w : Char) (rest : Cursor) (hw : is_ws w = true) :
    parseLengthUnitToken (w :: rest) = (none, w :: rest) := by
  apply parseEnumMap_none
  intro p hp t
  unfold gUnitInfo at hp
  fin_cases hp <;>
  · intro h
    have hc := (List.cons.inj h).1
    rw [hc] at hw
    exact absurd hw (by decide)

/-! ## Lengths -/

/-- C1 (counterexample): `parseLength("10px extra")` returns success with the
length (10, px) and leaves `extra` unread. -/
theorem parseLength_trailing_garbage_accepted :
    parseLength refParse "10px extra".toList
      = ⟨true, some ⟨10, SkSVGLength.Unit.kPX⟩, "extra".toList⟩ := by
  decide

/-- C1 (amended): `parseLength` has no end-of-input check.  On an input made of
a scalar token, an optional unit of the unit table, one or more whitespace
characters and then text that begins with a non-separator character, it
succeeds with that scalar and unit (the number unit when there is none) and
returns with the cursor on the first character of the trailing text, which is
not the end of input. -/
theorem parseLength_leaves_trailing_garbage (P : SkParse S) (inp : Cursor) (v : S)
    (u : String) (unit : SkSVGLength.Unit) (ws : Cursor) (g : Char) (gs : Cursor)
    (hunit : (u, unit) ∈ gUnitInfo ∨ (u = "" ∧ unit = SkSVGLength.Unit.kNumber))
    (hscalar : P.FindScalar inp = some (v, u.toList ++ (ws ++ g :: gs)))
    (hws : ws ≠ []) (hall : ∀ c ∈ ws, is_ws c = true)
    (hg : is_sep g = false) (hg0 : is_eos g = false) :
    parseLength P inp = ⟨true, some ⟨v, unit⟩, g :: gs⟩ ∧
      parseEOSToken (g :: gs) = false := by
  have hr : parseScalarToken P inp = (some v, u.toList ++ (ws ++ g :: gs)) := by
    simp [parseScalarToken, hscalar]
  have hEOS : parseEOSToken (g :: gs) = false := by
    simpa [parseEOSToken, peek] using hg0
  refine ⟨?_, hEOS⟩
  rcases hunit with hu | ⟨rfl, rfl⟩
  · unfold parseLength
    rw [hr]
    simp only
    rw [parseLengthUnitToken_unit hu]
    simp only
    rw [parseSepToken_skip ws g gs hws hall hg]
  · obtain ⟨w, ws', rfl⟩ := List.exists_cons_of_ne_nil hws
    have hw : is_ws w = true := hall w (List.mem_cons_self _ _)
    have hcur : "".toList ++ (w :: ws' ++ g :: gs) = w :: (ws' ++ g :: gs) := rfl
    unfold parseLength
    rw [hr, hcur]
    simp only
    rw [parseLengthUnitToken_ws w _ hw]
    simp only
    have hsk := parseSepToken_skip (w :: ws') g gs hws hall hg
    rw [List.cons_append] at hsk
    rw [hsk]
    simp [parseSepToken_stop g gs hg]

theorem parseLength_leaves_trailing_garbage_witness :
    refParse.FindScalar "10px extra".toList = some (10, "px extra".toList) ∧
    parseLength refParse "10px extra".toList
      = ⟨true, some ⟨10, SkSVGLength.Unit.kPX⟩, "extra".toList⟩ ∧
    parseEOSToken "extra".toList = false :=
  ⟨by decide,
   parseLength_leaves_trailing_garbage refParse "10px extra".toList 10 "px"
     SkSVGLength.Unit.kPX [' '] 'e' "xtra".toList (Or.inl (by decide)) (by decide)
     (by decide) (by decide) (by decide) (by decide)⟩

/-- C7: `parseLength` yields the scalar and its unit.  Once the scalar token has
read `v`: a unit literal of the table followed by the end of input yields
`(v, unit)`; the end of input yields `(v, number)`; text that is no unit,
separator or end of input makes the call fail.  So `"50%"` yields
(50, percentage), `"50"` yields (50, number) and `"50xx"` fails. -/
theorem parseLength_scalar_and_unit (P : SkParse S) (inp rest : Cursor) (v : S)
    (hscalar : P.FindScalar inp = some (v, rest)) :
    (∀ u unit, (u, unit) ∈ gUnitInfo → rest = u.toList →
        parseLength P inp = ⟨true, some ⟨v, unit⟩, []⟩) ∧
    (rest = [] → parseLength P inp = ⟨true, some ⟨v, SkSVGLength.Unit.kNumber⟩, []⟩) ∧
    (∀ c cs, rest = c :: cs → is_sep c = false → is_eos c = false →
        (∀ p ∈ gUnitInfo, ∀ t, rest ≠ p.1.toList ++ t) →
        (parseLength P inp).ok = false ∧ (parseLength P inp).out = none) ∧
    parseLength refParse "50%".toList
      = ⟨true, some ⟨50, SkSVGLength.Unit.kPercentage⟩, []⟩ ∧
    parseLength refParse "50".toList = ⟨true, some ⟨50, SkSVGLength.Unit.kNumber⟩, []⟩ ∧
    (parseLength refParse "50xx".toList).ok = false := by
  have hr : parseScalarToken P inp = (some v, rest) := by
    simp [parseScalarToken, hscalar]
  refine ⟨?_, ?_, ?_, by decide, by decide, by decide⟩
  · intro u unit hu hrest
    have h := parseLengthUnitToken_unit hu []
    rw [List.append_nil] at h
    unfold parseLength
    rw [hr]
    simp only
    rw [hrest, h]
    rfl
  · intro hrest
    subst hrest
    unfold parseLength
    rw [hr]
    rfl
  · intro c cs hrest hsep heos hnounit
    have hu : parseLengthUnitToken rest = (none, rest) := parseEnumMap_none _ _ hnounit
    have hs : parseSepToken rest = (false, rest) := by
      rw [hrest]
      exact parseSepToken_stop c cs hsep
    have he : parseEOSToken rest = false := by
      rw [hrest]
      simpa [parseEOSToken, peek] using heos
    unfold parseLength
    rw [hr]
    simp only
    rw [hu]
    simp only
    rw [hs]
    simp [he]

theorem parseLength_scalar_and_unit_witness :
    refParse.FindScalar "50%".toList = some (50, "%".toList) ∧
    parseLength refParse "50%".toList
      = ⟨true, some ⟨50, SkSVGLength.Unit.kPercentage⟩, []⟩ :=
  ⟨by decide,
   (parseLength_scalar_and_unit refParse "50%".toList "%".toList 50 (by decide)).1
     "%" SkSVGLength.Unit.kPercentage (by decide) rfl⟩

/-! ## Paints -/

/-- C2 (failing input): on `"rgb(1,2,3)none"` the color alternative consumes
`rgb(1,2,3)` and fails only at its end-of-input check; the cursor stays behind
the color, the keyword `none` then matches, and `parsePaint` returns success with
the none paint. -/
theorem parsePaint_color_then_keyword_accepted :
    parsePaint refParse "rgb(1,2,3)none".toList = ⟨true, some SkSVGPaint.kNone, []⟩ ∧
    parseColor refParse "rgb(1,2,3)none".toList
      = ⟨false, some (SkColorSetRGB 1 2 3), "none".toList⟩ := by
  constructor <;> decide

/-! ## Output values on failure -/

theorem parseEnumMap_some {T : Type} (table : List (String × T)) (cur c : Cursor) (v : T)
    (h : parseEnumMap table cur = (some v, c)) :
    ∃ k, (k, v) ∈ table ∧ cur = k.toList ++ c := by
  induction table with
  | nil => simp [parseEnumMap] at h
  | cons p rest ih =>
    obtain ⟨k, w⟩ := p
    rw [parseEnumMap] at h
    unfold parseExpectedStringToken at h
    cases hm : matchExpected k.toList cur with
    | none =>
      rw [hm] at h
      simp only [Bool.false_eq_true, if_false] at h
      obtain ⟨k2, hk2, hc⟩ := ih h
      exact ⟨k2, List.mem_cons_of_mem _ hk2, hc⟩
    | some c2 =>
      rw [hm] at h
      simp only [if_true, Prod.mk.injEq, Option.some.injEq] at h
      obtain ⟨rfl, rfl⟩ := h
      exact ⟨k, List.mem_cons_self _ _, matchExpected_eq_some hm⟩

theorem parseLength_fail_out (P : SkParse S) (cur : Cursor)
    (h : (parseLength P cur).ok = false) : (parseLength P cur).out = none := by
  unfold parseLength at h ⊢
  split
  · rfl
  · rename_i s c1 hsc
    rw [hsc] at h
    simp only at h
    split
    · rename_i u c2 hu
      rw [hu] at h
      simp at h
    · rename_i c2 hu
      rw [hu] at h
      simp only at h ⊢
      split
      · rename_i hc
        rw [if_pos hc] at h
        simp at h
      · rfl

theorem parseTransform_fail_out (P : SkParse S) (M : SkMatrixOps S Mat) (cur : Cursor)
    (r : Outcome Mat) (hr : parseTransform P M cur = some r) (h : r.ok = false) :
    r.out = none := by
  unfold parseTransform at hr
  split at hr
  · exact Option.noConfusion hr
  · simp only at hr
    split at hr
    · simp only [Option.some.injEq] at hr
      rw [← hr]
    · simp only [Option.some.injEq] at hr
      rw [← hr] at h
      simp at h

theorem parsePoints_fail_out (P : SkParse S) (cur : Cursor)
    (r : Outcome (SkSVGPointsType S)) (hr : parsePoints P cur = some r) (h : r.ok = false) :
    r.out = none := by
  unfold parsePoints at hr
  simp only at hr
  split at hr
  · exact Option.noConfusion hr
  · split at hr
    · simp only [Option.some.injEq] at hr
      rw [← hr] at h
      simp at h
    · simp only [Option.some.injEq] at hr
      rw [← hr]

/-- C3 (counterexample): `parseLineCap("buttx")` returns failure, yet an output
that held `round` before the call holds `butt` after it. -/
theorem parseLineCap_failure_overwrites :
    (parseLineCap "buttx".toList).ok = false ∧
    (parseLineCap "buttx".toList).output SkSVGLineCap.kRound = SkSVGLineCap.kButt ∧
    (parsePreserveAspectRatio "xMidYMid garbage".toList ⟨.kNone, .kMeet⟩).ok = false ∧
    (parsePreserveAspectRatio "xMidYMid garbage".toList ⟨.kNone, .kMeet⟩).output
        ⟨.kNone, .kMeet⟩ = ⟨.kXMidYMid, .kMeet⟩ := by
  refine ⟨by decide, by decide, by decide, by decide⟩

/-- C3 (amended): failure is atomic for `parseLength`, `parseTransform` and
`parsePoints`, which store their result only when they return success.  It is
not for the grammars that store the matched value before the final end-of-input
check: when `parseLineCap` fails, the output is either untouched or already holds
the constant of a keyword that starts the input and is followed by further
input; when `parsePreserveAspectRatio` fails, the output is either untouched or
its alignment field already holds the alignment keyword that was matched. -/
theorem failure_output_by_grammar :
    (∀ (P : SkParse S) (cur : Cursor) (old : SkSVGLength S),
      (parseLength P cur).ok = false → (parseLength P cur).output old = old) ∧
    (∀ (P : SkParse S) (M : SkMatrixOps S Mat) (cur : Cursor) (r : Outcome Mat) (old : Mat),
      parseTransform P M cur = some r → r.ok = false → r.output old = old) ∧
    (∀ (P : SkParse S) (cur : Cursor) (r : Outcome (SkSVGPointsType S))
        (old : SkSVGPointsType S),
      parsePoints P cur = some r → r.ok = false → r.output old = old) ∧
    (∀ (cur : Cursor) (old : SkSVGLineCap), (parseLineCap cur).ok = false →
      (parseLineCap cur).output old = old ∨
      ∃ k v t, (k, v) ∈ gCapInfo ∧ cur = k.toList ++ t ∧ parseEOSToken t = false ∧
        (parseLineCap cur).output old = v) ∧
    (∀ (cur : Cursor) (par : SkSVGPreserveAspectRatio),
      (parsePreserveAspectRatio cur par).ok = false →
      (parsePreserveAspectRatio cur par).output par = par ∨
      ∃ k a t, (k, a) ∈ gAlignMap ∧
        (parseWSToken (parseExpectedStringToken "defer".toList cur).2).2 = k.toList ++ t ∧
        parseEOSToken (parsePreserveAspectRatio cur par).cur = false ∧
        ((parsePreserveAspectRatio cur par).output par).fAlign = a) := by
  refine ⟨?_, ?_, ?_, ?_, ?_⟩
  · intro P cur old h
    simp [Outcome.output, parseLength_fail_out P cur h]
  · intro P M cur r old hr h
    simp [Outcome.output, parseTransform_fail_out P M cur r hr h]
  · intro P cur r old hr h
    simp [Outcome.output, parsePoints_fail_out P cur r hr h]
  · intro cur old h
    unfold parseLineCap parseKeyword at h ⊢
    cases hm : parseEnumMap gCapInfo cur with
    | mk o c =>
      cases o with
      | none => left; rfl
      | some v =>
        right
        rw [hm] at h
        obtain ⟨k, hk, hc⟩ := parseEnumMap_some gCapInfo cur c v hm
        exact ⟨k, v, c, hk, hc, h, rfl⟩
  · intro cur par h
    unfold parsePreserveAspectRatio at h ⊢
    simp only at h ⊢
    cases hm : parseEnumMap gAlignMap
        (parseWSToken (parseExpectedStringToken "defer".toList cur).2).2 with
    | mk o c =>
      cases o with
      | none => left; rfl
      | some a =>
        right
        rw [hm] at h
        obtain ⟨k, hk, hc⟩ := parseEnumMap_some gAlignMap _ c a hm
        refine ⟨k, a, c, hk, hc, ?_, ?_⟩
        · simp only at h ⊢
          split at h <;> exact h
        · simp only
          split <;> rfl

theorem failure_output_by_grammar_witness :
    (parseLength refParse "px".toList).ok = false ∧
    (parseLength refParse "px".toList).output ⟨7, SkSVGLength.Unit.kCM⟩
      = ⟨7, SkSVGLength.Unit.kCM⟩ :=
  ⟨by decide,
   (@failure_output_by_grammar Int RefMatrix).1 refParse "px".toList
     ⟨7, SkSVGLength.Unit.kCM⟩ (by decide)⟩

/-! ## Whitespace around a value -/

theorem parseWSToken_append (ws cur : Cursor) (h : ∀ c ∈ ws, is_ws c = true) :
    (parseWSToken (ws ++ cur)).2 = (parseWSToken cur).2 := by
  simp [parseWSToken, advanceWhile, skipWhile_append is_ws ws cur h]

theorem parseEOSToken_nil_of_no_nul (c : Cursor) (h : parseEOSToken c = true)
    (hc : ∀ x ∈ c, is_eos x = false) : c = [] := by
  cases c with
  | nil => rfl
  | cons x xs =>
    have hx := hc x (List.mem_cons_self _ _)
    simp only [parseEOSToken, peek, List.headD_cons] at h
    rw [hx] at h
    exact Bool.noConfusion h

theorem parseEOSToken_ws (w : Char) (rest : Cursor) (hw : is_ws w = true) :
    parseEOSToken (w :: rest) = false := by
  simpa [parseEOSToken, peek] using is_eos_of_is_ws hw

theorem parseLineCap_leading_ws (w : Char) (rest : Cursor) (hw : is_ws w = true) :
    (parseLineCap (w :: rest)).ok = false := by
  have hnone : parseEnumMap gCapInfo (w :: rest) = (none, w :: rest) := by
    apply parseEnumMap_none
    intro p hp t
    unfold gCapInfo at hp
    fin_cases hp <;>
    · intro h
      have hc := (List.cons.inj h).1
      rw [hc] at hw
      exact absurd hw (by decide)
  simp [parseLineCap, parseKeyword, hnone]

theorem parseLineCap_trailing_ws (s : Cursor) (w : Char) (rest : Cursor)
    (hw : is_ws w = true) (hs : ∀ c ∈ s, is_eos c = false)
    (hok : (parseLineCap s).ok = true) : (parseLineCap (s ++ w :: rest)).ok = false := by
  have he := parseEOSToken_ws w rest hw
  unfold parseLineCap parseKeyword at hok
  cases hm : parseEnumMap gCapInfo s with
  | mk o c =>
    cases o with
    | none =>
      rw [hm] at hok
      exact Bool.noConfusion hok
    | some v =>
      rw [hm] at hok
      obtain ⟨k, hk, hc⟩ := parseEnumMap_some gCapInfo s c v hm
      have hcs : ∀ x ∈ c, is_eos x = false := by
        intro x hx
        apply hs
        rw [hc]
        exact List.mem_append_right _ hx
      have hnil := parseEOSToken_nil_of_no_nul c hok hcs
      rw [hnil, List.append_nil] at hc
      rw [hc]
      unfold gCapInfo at hk
      fin_cases hk <;>
      simp [parseLineCap, parseKeyword, gCapInfo, parseEnumMap, parseExpectedStringToken,
        matchExpected, storeThenEOS, he]

theorem parseClipPath_leading_ws (ws : Cursor) (k : String) (hws : ws ≠ [])
    (hall : ∀ c ∈ ws, is_ws c = true) (hk : k = "none" ∨ k = "inherit") :
    (parseClipPath (ws ++ k.toList)).ok = false := by
  have hskip : (parseWSToken (ws ++ k.toList)).2 = k.toList := by
    rw [parseWSToken_append ws k.toList hall]
    rcases hk with rfl | rfl <;> decide
  obtain ⟨w, ws', rfl⟩ := List.exists_cons_of_ne_nil hws
  have hw : is_ws w = true := hall w (List.mem_cons_self _ _)
  have hn : w ≠ 'n' := is_ws_ne hw (by decide)
  have hi : w ≠ 'i' := is_ws_ne hw (by decide)
  have h1 : parseExpectedStringToken "none".toList (w :: ws' ++ k.toList)
      = (false, w :: ws' ++ k.toList) := by
    simp [parseExpectedStringToken, matchExpected, hn]
  have h2 : parseExpectedStringToken "inherit".toList (w :: ws' ++ k.toList)
      = (false, w :: ws' ++ k.toList) := by
    simp [parseExpectedStringToken, matchExpected, hi]
  have h3 : (parseFuncIRI (w :: ws' ++ k.toList)).1 = none := by
    unfold parseFuncIRI parseParenthesized
    simp only
    rw [hskip]
    rcases hk with rfl | rfl <;> decide
  unfold parseClipPath
  simp only [h1, h2, Bool.false_eq_true, if_false]
  cases hf : parseFuncIRI (w :: ws' ++ k.toList) with
  | mk o c =>
    rw [hf] at h3
    simp only at h3
    subst h3
    rfl

theorem parseClipPath_trailing_ws (ws : Cursor) (k : String) (hws : ws ≠ [])
    (hall : ∀ c ∈ ws, is_ws c = true) (hk : k = "none" ∨ k = "inherit") :
    (parseClipPath (k.toList ++ ws)).ok = false := by
  obtain ⟨w, ws', rfl⟩ := List.exists_cons_of_ne_nil hws
  have hw : is_ws w = true := hall w (List.mem_cons_self _ _)
  have he := parseEOSToken_ws w ws' hw
  rcases hk with rfl | rfl <;>
  simp [parseClipPath, parseExpectedStringToken, matchExpected, storeThenEOS, he]

/-- C4 (counterexample): `parseLineCap("butt")` succeeds, while
`parseLineCap(" butt")` and `parseLineCap("butt ")` both fail. -/
theorem parseLineCap_rejects_surrounding_whitespace :
    parseLineCap "butt".toList = ⟨true, some SkSVGLineCap.kButt, []⟩ ∧
    (parseLineCap " butt".toList).ok = false ∧
    (parseLineCap "butt ".toList).ok = false := by
  refine ⟨by decide, by decide, by decide⟩

theorem parseColor_ok_at_eos (P : SkParse S) (cur : Cursor)
    (h : (parseColor P cur).ok = true) : parseEOSToken (parseColor P cur).cur = true := by
  unfold parseColor at h ⊢
  split
  · rename_i c c1 htok
    rw [htok] at h
    exact h
  · rename_i c1 htok
    rw [htok] at h
    exact Bool.noConfusion h

/-- C4 (amended): whitespace is tolerated only where a grammar skips it.
`parseColor`, `parseViewBox` and `parsePoints` begin with a whitespace skip, so
prepending whitespace characters (bytes 1..32) to any input leaves their result
unchanged, and `parsePaint` accepts every input that `parseColor` accepts, with
whitespace prepended, as that color.  The keyword grammars skip none:
`parseLineCap` rejects every input that begins with whitespace and every
accepted keyword with whitespace appended, and `parseClipPath` rejects `none`
and `inherit` with whitespace prepended or appended. -/
theorem whitespace_tolerance_by_grammar :
    (∀ (P : SkParse S) (ws cur : Cursor), (∀ c ∈ ws, is_ws c = true) →
      parseColor P (ws ++ cur) = parseColor P cur ∧
      parseViewBox P (ws ++ cur) = parseViewBox P cur ∧
      parsePoints P (ws ++ cur) = parsePoints P cur ∧
      ((parseColor P cur).ok = true →
        parsePaint P (ws ++ cur)
          = ⟨true, (parseColor P cur).out.map SkSVGPaint.kColor, (parseColor P cur).cur⟩)) ∧
    (∀ (ws s : Cursor), ws ≠ [] → (∀ c ∈ ws, is_ws c = true) →
      (parseLineCap (ws ++ s)).ok = false) ∧
    (∀ (ws s : Cursor), ws ≠ [] → (∀ c ∈ ws, is_ws c = true) →
      (∀ c ∈ s, is_eos c = false) → (parseLineCap s).ok = true →
      (parseLineCap (s ++ ws)).ok = false) ∧
    (∀ (ws : Cursor) (k : String), ws ≠ [] → (∀ c ∈ ws, is_ws c = true) →
      k = "none" ∨ k = "inherit" →
      (parseClipPath (ws ++ k.toList)).ok = false ∧
      (parseClipPath (k.toList ++ ws)).ok = false) := by
  refine ⟨?_, ?_, ?_, ?_⟩
  · intro P ws cur hall
    have hws := parseWSToken_append ws cur hall
    have hcolor : parseColor P (ws ++ cur) = parseColor P cur := by
      unfold parseColor
      rw [hws]
    refine ⟨hcolor, ?_, ?_, ?_⟩
    · unfold parseViewBox
      rw [hws]
    · unfold parsePoints
      have hadv : (advanceWhile is_ws (ws ++ cur)).2 = (advanceWhile is_ws cur).2 := hws
      simp only [hadv]
    · intro hok
      have heos := parseColor_ok_at_eos P cur hok
      unfold parsePaint
      simp only [hcolor, hok, if_true, heos]
  · intro ws s hws hall
    obtain ⟨w, ws', rfl⟩ := List.exists_cons_of_ne_nil hws
    exact parseLineCap_leading_ws w (ws' ++ s) (hall w (List.mem_cons_self _ _))
  · intro ws s hws hall hs hok
    obtain ⟨w, ws', rfl⟩ := List.exists_cons_of_ne_nil hws
    exact parseLineCap_trailing_ws s w ws' (hall w (List.mem_cons_self _ _)) hs hok
  · intro ws k hws hall hk
    exact ⟨parseClipPath_leading_ws ws k hws hall hk,
      parseClipPath_trailing_ws ws k hws hall hk⟩

theorem whitespace_tolerance_by_grammar_witness :
    parseColor refParse "red".toList = ⟨true, some 0xFFFF0000, []⟩ ∧
    parsePaint refParse (" \t".toList ++ "red".toList)
      = ⟨true, some (SkSVGPaint.kColor 0xFFFF0000), []⟩ :=
  ⟨by decide,
   ((@whitespace_tolerance_by_grammar Int).1 refParse " \t".toList "red".toList
      (by decide)).2.2.2 (by decide)⟩

/-! ## Font weights -/

/-- C6 (failing input): on `"bolder"` the table entry `bold`, which comes first,
matches as a prefix; the constant for `bold` is stored, `er` remains, and the
end-of-input check fails the call. -/
theorem parseFontWeight_bolder_rejected :
    parseFontWeight "bolder".toList = ⟨false, some SkSVGFontWeight.kBold, "er".toList⟩ ∧
    ("bolder", SkSVGFontWeight.kBolder) ∈ gWeightMap := by
  constructor <;> decide

/-! ## Colors -/

/-- C9: the three color notations agree.  With a hex tokenizer that reads
`ff0000`, a signed-integer tokenizer that reads the three channels, and a
named-color table that maps `red` to opaque red and does not know
`rgb(255,0,0)`, the inputs `#ff0000`, `rgb(255,0,0)` and `red` all succeed with
the color of alpha 255, red 255, green 0, blue 0. -/
theorem parseColor_notations_agree (P : SkParse S)
    (hhex : P.FindHex "ff0000".toList = some (0xff0000, []))
    (hnamed : P.FindNamedColor "red".toList = some (SkColorSetARGB 255 255 0 0, []))
    (hnot : P.FindNamedColor "rgb(255,0,0)".toList = none)
    (hr : P.FindS32 "255,0,0)".toList = some (255, ",0,0)".toList))
    (hg : P.FindS32 "0,0)".toList = some (0, ",0)".toList))
    (hb : P.FindS32 "0)".toList = some (0, ")".toList)) :
    parseColor P "#ff0000".toList = ⟨true, some (SkColorSetARGB 255 255 0 0), []⟩ ∧
    parseColor P "rgb(255,0,0)".toList = ⟨true, some (SkColorSetARGB 255 255 0 0), []⟩ ∧
    parseColor P "red".toList = ⟨true, some (SkColorSetARGB 255 255 0 0), []⟩ := by
  have hhex' : P.FindHex ['f', 'f', '0', '0', '0', '0'] = some (0xff0000, []) := hhex
  have hnamed' : P.FindNamedColor ['r', 'e', 'd'] = some (SkColorSetARGB 255 255 0 0, []) :=
    hnamed
  have hnot' : P.FindNamedColor ['r', 'g', 'b', '(', '2', '5', '5', ',', '0', ',', '0', ')']
      = none := hnot
  have hr' : P.FindS32 ['2', '5', '5', ',', '0', ',', '0', ')']
      = some (255, [',', '0', ',', '0', ')']) := hr
  have hg' : P.FindS32 ['0', ',', '0', ')'] = some (0, [',', '0', ')']) := hg
  have hb' : P.FindS32 ['0', ')'] = some (0, [')']) := hb
  have hsep : is_sep ',' = true := by decide
  have hd : is_sep '0' = false := by decide
  have hws1 : is_ws '#' = false := by decide
  have hws2 : is_ws 'r' = false := by decide
  have hws3 : is_ws '(' = false := by decide
  have hws4 : is_ws '2' = false := by decide
  have hws5 : is_ws ')' = false := by decide
  have hval : (0xff0000 ||| 0xff000000 : Nat) = SkColorSetARGB 255 255 0 0 := by decide
  have hrgb : SkColorSetRGB 255 0 0 = SkColorSetARGB 255 255 0 0 := rfl
  refine ⟨?_, ?_, ?_⟩
  · simp [parseColor, colorToken, parseHexColorToken, parseHexToken, parseExpectedStringToken,
      matchExpected, parseWSToken, advanceWhile, skipWhile, storeThenEOS, parseEOSToken, peek,
      is_eos, hhex', hws1, hval]
  · simp [parseColor, colorToken, parseHexColorToken, parseNamedColorToken, parseRGBColorToken,
      parseParenthesized, rgbBody, parseColorComponentToken, parseIntegral, parseSepToken,
      parseExpectedStringToken, matchExpected, parseWSToken, advanceWhile, skipWhile,
      storeThenEOS, parseEOSToken, peek, is_eos, SkTPin, hnot', hr', hg', hb', hsep, hd,
      hws2, hws3, hws4, hws5, hrgb]
  · simp [parseColor, colorToken, parseHexColorToken, parseNamedColorToken,
      parseExpectedStringToken, matchExpected, parseWSToken, advanceWhile, skipWhile,
      storeThenEOS, parseEOSToken, peek, is_eos, hnamed', hws2]

theorem parseColor_notations_agree_witness :
    parseColor refParse "#ff0000".toList = ⟨true, some (SkColorSetARGB 255 255 0 0), []⟩ ∧
    parseColor refParse "rgb(255,0,0)".toList
      = ⟨true, some (SkColorSetARGB 255 255 0 0), []⟩ ∧
    parseColor refParse "red".toList = ⟨true, some (SkColorSetARGB 255 255 0 0), []⟩ :=
  parseColor_notations_agree refParse (by decide) (by decide) (by decide) (by decide)
    (by decide) (by decide)

/-! ## preserveAspectRatio -/

theorem skipWhile_eq_dropWhile (f : Char → Bool) (cur : Cursor) :
    skipWhile f cur = cur.dropWhile f := by
  induction cur with
  | nil => rfl
  | cons c cs ih =>
    by_cases h : f c = true
    · simp [skipWhile, List.dropWhile, h, ih]
    · simp [skipWhile, List.dropWhile, h]

theorem matchExpected_eq_drop (e cur : Cursor) :
    matchExpected e cur = if e.isPrefixOf cur then some (cur.drop e.length) else none := by
  induction e generalizing cur with
  | nil => cases cur <;> simp [matchExpected]
  | cons x xs ih =>
    cases cur with
    | nil => simp [matchExpected]
    | cons y ys =>
      by_cases h : y = x
      · subst h
        simp [matchExpected, ih]
      · have h2 : ¬ x = y := fun hxy => h hxy.symm
        simp [matchExpected, h, h2]

theorem alignmentPosition_eq (cur : Cursor) :
    (parseWSToken (parseExpectedStringToken "defer".toList cur).2).2
      = alignmentPosition cur := by
  have hlen : "defer".toList.length = 5 := rfl
  unfold alignmentPosition parseWSToken advanceWhile parseExpectedStringToken
  rw [matchExpected_eq_drop, hlen]
  simp only [skipWhile_eq_dropWhile]
  by_cases h : "defer".toList.isPrefixOf cur = true
  · rw [if_pos h, if_pos h]
  · rw [if_neg h, if_neg h]

/-- C10: `parsePreserveAspectRatio` requires an alignment keyword.  For every
entry of the alignment table and every entry of the scale table, the input
`"<align> <scale>"` yields that alignment and that scale; every input with no
alignment keyword at the alignment position (after an optional `defer` and
whitespace) fails and stores nothing.  So `"xMidYMid slice"` yields
(xMidYMid, slice) and `"slice"` fails. -/
theorem parsePreserveAspectRatio_alignment_required :
    gAlignMap.length = 10 ∧
    (∀ a ∈ gAlignMap, ∀ c ∈ gScaleMap, ∀ par : SkSVGPreserveAspectRatio,
      parsePreserveAspectRatio (a.1.toList ++ ' ' :: c.1.toList) par
        = ⟨true, some ⟨a.2, c.2⟩, []⟩) ∧
    (∀ (cur : Cursor) (par : SkSVGPreserveAspectRatio),
      (∀ p ∈ gAlignMap, ∀ t, alignmentPosition cur ≠ p.1.toList ++ t) →
      (parsePreserveAspectRatio cur par).ok = false ∧
      (parsePreserveAspectRatio cur par).out = none) ∧
    (∀ par : SkSVGPreserveAspectRatio,
      parsePreserveAspectRatio "xMidYMid slice".toList par
        = ⟨true, some ⟨.kXMidYMid, .kSlice⟩, []⟩) ∧
    (∀ par : SkSVGPreserveAspectRatio,
      (parsePreserveAspectRatio "slice".toList par).ok = false) := by
  refine ⟨rfl, ?_, ?_, fun _ => rfl, fun _ => rfl⟩
  · intro a ha c hc par
    unfold gAlignMap at ha
    unfold gScaleMap at hc
    fin_cases ha <;> fin_cases hc <;> rfl
  · intro cur par hno
    have hnone := parseEnumMap_none gAlignMap (alignmentPosition cur) hno
    unfold parsePreserveAspectRatio
    simp only
    rw [alignmentPosition_eq, hnone]
    exact ⟨rfl, rfl⟩

theorem parsePreserveAspectRatio_alignment_required_witness :
    ("xMaxYMin", SkSVGPreserveAspectRatio.Align.kXMaxYMin) ∈ gAlignMap ∧
    ("meet", SkSVGPreserveAspectRatio.Scale.kMeet) ∈ gScaleMap ∧
    parsePreserveAspectRatio "xMaxYMin meet".toList ⟨.kNone, .kSlice⟩
      = ⟨true, some ⟨.kXMaxYMin, .kMeet⟩, []⟩ :=
  ⟨by decide, by decide,
   parsePreserveAspectRatio_alignment_required.2.1
     ("xMaxYMin", SkSVGPreserveAspectRatio.Align.kXMaxYMin) (by decide)
     ("meet", SkSVGPreserveAspectRatio.Scale.kMeet) (by decide) ⟨.kNone, .kSlice⟩⟩

/-! ## Transform lists -/

theorem transformLoop_eq_foldl (P : SkParse S) (M : SkMatrixOps S Mat) :
    ∀ (fuel : Nat) (cur : Cursor) (acc : Mat) (parsed : Bool) (ms : List Mat) (c : Cursor),
      transformList P M fuel cur = some (ms, c) →
      transformLoop P M fuel cur acc parsed
        = some (ms.foldl M.preConcat acc, parsed || !ms.isEmpty, c) := by
  intro fuel
  induction fuel with
  | zero =>
    intro cur acc parsed ms c h
    simp [transformList] at h
  | succ fuel ih =>
    intro cur acc parsed ms c h
    rw [transformList] at h
    rw [transformLoop]
    cases htok : transformToken P M cur with
    | mk o c1 =>
      rw [htok] at h
      cases o with
      | none =>
        simp only [Option.some.injEq, Prod.mk.injEq] at h
        obtain ⟨rfl, rfl⟩ := h
        simp
      | some m =>
        simp only [Option.map_eq_some', Prod.mk.injEq] at h
        obtain ⟨⟨ms1, c2⟩, hrest, rfl, rfl⟩ := h
        simp only
        rw [ih (parseCommaWspToken c1).2 (M.preConcat acc m) true ms1 c2 hrest]
        simp

/-- C5: `parseTransform` composes in textual order.  When the input is a list
`f1 ... fn` of transform functions, `n >= 1`, read up to the end of input, the
result is `I * M(f1) * ... * M(fn)`: the matrix of each function is
pre-concatenated onto the accumulator in the order written.  So
`"translate(10,20) scale(2)"` yields translate(10,20) * scale(2), which maps
`(x, y)` to `(2x + 10, 2y + 20)`, and not scale(2) * translate(10,20). -/
theorem parseTransform_composes_in_textual_order (P : SkParse S) (M : SkMatrixOps S Mat)
    (cur : Cursor) (ms : List Mat) (c : Cursor)
    (hlist : transformList P M (cur.length + 1) cur = some (ms, c))
    (hne : ms ≠ [])
    (hend : parseEOSToken (parseWSToken c).2 = true) :
    parseTransform P M cur
      = some ⟨true, some (ms.foldl M.preConcat M.I), (parseWSToken c).2⟩ ∧
    (∀ (rot : Int → Int → Int → RefMatrix) (tanDeg : Int → Int) (x y : Int),
      parseTransform refParse (refMatrixOps rot tanDeg) "translate(10,20) scale(2)".toList
        = some ⟨true, some (RefMatrix.mul ((refMatrixOps rot tanDeg).setTranslate 10 20)
            ((refMatrixOps rot tanDeg).setScale 2 2)), []⟩ ∧
      (RefMatrix.mul ((refMatrixOps rot tanDeg).setTranslate 10 20)
          ((refMatrixOps rot tanDeg).setScale 2 2)).mapXY x y = (2 * x + 10, 2 * y + 20) ∧
      RefMatrix.mul ((refMatrixOps rot tanDeg).setTranslate 10 20)
          ((refMatrixOps rot tanDeg).setScale 2 2)
        ≠ RefMatrix.mul ((refMatrixOps rot tanDeg).setScale 2 2)
          ((refMatrixOps rot tanDeg).setTranslate 10 20)) := by
  constructor
  · have hloop := transformLoop_eq_foldl P M (cur.length + 1) cur M.I false ms c hlist
    have hms : ms.isEmpty = false := by
      cases ms with
      | nil => exact absurd rfl hne
      | cons m rest => rfl
    unfold parseTransform
    rw [hloop]
    simp [hms, hend]
  · intro rot tanDeg x y
    have hneq : RefMatrix.mul ⟨1, 0, 10, 0, 1, 20⟩ ⟨2, 0, 0, 0, 2, 0⟩
        ≠ RefMatrix.mul ⟨2, 0, 0, 0, 2, 0⟩ ⟨1, 0, 10, 0, 1, 20⟩ := by decide
    refine ⟨rfl, ?_, hneq⟩
    simp only [RefMatrix.mul, RefMatrix.mapXY, refMatrixOps, Prod.mk.injEq]
    constructor <;> ring

theorem parseTransform_composes_in_textual_order_witness :
    parseTransform refParse (refMatrixOps (fun _ _ _ => ⟨1, 0, 0, 0, 1, 0⟩) id)
        "scale(3),translate(1,2) skewX(5)".toList
      = some ⟨true, some ⟨3, 15, 3, 0, 3, 6⟩, []⟩ :=
  (parseTransform_composes_in_textual_order refParse
    (refMatrixOps (fun _ _ _ => ⟨1, 0, 0, 0, 1, 0⟩) id)
    "scale(3),translate(1,2) skewX(5)".toList
    [⟨3, 0, 0, 0, 3, 0⟩, ⟨1, 0, 1, 0, 1, 2⟩, ⟨1, 5, 0, 0, 1, 0⟩] []
    (by decide) (by decide) (by decide)).1

/-! ## Point lists -/

theorem skipWhile_length_le (f : Char → Bool) (cur : Cursor) :
    (skipWhile f cur).length ≤ cur.length := by
  induction cur with
  | nil => exact Nat.le_refl _
  | cons c cs ih =>
    by_cases h : f c = true
    · simp only [skipWhile, h, if_true, List.length_cons]
      omega
    · simp [skipWhile, h]

theorem advanceWhile_unmoved (f : Char → Bool) (cur : Cursor)
    (h : (advanceWhile f cur).1 = false) : (advanceWhile f cur).2 = cur := by
  cases cur with
  | nil => rfl
  | cons c cs =>
    by_cases hc : f c = true
    · have hle := skipWhile_length_le f cs
      simp only [advanceWhile, skipWhile, hc, if_true, List.length_cons, ne_eq,
        decide_eq_false_iff_not, Decidable.not_not] at h
      omega
    · simp [advanceWhile, skipWhile, hc]

theorem parseCommaWspToken_unmoved (cur : Cursor)
    (h : (parseCommaWspToken cur).1 = false) : (parseCommaWspToken cur).2 = cur := by
  unfold parseCommaWspToken at h ⊢
  simp only at h ⊢
  by_cases hw : (parseWSToken cur).1 = true
  · rw [if_pos hw] at h
    rw [hw] at h
    exact Bool.noConfusion h
  · rw [if_neg hw] at h ⊢
    have hcur : (parseWSToken cur).2 = cur :=
      advanceWhile_unmoved is_ws cur (by simpa using hw)
    rw [hcur] at h ⊢
    unfold parseExpectedStringToken at h ⊢
    split at h
    · exact Bool.noConfusion h
    · rfl

theorem parseCommaWspToken_at_eos (cur : Cursor) (h : parseEOSToken cur = true) :
    parseCommaWspToken cur = (false, cur) := by
  cases cur with
  | nil => rfl
  | cons c cs =>
    have hc : c.toNat = 0 := by simpa [parseEOSToken, peek, is_eos] using h
    have hws : is_ws c = false := by
      cases hw : is_ws c with
      | false => rfl
      | true =>
        have := (is_ws_iff c).1 hw
        omega
    have hcomma : c ≠ ',' := by
      intro hcc
      rw [hcc] at hc
      exact absurd hc (by decide)
    simp [parseCommaWspToken, parseWSToken, advanceWhile, skipWhile, hws,
      parseExpectedStringToken, matchExpected, hcomma]

theorem pointsLoop_pair (P : SkParse S) (fuel : Nat) (pre cur : Cursor) (pts : List (S × S))
    (parsed : Bool) (p : S × S) (c2 : Cursor)
    (hentry : (if parsed then parseCommaWspToken pre else (true, pre)) = (true, cur))
    (hpair : coordinatePair P cur = some (p, c2)) :
    pointsLoop P (fuel + 1) pre pts parsed = pointsLoop P fuel c2 (pts ++ [p]) true := by
  unfold coordinatePair at hpair
  cases hx : P.FindScalar cur with
  | none =>
    rw [hx] at hpair
    exact Option.noConfusion hpair
  | some xc =>
    obtain ⟨x, c1⟩ := xc
    rw [hx] at hpair
    simp only at hpair
    have hsx : parseScalarToken P cur = (some x, c1) := by simp [parseScalarToken, hx]
    rw [pointsLoop]
    simp only [hentry, Bool.not_true, Bool.false_eq_true, if_false, hsx]
    by_cases hsep : (parseCommaWspToken c1).1 = true
    · rw [if_pos hsep] at hpair
      simp only at hpair
      cases hy : P.FindScalar (parseCommaWspToken c1).2 with
      | none =>
        rw [hy] at hpair
        exact Option.noConfusion hpair
      | some yc =>
        obtain ⟨y, c3⟩ := yc
        rw [hy] at hpair
        simp only [Option.some.injEq, Prod.mk.injEq] at hpair
        obtain ⟨rfl, rfl⟩ := hpair
        have hsy : parseScalarToken P (parseCommaWspToken c1).2 = (some y, c3) := by
          simp [parseScalarToken, hy]
        simp [hsep, hsy]
    · rw [if_neg hsep] at hpair
      have hsep' : (parseCommaWspToken c1).1 = false := by simpa using hsep
      have hcur := parseCommaWspToken_unmoved c1 hsep'
      by_cases hminus : peek c1 = '-'
      · rw [if_pos hminus] at hpair
        simp only at hpair
        cases hy : P.FindScalar c1 with
        | none =>
          rw [hy] at hpair
          exact Option.noConfusion hpair
        | some yc =>
          obtain ⟨y, c3⟩ := yc
          rw [hy] at hpair
          simp only [Option.some.injEq, Prod.mk.injEq] at hpair
          obtain ⟨rfl, rfl⟩ := hpair
          have hsy : parseScalarToken P c1 = (some y, c3) := by
            simp [parseScalarToken, hy]
          simp [hcur, hminus, hsy]
      · rw [if_neg hminus] at hpair
        exact Option.noConfusion hpair

theorem pointsLoop_of_coordinatePairs (P : SkParse S) :
    ∀ (fuel : Nat) (pre cur : Cursor) (pts ps : List (S × S)) (parsed : Bool),
      coordinatePairs P fuel cur = some ps →
      (if parsed then parseCommaWspToken pre else (true, pre)) = (true, cur) →
      ∃ c, pointsLoop P (fuel + 1) pre pts parsed = some (pts ++ ps, true, c) ∧
        parseEOSToken c = true := by
  intro fuel
  induction fuel with
  | zero =>
    intro pre cur pts ps parsed h
    simp [coordinatePairs] at h
  | succ fuel ih =>
    intro pre cur pts ps parsed h hentry
    rw [coordinatePairs] at h
    cases hpair : coordinatePair P cur with
    | none =>
      rw [hpair] at h
      exact Option.noConfusion h
    | some pc =>
      obtain ⟨p, c2⟩ := pc
      rw [hpair] at h
      simp only at h
      rw [pointsLoop_pair P (fuel + 1) pre cur pts parsed p c2 hentry hpair]
      by_cases heos : parseEOSToken c2 = true
      · rw [if_pos heos] at h
        simp only [Option.some.injEq] at h
        subst h
        refine ⟨c2, ?_, heos⟩
        rw [pointsLoop]
        simp [parseCommaWspToken_at_eos c2 heos]
      · rw [if_neg heos] at h
        by_cases hsep : (parseCommaWspToken c2).1 = true
        · rw [if_pos hsep] at h
          simp only [Option.map_eq_some'] at h
          obtain ⟨ps1, hrest, rfl⟩ := h
          have hent : (if true then parseCommaWspToken c2 else (true, c2))
              = (true, (parseCommaWspToken c2).2) := by
            simp only [if_true]
            rw [← hsep]
          obtain ⟨c, hc, hce⟩ :=
            ih c2 (parseCommaWspToken c2).2 (pts ++ [p]) ps1 true hrest hent
          refine ⟨c, ?_, hce⟩
          rw [hc]
          simp
        · rw [if_neg hsep] at h
          exact Option.noConfusion h

/-- C8: `parsePoints` applies the negative-adjacency rule.  When the input, after
leading whitespace, is a list of coordinate pairs (each pair two scalars
separated by comma-wsp, or by nothing when the second begins with `-`; pairs
separated by comma-wsp; end of input after the last), `parsePoints` succeeds
with exactly those pairs in textual order.  A single pair `x-y` written without
separator is accepted, and `"0,0 10,10 -5-5"` yields (0,0), (10,10), (-5,-5). -/
theorem parsePoints_negative_adjacency :
    (∀ (P : SkParse S) (cur : Cursor) (ps : List (S × S)),
      coordinatePairs P (advanceWhile is_ws cur).2.length (advanceWhile is_ws cur).2
        = some ps →
      ∃ c, parsePoints P cur = some ⟨true, some ps, c⟩ ∧ parseEOSToken c = true) ∧
    (∀ (P : SkParse S) (cur c1 c2 : Cursor) (x y : S),
      cur ≠ [] → is_ws (peek cur) = false →
      P.FindScalar cur = some (x, '-' :: c1) → P.FindScalar ('-' :: c1) = some (y, c2) →
      parseEOSToken c2 = true →
      parsePoints P cur = some ⟨true, some [(x, y)], c2⟩) ∧
    parsePoints refParse "0,0 10,10 -5-5".toList
      = some ⟨true, some [(0, 0), (10, 10), (-5, -5)], []⟩ := by
  have hgen : ∀ (P : SkParse S) (cur : Cursor) (ps : List (S × S)),
      coordinatePairs P (advanceWhile is_ws cur).2.length (advanceWhile is_ws cur).2
        = some ps →
      ∃ c, parsePoints P cur = some ⟨true, some ps, c⟩ ∧ parseEOSToken c = true := by
    intro P cur ps h
    obtain ⟨c, hc, hce⟩ := pointsLoop_of_coordinatePairs P _ (advanceWhile is_ws cur).2
      (advanceWhile is_ws cur).2 [] ps false h rfl
    refine ⟨c, ?_, hce⟩
    unfold parsePoints
    simp only [hc, List.nil_append, hce, Bool.and_self, if_true]
  refine ⟨hgen, ?_, by decide⟩
  intro P cur c1 c2 x y hne hws hx hy hend
  have hskip : (advanceWhile is_ws cur).2 = cur := skipWhile_peek is_ws cur hws
  obtain ⟨n, hn⟩ : ∃ n, cur.length = n + 1 := by
    cases cur with
    | nil => exact absurd rfl hne
    | cons a as => exact ⟨as.length, rfl⟩
  have hcomma : parseCommaWspToken ('-' :: c1) = (false, '-' :: c1) := by
    have h1 : is_ws '-' = false := by decide
    simp [parseCommaWspToken, parseWSToken, advanceWhile, skipWhile, h1,
      parseExpectedStringToken, matchExpected]
  have hpair : coordinatePair P cur = some ((x, y), c2) := by
    simp [coordinatePair, hx, hcomma, peek, hy]
  have hps : coordinatePairs P (advanceWhile is_ws cur).2.length (advanceWhile is_ws cur).2
      = some [(x, y)] := by
    rw [hskip, hn, coordinatePairs, hpair]
    simp [hend]
  obtain ⟨c, hc, _⟩ := hgen P cur [(x, y)] hps
  have hloop : pointsLoop P (cur.length + 1) cur [] false = some ([(x, y)], true, c2) := by
    have h1 := pointsLoop_pair P cur.length cur cur [] false (x, y) c2 rfl hpair
    rw [h1, hn, pointsLoop]
    simp [parseCommaWspToken_at_eos c2 hend]
  unfold parsePoints
  simp only [hskip, hloop, hend, Bool.and_self, if_true]

theorem parsePoints_negative_adjacency_witness :
    coordinatePairs refParse 7 "1-2 3-4".toList = some [(1, -2), (3, -4)] ∧
    ∃ c, parsePoints refParse "1-2 3-4".toList = some ⟨true, some [(1, -2), (3, -4)], c⟩ ∧
      parseEOSToken c = true :=
  ⟨by decide,
   (@parsePoints_negative_adjacency Int).1 refParse "1-2 3-4".toList [(1, -2), (3, -4)]
     (by decide)⟩

/-! ## Hex colors -/

set_option maxRecDepth 100000 in
theorem hex3_expansion (v : Fin 4096) :
    (((((v.val <<< 12) % 4294967296) &&& 0x00f00000) |||
      (((v.val <<< 8) % 4294967296) &&& 0x000ff000) |||
      (((v.val <<< 4) % 4294967296) &&& 0x00000ff0) |||
      (((v.val <<< 0) % 4294967296) &&& 0x0000000f)) ||| 0xff000000)
      = SkColorSetARGB 255 (17 * (v.val / 256)) (17 * (v.val / 16 % 16)) (17 * (v.val % 16)) ∧
    (((v.val <<< 12) &&& 0xf00000) ||| ((v.val <<< 8) &&& 0xff000) |||
      ((v.val <<< 4) &&& 0xff0) ||| (v.val &&& 0xf))
      = 65536 * (17 * (v.val / 256)) + 256 * (17 * (v.val / 16 % 16)) + 17 * (v.val % 16) := by
  revert v
  decide!

theorem or_opaque_alpha (v : Nat) : SkColorGetA (v ||| 0xff000000) = 0xFF := by
  have h1 : (0xff000000 : Nat) = 255 <<< 24 := by decide
  have h2 : (0xFF : Nat) = 2 ^ 8 - 1 := by decide
  unfold SkColorGetA
  apply Nat.eq_of_testBit_eq
  intro j
  rw [h1, h2]
  simp only [Nat.testBit_and, Nat.testBit_shiftRight, Nat.testBit_or, Nat.testBit_shiftLeft,
    Nat.testBit_two_pow_sub_one]
  by_cases hj : j < 8
  · have h3 : 24 + j - 24 = j := by omega
    have h4 : 24 + j ≥ 24 := by omega
    simp [hj, h3, h4]
  · simp [hj]

theorem parseHexColorToken_read (P : SkParse S) (ds c : Cursor) (v : Nat)
    (hhex : P.FindHex (ds ++ c) = some (v, c)) :
    parseHexColorToken P ('#' :: (ds ++ c))
      = if ds.length = 6 then (some (v ||| 0xff000000), c)
        else if ds.length = 3 then
          (some (((((v <<< 12) % 4294967296) &&& 0x00f00000) |||
                  (((v <<< 8) % 4294967296) &&& 0x000ff000) |||
                  (((v <<< 4) % 4294967296) &&& 0x00000ff0) |||
                  (((v <<< 0) % 4294967296) &&& 0x0000000f)) ||| 0xff000000), c)
        else (none, c) := by
  have h7 : ((('#' :: (ds ++ c)).length : Int) - (c.length : Int) = 7) ↔ ds.length = 6 := by
    simp only [List.length_cons, List.length_append]
    omega
  have h4 : ((('#' :: (ds ++ c)).length : Int) - (c.length : Int) = 4) ↔ ds.length = 3 := by
    simp only [List.length_cons, List.length_append]
    omega
  have hm : parseExpectedStringToken ['#'] ('#' :: (ds ++ c)) = (true, ds ++ c) := by
    simp [parseExpectedStringToken, matchExpected]
  unfold parseHexColorToken
  simp only [hm, Bool.not_true, Bool.false_eq_true, if_false, parseHexToken, hhex]
  by_cases h6 : ds.length = 6
  · rw [if_pos (h7.2 h6), if_pos h6]
  · rw [if_neg (fun h => h6 (h7.1 h)), if_neg h6]
    by_cases h3 : ds.length = 3
    · rw [if_pos (h4.2 h3), if_pos h3]
    · rw [if_neg (fun h => h3 (h4.1 h)), if_neg h3]

theorem parseHexColorToken_alpha (P : SkParse S) (cur c : Cursor) (col : SkColor)
    (h : parseHexColorToken P cur = (some col, c)) : SkColorGetA col = 0xFF := by
  unfold parseHexColorToken at h
  simp only at h
  split at h
  · simp at h
  · split at h
    · simp at h
    · split at h
      · simp only [Prod.mk.injEq, Option.some.injEq] at h
        rw [← h.1]
        exact or_opaque_alpha _
      · split at h
        · simp only [Prod.mk.injEq, Option.some.injEq] at h
          rw [← h.1]
          exact or_opaque_alpha _
        · simp at h

/-- C11: hex colors decode by digit count.  When the hex tokenizer reads the
value `v` from the digits `ds` after `#`: six digits with `v = 0xRRGGBB` give the
color `0xFF000000 + v`; three digits `R G B` give the color whose channels are
`17 * R`, `17 * G`, `17 * B` under alpha 255; any other number of characters
makes the token fail.  For every `v < 0x1000` the expansion in the source equals
that nibble-duplicated value, and every hex color produced has alpha 0xFF. -/
theorem parseHexColorToken_by_digit_count (P : SkParse S) (ds c : Cursor) (v : Nat)
    (hhex : P.FindHex (ds ++ c) = some (v, c)) :
    (ds.length = 6 → v < 0x1000000 →
      parseHexColorToken P ('#' :: (ds ++ c)) = (some (0xFF000000 + v), c)) ∧
    (ds.length = 3 → v < 0x1000 →
      parseHexColorToken P ('#' :: (ds ++ c))
        = (some (SkColorSetARGB 255 (17 * (v / 256)) (17 * (v / 16 % 16)) (17 * (v % 16))),
           c)) ∧
    (ds.length ≠ 6 → ds.length ≠ 3 →
      parseHexColorToken P ('#' :: (ds ++ c)) = (none, c)) ∧
    (∀ w : Nat, w < 0x1000 →
      ((w <<< 12) &&& 0xf00000) ||| ((w <<< 8) &&& 0xff000) ||| ((w <<< 4) &&& 0xff0) |||
          (w &&& 0xf)
        = 65536 * (17 * (w / 256)) + 256 * (17 * (w / 16 % 16)) + 17 * (w % 16)) ∧
    (∀ (cur c1 : Cursor) (col : SkColor),
      parseHexColorToken P cur = (some col, c1) → SkColorGetA col = 0xFF) := by
  have hread := parseHexColorToken_read P ds c v hhex
  refine ⟨?_, ?_, ?_, ?_, ?_⟩
  · intro h6 hv
    have hor : v ||| 0xff000000 = 0xFF000000 + v := by
      have h := Nat.mul_add_lt_is_or (i := 24) (b := v) (by simpa using hv) 255
      rw [Nat.lor_comm]
      exact h.symm
    rw [hread, if_pos h6, hor]
  · intro h3 hv
    have hne : ¬ ds.length = 6 := by omega
    rw [hread, if_neg hne, if_pos h3]
    exact congrArg (fun x => (some x, c)) (hex3_expansion ⟨v, hv⟩).1
  · intro h6 h3
    rw [hread, if_neg h6, if_neg h3]
  · intro w hw
    exact (hex3_expansion ⟨w, hw⟩).2
  · intro cur c1 col h
    exact parseHexColorToken_alpha P cur c1 col h

theorem parseHexColorToken_by_digit_count_witness :
    refParse.FindHex "1a2".toList = some (0x1a2, []) ∧
    parseHexColorToken refParse "#1a2".toList = (some 0xFF11AA22, []) :=
  ⟨by decide,
   (parseHexColorToken_by_digit_count refParse "1a2".toList [] 0x1a2 (by decide)).2.1
     (by decide) (by decide)⟩

/-! ## Color components -/

theorem SkTPin_byte (x : Int) :
    SkTPin x 0 255 = min (max x 0) 255 ∧ 0 ≤ SkTPin x 0 255 ∧ SkTPin x 0 255 ≤ 255 := by
  unfold SkTPin
  omega

theorem parseColorComponentToken_range (P : SkParse S) (cur c : Cursor) (v : Int)
    (h : parseColorComponentToken P cur = (some v, c)) : 0 ≤ v ∧ v ≤ 255 := by
  unfold parseColorComponentToken at h
  split at h
  · simp only [Prod.mk.injEq, Option.some.injEq] at h
    rw [← h.1]
    exact (SkTPin_byte _).2
  · split at h
    · simp only [Prod.mk.injEq, Option.some.injEq] at h
      rw [← h.1]
      exact (SkTPin_byte _).2
    · simp at h

/-- C12: rgb() channels are clamped.  A color component that parses lies in
[0, 255]; a plain integer token `n` yields `min(max(n, 0), 255)`; an integer
percentage `p%` yields the integer nearest to `p * 255 / 100`, clamped the same
way.  So `rgb(300,-20,128)` is the opaque color with channels (255, 0, 128). -/
theorem parseColorComponentToken_clamped :
    (∀ (P : SkParse S) (cur c : Cursor) (v : Int),
      parseColorComponentToken P cur = (some v, c) → 0 ≤ v ∧ v ≤ 255) ∧
    (∀ (P : SkParse S) (cur p : Cursor) (n : Int),
      P.FindS32 cur = some (n, p) → peek p ≠ '.' → peek p ≠ '%' →
      parseColorComponentToken P cur = (some (min (max n 0) 255), p)) ∧
    (∀ (P : SkParse S) (cur p : Cursor) (n : Int),
      P.FindS32 cur = some (n, p) → peek p = '%' →
      parseColorComponentToken P cur
        = (some (min (max (intPercentToByte n) 0) 255), p.tail)) ∧
    (∀ n : Int, 100 * intPercentToByte n ≤ 255 * n + 50 ∧
      255 * n + 50 < 100 * intPercentToByte n + 100) ∧
    parseColor refParse "rgb(300,-20,128)".toList
      = ⟨true, some (SkColorSetARGB 255 255 0 128), []⟩ := by
  refine ⟨parseColorComponentToken_range, ?_, ?_, ?_, by decide⟩
  · intro P cur p n hs hdot hpct
    simp [parseColorComponentToken, parseIntegral, hs, hdot, hpct, (SkTPin_byte n).1]
  · intro P cur p n hs hpct
    have hdot : peek p ≠ '.' := by
      rw [hpct]
      decide
    simp [parseColorComponentToken, parseIntegral, hs, hdot, hpct,
      (SkTPin_byte (intPercentToByte n)).1]
  · intro n
    unfold intPercentToByte
    omega

theorem parseColorComponentToken_clamped_witness :
    refParse.FindS32 "40%,".toList = some (40, "%,".toList) ∧
    parseColorComponentToken refParse "40%,".toList = (some 102, [',']) :=
  ⟨by decide,
   (@parseColorComponentToken_clamped Int).2.2.1 refParse "40%,".toList "%,".toList 40
     (by decide) (by decide)⟩

/-! ## References to local fragments -/

theorem skipWhile_idem (f : Char → Bool) (cur : Cursor) :
    skipWhile f (skipWhile f cur) = skipWhile f cur := by
  induction cur with
  | nil => rfl
  | cons c cs ih =>
    by_cases h : f c = true
    · simp [skipWhile, h, ih]
    · simp [skipWhile, h]

theorem parseWSToken_idem (cur : Cursor) :
    (parseWSToken (parseWSToken cur).2).2 = (parseWSToken cur).2 := by
  simp [parseWSToken, advanceWhile, skipWhile_idem]

theorem parseWSToken_stop (cur : Cursor) (h : is_ws (peek cur) = false) :
    (parseWSToken cur).2 = cur := skipWhile_peek is_ws cur h

theorem parseParenthesized_call {T : Type} (name : String) (f : Cursor → Option T × Cursor)
    (c0 : Cursor) (hname : is_ws (peek (name.toList ++ '(' :: c0)) = false) :
    parseParenthesized (some name) f (name.toList ++ '(' :: c0)
      = closeParenthesized (f (parseWSToken c0).2) := by
  have h1 : (parseWSToken (name.toList ++ '(' :: c0)).2 = name.toList ++ '(' :: c0 :=
    parseWSToken_stop _ hname
  have h2 : (parseWSToken ('(' :: c0)).2 = '(' :: c0 :=
    parseWSToken_stop _ (show is_ws '(' = false by decide)
  have h3 : parseExpectedStringToken ['('] ('(' :: c0) = (true, c0) := by
    simp [parseExpectedStringToken, matchExpected]
  unfold parseParenthesized closeParenthesized
  simp only [h1, parseExpectedStringToken_append, h2, h3, Bool.not_true, Bool.false_eq_true,
    if_false]

theorem parseParenthesized_other {T : Type} (name : String) (f : Cursor → Option T × Cursor)
    (cur : Cursor) (h : ∀ t, (parseWSToken cur).2 ≠ name.toList ++ t) :
    parseParenthesized (some name) f cur = (none, (parseWSToken cur).2) := by
  unfold parseParenthesized
  simp only [parseExpectedStringToken_fail h, Bool.not_false, if_true]

theorem parseIRI_fragment (id rest : Cursor) (hne : id ≠ [])
    (hid : ∀ c ∈ id, c ≠ ')' ∧ is_eos c = false) :
    parseIRI ('#' :: (id ++ ')' :: rest)) = (some id, ')' :: rest) := by
  have h1 : (parseWSToken ('#' :: (id ++ ')' :: rest))).2 = '#' :: (id ++ ')' :: rest) :=
    parseWSToken_stop _ (show is_ws '#' = false by decide)
  have h2 : parseExpectedStringToken ['#'] ('#' :: (id ++ ')' :: rest))
      = (true, id ++ ')' :: rest) := by
    simp [parseExpectedStringToken, matchExpected]
  have h3 : skipWhile (fun c => !is_eos c && c != ')') (id ++ ')' :: rest) = ')' :: rest := by
    rw [skipWhile_append _ id _ (fun c hc => by simp [(hid c hc).1, (hid c hc).2])]
    exact skipWhile_stop _ ')' rest (by simp)
  have hlen : 0 < id.length := List.length_pos.2 hne
  unfold parseIRI
  simp only [h1, h2, advanceWhile, h3, Bool.not_true, Bool.false_eq_true, if_false,
    List.length_append, List.length_cons]
  rw [if_neg (by omega)]
  have htake : id.length + (rest.length + 1) - (rest.length + 1) = id.length := by omega
  rw [htake, List.take_left']
  rfl

theorem parseIRI_no_hash (cur : Cursor) (h : (cur.dropWhile is_ws).head? ≠ some '#') :
    (parseIRI cur).1 = none := by
  have hfail : parseExpectedStringToken ['#'] (parseWSToken cur).2
      = (false, (parseWSToken cur).2) := by
    apply parseExpectedStringToken_fail
    intro t ht
    apply h
    have hd : cur.dropWhile is_ws = ['#'] ++ t := by
      rw [← skipWhile_eq_dropWhile]
      exact ht
    rw [hd]
    rfl
  unfold parseIRI
  simp only [hfail, Bool.not_false, if_true]

theorem parseIRI_empty_fragment (cur rest : Cursor)
    (hcur : cur.dropWhile is_ws = '#' :: rest)
    (hrest : rest = [] ∨ rest.head? = some ')') : (parseIRI cur).1 = none := by
  have hws : (parseWSToken cur).2 = '#' :: rest := by
    rw [← hcur, ← skipWhile_eq_dropWhile]
    rfl
  have h2 : parseExpectedStringToken ['#'] ('#' :: rest) = (true, rest) := by
    simp [parseExpectedStringToken, matchExpected]
  have h3 : skipWhile (fun c => !is_eos c && c != ')') rest = rest := by
    rcases hrest with rfl | hr
    · rfl
    · cases rest with
      | nil => rfl
      | cons x xs =>
        simp only [List.head?_cons, Option.some.injEq] at hr
        subst hr
        exact skipWhile_stop _ ')' xs (by simp)
  unfold parseIRI
  simp only [hws, h2, advanceWhile, h3, Bool.not_true, Bool.false_eq_true, if_false, if_true]

theorem parseIRI_skips_ws (cur : Cursor) : parseIRI (parseWSToken cur).2 = parseIRI cur := by
  unfold parseIRI
  rw [parseWSToken_idem]

theorem parseFuncIRI_url (content : Cursor) :
    parseFuncIRI ("url(".toList ++ content) = closeParenthesized (parseIRI content) := by
  have heq : "url(".toList ++ content = "url".toList ++ '(' :: content := by
    simp
  unfold parseFuncIRI
  rw [heq, parseParenthesized_call "url" parseIRI content (show is_ws 'u' = false by decide),
    parseIRI_skips_ws]

theorem parseFuncIRI_fail (content : Cursor) (h : (parseIRI content).1 = none) :
    (parseFuncIRI ("url(".toList ++ content)).1 = none := by
  rw [parseFuncIRI_url]
  cases hp : parseIRI content with
  | mk o c =>
    rw [hp] at h
    simp only at h
    subst h
    rfl

theorem parseClipPath_url (content : Cursor) :
    parseClipPath ("url(".toList ++ content)
      = match parseFuncIRI ("url(".toList ++ content) with
        | (some iri, c) => storeThenEOS (SkSVGClip.kIRI iri) c
        | (none, c) => ⟨false, none, c⟩ := by
  have h1 : parseExpectedStringToken "none".toList ("url(".toList ++ content)
      = (false, "url(".toList ++ content) := by
    simp [parseExpectedStringToken, matchExpected]
  have h2 : parseExpectedStringToken "inherit".toList ("url(".toList ++ content)
      = (false, "url(".toList ++ content) := by
    simp [parseExpectedStringToken, matchExpected]
  unfold parseClipPath
  simp only [h1, h2, Bool.false_eq_true, if_false]

theorem parseColor_url (P : SkParse S) (content : Cursor)
    (hnamed : P.FindNamedColor ("url(".toList ++ content) = none) :
    parseColor P ("url(".toList ++ content) = ⟨false, none, "url(".toList ++ content⟩ := by
  have hws : (parseWSToken ("url(".toList ++ content)).2 = "url(".toList ++ content :=
    parseWSToken_stop _ (show is_ws 'u' = false by decide)
  have hhex : parseHexColorToken P ("url(".toList ++ content)
      = (none, "url(".toList ++ content) := by
    simp [parseHexColorToken, parseExpectedStringToken, matchExpected]
  have hrgb : parseRGBColorToken P ("url(".toList ++ content)
      = (none, "url(".toList ++ content) := by
    unfold parseRGBColorToken
    rw [parseParenthesized_other "rgb" _ _ (by
      rw [hws]
      intro t ht
      have hc := (List.cons.inj ht).1
      exact absurd hc (by decide)), hws]
  unfold parseColor colorToken
  simp only [hws, hhex, parseNamedColorToken, hnamed, hrgb]

theorem parsePaint_url (P : SkParse S) (content : Cursor)
    (hnamed : P.FindNamedColor ("url(".toList ++ content) = none) :
    parsePaint P ("url(".toList ++ content)
      = match parseFuncIRI ("url(".toList ++ content) with
        | (some iri, c) => storeThenEOS (SkSVGPaint.kIRI iri) c
        | (none, c) => ⟨false, none, c⟩ := by
  have h1 : parseExpectedStringToken "none".toList ("url(".toList ++ content)
      = (false, "url(".toList ++ content) := by
    simp [parseExpectedStringToken, matchExpected]
  have h2 : parseExpectedStringToken "currentColor".toList ("url(".toList ++ content)
      = (false, "url(".toList ++ content) := by
    simp [parseExpectedStringToken, matchExpected]
  have h3 : parseExpectedStringToken "inherit".toList ("url(".toList ++ content)
      = (false, "url(".toList ++ content) := by
    simp [parseExpectedStringToken, matchExpected]
  unfold parsePaint
  simp only [parseColor_url P content hnamed, h1, h2, h3, Bool.false_eq_true, if_false]

theorem parseFuncIRI_fragment (id : Cursor) (hne : id ≠ [])
    (hid : ∀ c ∈ id, c ≠ ')' ∧ is_eos c = false) :
    parseFuncIRI ("url(".toList ++ '#' :: (id ++ [')'])) = (some id, []) := by
  have hclose : parseExpectedStringToken [')'] (parseWSToken [')']).2 = (true, []) := by
    decide
  rw [parseFuncIRI_url, parseIRI_fragment id [] hne hid]
  unfold closeParenthesized
  simp only [hclose, if_true]

/-- C13 (counterexample): in `url( #a)` the content ` #a` does not begin with
`#`, yet `parseClipPath` and `parsePaint` succeed with the reference `a`. -/
theorem funcIRI_space_before_hash_accepted :
    " #a)".toList.head? ≠ some '#' ∧
    parseClipPath "url( #a)".toList = ⟨true, some (SkSVGClip.kIRI ['a']), []⟩ ∧
    parsePaint refParse "url( #a)".toList = ⟨true, some (SkSVGPaint.kIRI ['a']), []⟩ := by
  refine ⟨by decide, by decide, by decide⟩

/-- C13 (amended): only local fragment references parse.  For every non-empty
`id` without `)`, `parseClipPath("url(#id)")` succeeds with the reference `id`,
and so does `parsePaint` when the named-color table does not know the input.
For every `url(...)` whose content, after leading whitespace, does not begin
with `#`, or whose fragment is empty, `parseClipPath` fails, and so does
`parsePaint` when the named-color table does not know the input.  So
`url(http://x/y)` and `url(#)` fail. -/
theorem funcIRI_local_fragment_only :
    (∀ (P : SkParse S) (id : Cursor), id ≠ [] → (∀ c ∈ id, c ≠ ')' ∧ is_eos c = false) →
      parseClipPath ("url(#".toList ++ (id ++ [')']))
        = ⟨true, some (SkSVGClip.kIRI id), []⟩ ∧
      (P.FindNamedColor ("url(#".toList ++ (id ++ [')'])) = none →
        parsePaint P ("url(#".toList ++ (id ++ [')']))
          = ⟨true, some (SkSVGPaint.kIRI id), []⟩)) ∧
    (∀ (P : SkParse S) (content : Cursor),
      ((content.dropWhile is_ws).head? ≠ some '#' ∨
        ∃ rest, content.dropWhile is_ws = '#' :: rest ∧
          (rest = [] ∨ rest.head? = some ')')) →
      (parseClipPath ("url(".toList ++ content)).ok = false ∧
      (P.FindNamedColor ("url(".toList ++ content) = none →
        (parsePaint P ("url(".toList ++ content)).ok = false)) ∧
    (parseClipPath "url(http://x/y)".toList).ok = false ∧
    (parsePaint refParse "url(http://x/y)".toList).ok = false ∧
    (parseClipPath "url(#)".toList).ok = false ∧
    (parsePaint refParse "url(#)".toList).ok = false := by
  refine ⟨?_, ?_, by decide, by decide, by decide, by decide⟩
  · intro P id hne hid
    have heq : "url(#".toList ++ (id ++ [')']) = "url(".toList ++ '#' :: (id ++ [')']) := by
      simp
    have hf := parseFuncIRI_fragment id hne hid
    rw [heq]
    constructor
    · rw [parseClipPath_url, hf]
      rfl
    · intro hnamed
      rw [parsePaint_url P _ hnamed, hf]
      rfl
  · intro P content hcontent
    have hiri : (parseIRI content).1 = none := by
      rcases hcontent with h | ⟨rest, h1, h2⟩
      · exact parseIRI_no_hash content h
      · exact parseIRI_empty_fragment content rest h1 h2
    have hf := parseFuncIRI_fail content hiri
    constructor
    · rw [parseClipPath_url]
      cases hp : parseFuncIRI ("url(".toList ++ content) with
      | mk o c =>
        rw [hp] at hf
        simp only at hf
        subst hf
        rfl
    · intro hnamed
      rw [parsePaint_url P content hnamed]
      cases hp : parseFuncIRI ("url(".toList ++ content) with
      | mk o c =>
        rw [hp] at hf
        simp only at hf
        subst hf
        rfl

theorem funcIRI_local_fragment_only_witness :
    parseClipPath "url(#grad 1)".toList = ⟨true, some (SkSVGClip.kIRI "grad 1".toList), []⟩ :=
  ((@funcIRI_local_fragment_only Int).1 refParse "grad 1".toList (by decide)
    (by decide)).1

/-! ## Transform lists need a function -/

theorem parseWSToken_eq_dropWhile (cur : Cursor) :
    (parseWSToken cur).2 = cur.dropWhile is_ws := by
  rw [← skipWhile_eq_dropWhile]
  rfl

theorem parseParenthesized_skipped {T : Type} (name : String)
    (f : Cursor → Option T × Cursor) (cur : Cursor)
    (h : ∀ t, cur.dropWhile is_ws ≠ name.toList ++ t) :
    parseParenthesized (some name) f cur = (none, cur.dropWhile is_ws) ∧
    parseParenthesized (some name) f (cur.dropWhile is_ws) = (none, cur.dropWhile is_ws) := by
  have h1 : ∀ t, (parseWSToken cur).2 ≠ name.toList ++ t := by
    rw [parseWSToken_eq_dropWhile]
    exact h
  have hidem : (parseWSToken (cur.dropWhile is_ws)).2 = cur.dropWhile is_ws := by
    rw [← parseWSToken_eq_dropWhile, parseWSToken_idem]
  have h2 : ∀ t, (parseWSToken (cur.dropWhile is_ws)).2 ≠ name.toList ++ t := by
    rw [hidem]
    exact h
  constructor
  · rw [parseParenthesized_other name f cur h1, parseWSToken_eq_dropWhile]
  · rw [parseParenthesized_other name f _ h2, hidem]

theorem transformToken_no_name (P : SkParse S) (M : SkMatrixOps S Mat) (cur : Cursor)
    (h : ∀ name ∈ transformNames, ∀ t, cur.dropWhile is_ws ≠ name.toList ++ t) :
    transformToken P M cur = (none, cur.dropWhile is_ws) := by
  have h1 : parseMatrixToken P M cur = (none, cur.dropWhile is_ws) :=
    (parseParenthesized_skipped "matrix" _ cur (h "matrix" (by decide))).1
  have h2 : parseTranslateToken P M (cur.dropWhile is_ws) = (none, cur.dropWhile is_ws) :=
    (parseParenthesized_skipped "translate" _ cur (h "translate" (by decide))).2
  have h3 : parseScaleToken P M (cur.dropWhile is_ws) = (none, cur.dropWhile is_ws) :=
    (parseParenthesized_skipped "scale" _ cur (h "scale" (by decide))).2
  have h4 : parseRotateToken P M (cur.dropWhile is_ws) = (none, cur.dropWhile is_ws) :=
    (parseParenthesized_skipped "rotate" _ cur (h "rotate" (by decide))).2
  have h5 : parseSkewXToken P M (cur.dropWhile is_ws) = (none, cur.dropWhile is_ws) :=
    (parseParenthesized_skipped "skewX" _ cur (h "skewX" (by decide))).2
  have h6 : parseSkewYToken P M (cur.dropWhile is_ws) = (none, cur.dropWhile is_ws) :=
    (parseParenthesized_skipped "skewY" _ cur (h "skewY" (by decide))).2
  unfold transformToken
  simp only [h1, h2, h3, h4, h5, h6]

theorem parseTransform_of_no_token (P : SkParse S) (M : SkMatrixOps S Mat) (cur : Cursor)
    (h : (transformToken P M cur).1 = none) :
    parseTransform P M cur
      = some ⟨false, none, (parseWSToken (transformToken P M cur).2).2⟩ := by
  unfold parseTransform
  rw [transformLoop]
  cases htok : transformToken P M cur with
  | mk o c =>
    rw [htok] at h
    simp only at h
    subst h
    simp

/-- C14: `parseTransform` needs at least one transform function.  Whenever no
transform function is recognized at the start of the input the call fails and
stores nothing; this is so for every input that, after leading whitespace, does
not begin with one of the six function names, hence for the empty string and
for every whitespace-only string. -/
theorem parseTransform_needs_a_function :
    (∀ (P : SkParse S) (M : SkMatrixOps S Mat) (cur : Cursor),
      (transformToken P M cur).1 = none →
      ∃ c, parseTransform P M cur = some ⟨false, none, c⟩) ∧
    (∀ (P : SkParse S) (M : SkMatrixOps S Mat) (cur : Cursor),
      (∀ name ∈ transformNames, ∀ t, cur.dropWhile is_ws ≠ name.toList ++ t) →
      parseTransform P M cur = some ⟨false, none, cur.dropWhile is_ws⟩) ∧
    (∀ (P : SkParse S) (M : SkMatrixOps S Mat) (ws : Cursor),
      (∀ c ∈ ws, is_ws c = true) → parseTransform P M ws = some ⟨false, none, []⟩) ∧
    (∀ (P : SkParse S) (M : SkMatrixOps S Mat),
      parseTransform P M [] = some ⟨false, none, []⟩) := by
  have htext : ∀ (P : SkParse S) (M : SkMatrixOps S Mat) (cur : Cursor),
      (∀ name ∈ transformNames, ∀ t, cur.dropWhile is_ws ≠ name.toList ++ t) →
      parseTransform P M cur = some ⟨false, none, cur.dropWhile is_ws⟩ := by
    intro P M cur h
    have htok := transformToken_no_name P M cur h
    have hnone : (transformToken P M cur).1 = none := by rw [htok]
    rw [parseTransform_of_no_token P M cur hnone, htok]
    simp only
    rw [← parseWSToken_eq_dropWhile, parseWSToken_idem]
  have hws : ∀ (P : SkParse S) (M : SkMatrixOps S Mat) (ws : Cursor),
      (∀ c ∈ ws, is_ws c = true) → parseTransform P M ws = some ⟨false, none, []⟩ := by
    intro P M ws hall
    have hdrop : ws.dropWhile is_ws = [] := by
      have h := skipWhile_append is_ws ws [] hall
      rw [List.append_nil, skipWhile_eq_dropWhile] at h
      exact h
    have h := htext P M ws (by
      intro name hname t
      rw [hdrop]
      unfold transformNames at hname
      fin_cases hname <;> simp)
    rw [hdrop] at h
    exact h
  refine ⟨?_, htext, hws, ?_⟩
  · intro P M cur h
    exact ⟨_, parseTransform_of_no_token P M cur h⟩
  · intro P M
    exact hws P M [] (by simp)

theorem parseTransform_needs_a_function_witness :
    parseTransform refParse (refMatrixOps (fun _ _ _ => ⟨1, 0, 0, 0, 1, 0⟩) id)
        " \t ".toList
      = some ⟨false, none, []⟩ :=
  (@parseTransform_needs_a_function Int RefMatrix).2.2.1 refParse
    (refMatrixOps (fun _ _ _ => ⟨1, 0, 0, 0, 1, 0⟩) id) " \t ".toList (by decide)

/-! ## Optional arguments of the transform functions -/

theorem closeParenthesized_close {T : Type} (v : T) (rest : Cursor) :
    closeParenthesized (some v, ')' :: rest) = (some v, rest) := by
  have h1 : (parseWSToken (')' :: rest)).2 = ')' :: rest :=
    parseWSToken_stop _ (show is_ws ')' = false by decide)
  have h2 : parseExpectedStringToken [')'] (')' :: rest) = (true, rest) := by
    simp [parseExpectedStringToken, matchExpected]
  unfold closeParenthesized
  simp only [h1, h2, if_true]

theorem closeParenthesized_none {T : Type} (c : Cursor) :
    closeParenthesized ((none, c) : Option T × Cursor) = (none, c) := rfl

theorem parseSepToken_paren (rest : Cursor) :
    parseSepToken (')' :: rest) = (false, ')' :: rest) :=
  parseSepToken_stop ')' rest (by decide)

theorem parseScalarToken_some (P : SkParse S) (cur c : Cursor) (v : S)
    (h : P.FindScalar cur = some (v, c)) : parseScalarToken P cur = (some v, c) := by
  simp [parseScalarToken, h]

theorem parseScalarToken_none (P : SkParse S) (cur : Cursor)
    (h : P.FindScalar cur = none) : parseScalarToken P cur = (none, cur) := by
  simp [parseScalarToken, h]

theorem transform_one_argument (P : SkParse S) (M : SkMatrixOps S Mat) (c0 rest : Cursor)
    (tx : S) (hws : is_ws (peek c0) = false)
    (hx : P.FindScalar c0 = some (tx, ')' :: rest)) :
    parseTranslateToken P M ("translate(".toList ++ c0)
      = (some (M.setTranslate tx M.zero), rest) ∧
    parseScaleToken P M ("scale(".toList ++ c0) = (some (M.setScale tx tx), rest) ∧
    parseRotateToken P M ("rotate(".toList ++ c0)
      = (some (M.setRotate tx M.zero M.zero), rest) := by
  have h0 := parseWSToken_stop c0 hws
  have hs := parseScalarToken_some P c0 _ tx hx
  have hsep := parseSepToken_paren rest
  have e1 : "translate(".toList ++ c0 = "translate".toList ++ '(' :: c0 := by simp
  have e2 : "scale(".toList ++ c0 = "scale".toList ++ '(' :: c0 := by simp
  have e3 : "rotate(".toList ++ c0 = "rotate".toList ++ '(' :: c0 := by simp
  refine ⟨?_, ?_, ?_⟩
  · unfold parseTranslateToken
    rw [e1, parseParenthesized_call "translate" _ c0 (show is_ws 't' = false by decide)]
    simp only [h0, hs, hsep, Bool.not_false, if_true]
    exact closeParenthesized_close _ rest
  · unfold parseScaleToken
    rw [e2, parseParenthesized_call "scale" _ c0 (show is_ws 's' = false by decide)]
    simp only [h0, hs, hsep, Bool.not_false, if_true]
    exact closeParenthesized_close _ rest
  · unfold parseRotateToken
    rw [e3, parseParenthesized_call "rotate" _ c0 (show is_ws 'r' = false by decide)]
    simp only [h0, hs, hsep, Bool.not_false, if_true]
    exact closeParenthesized_close _ rest

theorem transform_two_arguments (P : SkParse S) (M : SkMatrixOps S Mat)
    (c0 c1 c2 rest : Cursor) (tx ty : S) (hws : is_ws (peek c0) = false)
    (hx : P.FindScalar c0 = some (tx, c1)) (hsep : parseSepToken c1 = (true, c2))
    (hy : P.FindScalar c2 = some (ty, ')' :: rest)) :
    parseTranslateToken P M ("translate(".toList ++ c0)
      = (some (M.setTranslate tx ty), rest) ∧
    parseScaleToken P M ("scale(".toList ++ c0) = (some (M.setScale tx ty), rest) ∧
    parseRotateToken P M ("rotate(".toList ++ c0) = (none, ')' :: rest) := by
  have h0 := parseWSToken_stop c0 hws
  have hs := parseScalarToken_some P c0 _ tx hx
  have hs2 := parseScalarToken_some P c2 _ ty hy
  have hp := parseSepToken_paren rest
  have e1 : "translate(".toList ++ c0 = "translate".toList ++ '(' :: c0 := by simp
  have e2 : "scale(".toList ++ c0 = "scale".toList ++ '(' :: c0 := by simp
  have e3 : "rotate(".toList ++ c0 = "rotate".toList ++ '(' :: c0 := by simp
  refine ⟨?_, ?_, ?_⟩
  · unfold parseTranslateToken
    rw [e1, parseParenthesized_call "translate" _ c0 (show is_ws 't' = false by decide)]
    simp only [h0, hs, hsep, hs2, Bool.not_true, Bool.false_eq_true, if_false]
    exact closeParenthesized_close _ rest
  · unfold parseScaleToken
    rw [e2, parseParenthesized_call "scale" _ c0 (show is_ws 's' = false by decide)]
    simp only [h0, hs, hsep, hs2, Bool.not_true, Bool.false_eq_true, if_false]
    exact closeParenthesized_close _ rest
  · unfold parseRotateToken
    rw [e3, parseParenthesized_call "rotate" _ c0 (show is_ws 'r' = false by decide)]
    simp only [h0, hs, hsep, hs2, hp, Bool.not_true, Bool.not_false, Bool.false_eq_true,
      if_false, if_true]
    rfl

theorem rotate_three_arguments (P : SkParse S) (M : SkMatrixOps S Mat)
    (c0 c1 c2 c3 c4 rest : Cursor) (a cx cy : S) (hws : is_ws (peek c0) = false)
    (ha : P.FindScalar c0 = some (a, c1)) (hsep1 : parseSepToken c1 = (true, c2))
    (hcx : P.FindScalar c2 = some (cx, c3)) (hsep2 : parseSepToken c3 = (true, c4))
    (hcy : P.FindScalar c4 = some (cy, ')' :: rest)) :
    parseRotateToken P M ("rotate(".toList ++ c0) = (some (M.setRotate a cx cy), rest) := by
  have h0 := parseWSToken_stop c0 hws
  have hs := parseScalarToken_some P c0 _ a ha
  have hs2 := parseScalarToken_some P c2 _ cx hcx
  have hs3 := parseScalarToken_some P c4 _ cy hcy
  have e3 : "rotate(".toList ++ c0 = "rotate".toList ++ '(' :: c0 := by simp
  unfold parseRotateToken
  rw [e3, parseParenthesized_call "rotate" _ c0 (show is_ws 'r' = false by decide)]
  simp only [h0, hs, hsep1, hs2, hsep2, hs3, Bool.not_true, Bool.false_eq_true, if_false]
  exact closeParenthesized_close _ rest

theorem parseTransform_lone_cx (P : SkParse S) (M : SkMatrixOps S Mat)
    (c0 c1 c2 rest : Cursor) (a cx : S) (hws : is_ws (peek c0) = false)
    (ha : P.FindScalar c0 = some (a, c1)) (hsep : parseSepToken c1 = (true, c2))
    (hcx : P.FindScalar c2 = some (cx, ')' :: rest)) :
    parseTransform P M ("rotate(".toList ++ c0) = some ⟨false, none, ')' :: rest⟩ := by
  have hrot := (transform_two_arguments P M c0 c1 c2 rest a cx hws ha hsep hcx).2.2
  have hstart : (parseWSToken ("rotate(".toList ++ c0)).2 = "rotate(".toList ++ c0 :=
    parseWSToken_stop _ (show is_ws 'r' = false by decide)
  have hparen : (parseWSToken (')' :: rest)).2 = ')' :: rest :=
    parseWSToken_stop _ (show is_ws ')' = false by decide)
  have hm : parseMatrixToken P M ("rotate(".toList ++ c0) = (none, "rotate(".toList ++ c0) := by
    unfold parseMatrixToken
    rw [parseParenthesized_other "matrix" _ _ (by
      rw [hstart]
      intro t ht
      exact absurd (List.cons.inj ht).1 (by decide)), hstart]
  have ht : parseTranslateToken P M ("rotate(".toList ++ c0)
      = (none, "rotate(".toList ++ c0) := by
    unfold parseTranslateToken
    rw [parseParenthesized_other "translate" _ _ (by
      rw [hstart]
      intro t ht
      exact absurd (List.cons.inj ht).1 (by decide)), hstart]
  have hsc : parseScaleToken P M ("rotate(".toList ++ c0) = (none, "rotate(".toList ++ c0) := by
    unfold parseScaleToken
    rw [parseParenthesized_other "scale" _ _ (by
      rw [hstart]
      intro t ht
      exact absurd (List.cons.inj ht).1 (by decide)), hstart]
  have hx : parseSkewXToken P M (')' :: rest) = (none, ')' :: rest) := by
    unfold parseSkewXToken
    rw [parseParenthesized_other "skewX" _ _ (by
      rw [hparen]
      intro t ht
      exact absurd (List.cons.inj ht).1 (by decide)), hparen]
  have hy : parseSkewYToken P M (')' :: rest) = (none, ')' :: rest) := by
    unfold parseSkewYToken
    rw [parseParenthesized_other "skewY" _ _ (by
      rw [hparen]
      intro t ht
      exact absurd (List.cons.inj ht).1 (by decide)), hparen]
  have htok : transformToken P M ("rotate(".toList ++ c0) = (none, ')' :: rest) := by
    unfold transformToken
    simp only [hm, ht, hsc, hrot, hx, hy]
  have hnone : (transformToken P M ("rotate(".toList ++ c0)).1 = none := by rw [htok]
  rw [parseTransform_of_no_token P M _ hnone, htok]
  simp only [hparen]

/-- C15: optional arguments of the transform functions.  With one scalar
argument, `translate(tx)` is translate(tx, 0), `scale(sx)` is scale(sx, sx) and
`rotate(a)` rotates about the origin; with two, `translate(tx,ty)` translates by
(tx, ty) and `scale(sx,sy)` scales by (sx, sy), while `rotate(a,cx)` with a lone
`cx` fails; with three, `rotate(a,cx,cy)` rotates about (cx, cy).  So
`parseTransform("rotate(45,10)")` fails. -/
theorem transform_optional_arguments :
    (∀ (P : SkParse S) (M : SkMatrixOps S Mat) (c0 rest : Cursor) (tx : S),
      is_ws (peek c0) = false → P.FindScalar c0 = some (tx, ')' :: rest) →
      parseTranslateToken P M ("translate(".toList ++ c0)
        = (some (M.setTranslate tx M.zero), rest) ∧
      parseScaleToken P M ("scale(".toList ++ c0) = (some (M.setScale tx tx), rest) ∧
      parseRotateToken P M ("rotate(".toList ++ c0)
        = (some (M.setRotate tx M.zero M.zero), rest)) ∧
    (∀ (P : SkParse S) (M : SkMatrixOps S Mat) (c0 c1 c2 rest : Cursor) (tx ty : S),
      is_ws (peek c0) = false → P.FindScalar c0 = some (tx, c1) →
      parseSepToken c1 = (true, c2) → P.FindScalar c2 = some (ty, ')' :: rest) →
      parseTranslateToken P M ("translate(".toList ++ c0)
        = (some (M.setTranslate tx ty), rest) ∧
      parseScaleToken P M ("scale(".toList ++ c0) = (some (M.setScale tx ty), rest) ∧
      (parseRotateToken P M ("rotate(".toList ++ c0)).1 = none ∧
      parseTransform P M ("rotate(".toList ++ c0) = some ⟨false, none, ')' :: rest⟩) ∧
    (∀ (P : SkParse S) (M : SkMatrixOps S Mat) (c0 c1 c2 c3 c4 rest : Cursor) (a cx cy : S),
      is_ws (peek c0) = false → P.FindScalar c0 = some (a, c1) →
      parseSepToken c1 = (true, c2) → P.FindScalar c2 = some (cx, c3) →
      parseSepToken c3 = (true, c4) → P.FindScalar c4 = some (cy, ')' :: rest) →
      parseRotateToken P M ("rotate(".toList ++ c0) = (some (M.setRotate a cx cy), rest)) ∧
    (∀ (rot : Int → Int → Int → RefMatrix) (tanDeg : Int → Int),
      parseTransform refParse (refMatrixOps rot tanDeg) "rotate(45,10)".toList
        = some ⟨false, none, [')']⟩ ∧
      parseTransform refParse (refMatrixOps rot tanDeg) "translate(7)".toList
        = parseTransform refParse (refMatrixOps rot tanDeg) "translate(7,0)".toList ∧
      parseTransform refParse (refMatrixOps rot tanDeg) "scale(3)".toList
        = parseTransform refParse (refMatrixOps rot tanDeg) "scale(3,3)".toList) := by
  refine ⟨?_, ?_, ?_, ?_⟩
  · intro P M c0 rest tx hws hx
    exact transform_one_argument P M c0 rest tx hws hx
  · intro P M c0 c1 c2 rest tx ty hws hx hsep hy
    have h := transform_two_arguments P M c0 c1 c2 rest tx ty hws hx hsep hy
    refine ⟨h.1, h.2.1, ?_, parseTransform_lone_cx P M c0 c1 c2 rest tx ty hws hx hsep hy⟩
    rw [h.2.2]
  · intro P M c0 c1 c2 c3 c4 rest a cx cy hws ha hsep1 hcx hsep2 hcy
    exact rotate_three_arguments P M c0 c1 c2 c3 c4 rest a cx cy hws ha hsep1 hcx hsep2 hcy
  · intro rot tanDeg
    exact ⟨rfl, rfl, rfl⟩

theorem transform_optional_arguments_witness :
    parseRotateToken refParse (refMatrixOps (fun a cx cy => ⟨a, cx, cy, 0, 0, 0⟩) id)
        "rotate(90 1,2)".toList
      = (some ⟨90, 1, 2, 0, 0, 0⟩, []) :=
  (@transform_optional_arguments Int RefMatrix).2.2.1 refParse
    (refMatrixOps (fun a cx cy => ⟨a, cx, cy, 0, 0, 0⟩) id)
    "90 1,2)".toList " 1,2)".toList "1,2)".toList ",2)".toList "2)".toList [] 90 1 2
    (by decide) (by decide) (by decide) (by decide) (by decide) (by decide)

/-! ## Font families -/

/-- C16 (failing input): on `"inheritance"` the keyword `inherit` matches as a
prefix, the inherit value is stored, `ance` remains and the end-of-input check
fails the call; the branch that takes the family name is never reached. -/
theorem parseFontFamily_inherit_prefix_rejected :
    parseFontFamily "inheritance".toList
      = ⟨false, some SkSVGFontFamily.kInherit, "ance".toList⟩ ∧
    parseFontFamily "inherit".toList = ⟨true, some SkSVGFontFamily.kInherit, []⟩ ∧
    parseFontFamily "Arial, sans".toList
      = ⟨true, some (SkSVGFontFamily.kFamily "Arial".toList), []⟩ := by
  refine ⟨by decide, by decide, by decide⟩

/-! ## Incomplete transform calls -/

/-- C20 (failing input): on `"scale(rotate(45)"` the scale attempt consumes
`scale(` and fails at its argument without restoring the cursor; the rotate
attempt then matches `rotate(45)` there, and `parseTransform` returns success
with the rotation alone, although the call of `scale` is never closed. -/
theorem parseTransform_incomplete_call_accepted
    (rot : Int → Int → Int → RefMatrix) (tanDeg : Int → Int) :
    parseTransform refParse (refMatrixOps rot tanDeg) "scale(rotate(45)".toList
      = some ⟨true, some ((refMatrixOps rot tanDeg).preConcat (refMatrixOps rot tanDeg).I
          ((refMatrixOps rot tanDeg).setRotate 45 0 0)), []⟩ ∧
    parseScaleToken refParse (refMatrixOps rot tanDeg) "scale(rotate(45)".toList
      = (none, "rotate(45)".toList) :=
  ⟨rfl, rfl⟩

/-! ## Typed values -/

/-- C19: a value's tag and payload kind are consistent.  A wrapper constructed
with kind `K` reports `K` from `type()`; `as<T>()` returns the value itself when
the kind of `T` is `K` and null otherwise; and the 23 wrapper aliases carry
pairwise distinct kinds, so a value wrapped under one alias is never recovered
under another. -/
theorem wrapper_tag_consistent :
    (∀ (T : Type) (K : SkSVGValue.ValueType) (v : T),
      (SkSVGWrapperValue.wrap K v).toValue.type = K ∧
      (SkSVGWrapperValue.wrap K v).TYPE = K ∧
      (SkSVGWrapperValue.wrap K v).fWrappedValue = v) ∧
    (∀ (T : Type) (K K2 : SkSVGValue.ValueType) (v : T), K2 = K →
      (SkSVGWrapperValue.wrap K v).toValue.as K2
        = some (SkSVGWrapperValue.wrap K v).toValue) ∧
    (∀ (T : Type) (K K2 : SkSVGValue.ValueType) (v : T), K2 ≠ K →
      (SkSVGWrapperValue.wrap K v).toValue.as K2 = none) ∧
    wrapperAliases.length = 23 ∧
    (wrapperAliases.map Prod.fst).Nodup ∧
    (wrapperAliases.map Prod.snd).Nodup ∧
    (∀ a ∈ wrapperAliases, ∀ b ∈ wrapperAliases, a.1 ≠ b.1 →
      ∀ (T : Type) (v : T), (SkSVGWrapperValue.wrap a.2 v).toValue.as b.2 = none) := by
  have hdistinct : ∀ a ∈ wrapperAliases, ∀ b ∈ wrapperAliases, a.1 ≠ b.1 → a.2 ≠ b.2 := by
    decide
  refine ⟨?_, ?_, ?_, rfl, by decide, by decide, ?_⟩
  · intro T K v
    exact ⟨rfl, rfl, rfl⟩
  · intro T K K2 v h
    subst h
    simp [SkSVGValue.as, SkSVGWrapperValue.wrap]
  · intro T K K2 v h
    have h2 : ¬ K = K2 := fun e => h e.symm
    simp [SkSVGValue.as, SkSVGWrapperValue.wrap, h2]
  · intro a ha b hb hab T v
    have h := hdistinct a ha b hb hab
    simp [SkSVGValue.as, SkSVGWrapperValue.wrap, h]

theorem wrapper_tag_consistent_witness :
    (SkSVGWrapperValue.wrap SkSVGValue.ValueType.kPaint SkSVGPaint.kNone).toValue.as
        SkSVGValue.ValueType.kClip = none :=
  wrapper_tag_consistent.2.2.1 SkSVGPaint SkSVGValue.ValueType.kPaint
    SkSVGValue.ValueType.kClip SkSVGPaint.kNone (by decide)

/-! ## Keyword grammars -/

theorem parseEnumMap_isSome {T : Type} (table : List (String × T)) (cur : Cursor)
    (h : ∃ p ∈ table, ∃ t, cur = p.1.toList ++ t) :
    ∃ v c, parseEnumMap table cur = (some v, c) := by
  induction table with
  | nil =>
    obtain ⟨p, hp, _⟩ := h
    exact absurd hp (List.not_mem_nil p)
  | cons e rest ih =>
    obtain ⟨k, w⟩ := e
    rw [parseEnumMap]
    unfold parseExpectedStringToken
    cases hm : matchExpected k.toList cur with
    | some c2 => exact ⟨w, c2, by simp⟩
    | none =>
      simp only [Bool.false_eq_true, if_false]
      apply ih
      obtain ⟨p, hp, t, ht⟩ := h
      rcases List.mem_cons.1 hp with hpe | hpr
      · subst hpe
        rw [ht, matchExpected_append] at hm
        exact Option.noConfusion hm
      · exact ⟨p, hpr, t, ht⟩

theorem isPrefixOf_append_self (a t : Cursor) : a.isPrefixOf (a ++ t) = true := by
  induction a with
  | nil => simp [List.isPrefixOf]
  | cons x xs ih => simp [List.isPrefixOf, ih]

theorem isPrefixOf_comparable (a b t1 t2 : Cursor) (h : a ++ t1 = b ++ t2) :
    a.isPrefixOf b = true ∨ b.isPrefixOf a = true := by
  induction a generalizing b with
  | nil => left; simp [List.isPrefixOf]
  | cons x xs ih =>
    cases b with
    | nil => right; simp [List.isPrefixOf]
    | cons y ys =>
      simp only [List.cons_append, List.cons.injEq] at h
      obtain ⟨hxy, hrest⟩ := h
      subst hxy
      rcases ih ys hrest with h1 | h1
      · left; simp [List.isPrefixOf, h1]
      · right; simp [List.isPrefixOf, h1]

theorem parseKeyword_exact {T : Type} (table : List (String × T))
    (hfree : ∀ p ∈ table, ∀ q ∈ table, p.1.toList.isPrefixOf q.1.toList = true → p = q) :
    ExactKeywordGrammar (parseKeyword table) table := by
  have hkey : ∀ p ∈ table, parseKeyword table p.1.toList = ⟨true, some p.2, []⟩ := by
    intro p hp
    obtain ⟨v, c, hm⟩ := parseEnumMap_isSome table p.1.toList ⟨p, hp, [], by simp⟩
    obtain ⟨k, hk, hc⟩ := parseEnumMap_some table p.1.toList c v hm
    have hpre : k.toList.isPrefixOf p.1.toList = true := by
      rw [hc]
      exact isPrefixOf_append_self _ _
    have hkp := hfree (k, v) hk p hp hpre
    subst hkp
    have hnil : c = [] := by
      have h2 : k.toList ++ [] = k.toList ++ c := by
        rw [List.append_nil]
        exact hc
      exact (List.append_cancel_left h2).symm
    unfold parseKeyword
    rw [hm, hnil]
    rfl
  refine ⟨?_, hkey, ?_, ?_⟩
  · intro s hs
    constructor
    · intro hok
      unfold parseKeyword at hok
      cases hm : parseEnumMap table s with
      | mk o c =>
        rw [hm] at hok
        cases o with
        | none => exact Bool.noConfusion hok
        | some v =>
          obtain ⟨k, hk, hc⟩ := parseEnumMap_some table s c v hm
          have hcs : ∀ x ∈ c, is_eos x = false := by
            intro x hx
            apply hs
            rw [hc]
            exact List.mem_append_right _ hx
          have hnil := parseEOSToken_nil_of_no_nul c hok hcs
          refine ⟨(k, v), hk, ?_⟩
          rw [hc, hnil, List.append_nil]
    · rintro ⟨p, hp, rfl⟩
      rw [hkey p hp]
  · intro p hp c rest hc
    obtain ⟨v, c2, hm⟩ :=
      parseEnumMap_isSome table (p.1.toList ++ c :: rest) ⟨p, hp, c :: rest, rfl⟩
    obtain ⟨k, hk, hk2⟩ := parseEnumMap_some table _ c2 v hm
    have hkp : (k, v) = p := by
      rcases isPrefixOf_comparable k.toList p.1.toList c2 (c :: rest) hk2.symm with h1 | h1
      · exact hfree (k, v) hk p hp h1
      · exact (hfree p hp (k, v) hk h1).symm
    subst hkp
    have hc2 : c2 = c :: rest := (List.append_cancel_left hk2).symm
    unfold parseKeyword
    rw [hm, hc2]
    simpa [storeThenEOS, parseEOSToken, peek] using hc
  · intro p hp pre t hpt ht
    unfold parseKeyword
    cases hm : parseEnumMap table pre with
    | mk o c =>
      cases o with
      | none => rfl
      | some v =>
        exfalso
        obtain ⟨k, hk, hk2⟩ := parseEnumMap_some table pre c v hm
        have hpre : k.toList.isPrefixOf p.1.toList = true := by
          rw [hpt, hk2, List.append_assoc]
          exact isPrefixOf_append_self _ _
        have hkp := hfree (k, v) hk p hp hpre
        subst hkp
        rw [hk2, List.append_assoc] at hpt
        have h2 : k.toList ++ [] = k.toList ++ (c ++ t) := by
          rw [List.append_nil]
          exact hpt
        have h3 := (List.append_cancel_left h2).symm
        exact ht (List.append_eq_nil.1 h3).2

theorem parseGradientUnits_eq (cur : Cursor) :
    parseGradientUnits cur = parseKeyword gGradientUnitsInfo cur := by
  unfold parseGradientUnits parseKeyword gGradientUnitsInfo
  simp only [parseEnumMap]
  by_cases h1 : (parseExpectedStringToken "userSpaceOnUse".toList cur).1 = true
  · simp only [h1, if_true]
  · simp only [h1, if_false, Bool.false_eq_true]
    by_cases h2 : (parseExpectedStringToken "objectBoundingBox".toList
        (parseExpectedStringToken "userSpaceOnUse".toList cur).2).1 = true
    · simp only [h2, if_true]
    · simp only [h2, if_false, Bool.false_eq_true]

/-- C18: the closed keyword grammars match whole strings exactly.  For each of
`parseLineCap`, `parseLineJoin`, `parseFillRule`, `parseVisibility`,
`parseSpreadMethod`, `parseGradientUnits` and `parseFontStyle`, and every string
without NUL byte, the call succeeds if and only if the string is byte for byte
one keyword of the table; a keyword yields the constant paired with it; a
keyword followed by any further character fails, and so does a keyword cut
short.  Matching is case-sensitive: `"Butt"` fails. -/
theorem keyword_grammars_exact :
    ExactKeywordGrammar parseLineCap gCapInfo ∧
    ExactKeywordGrammar parseLineJoin gJoinInfo ∧
    ExactKeywordGrammar parseFillRule gFillRuleInfo ∧
    ExactKeywordGrammar parseVisibility gVisibilityInfo ∧
    ExactKeywordGrammar parseSpreadMethod gSpreadInfo ∧
    ExactKeywordGrammar parseGradientUnits gGradientUnitsInfo ∧
    ExactKeywordGrammar parseFontStyle gStyleMap ∧
    (parseLineCap "Butt".toList).ok = false ∧
    (parseLineCap "butt".toList) = ⟨true, some SkSVGLineCap.kButt, []⟩ := by
  have hgrad : parseGradientUnits = parseKeyword gGradientUnitsInfo :=
    funext parseGradientUnits_eq
  refine ⟨?_, ?_, ?_, ?_, ?_, ?_, ?_, by decide, by decide⟩
  · exact parseKeyword_exact gCapInfo (by decide)
  · exact parseKeyword_exact gJoinInfo (by decide)
  · exact parseKeyword_exact gFillRuleInfo (by decide)
  · exact parseKeyword_exact gVisibilityInfo (by decide)
  · exact parseKeyword_exact gSpreadInfo (by decide)
  · rw [hgrad]
    exact parseKeyword_exact gGradientUnitsInfo (by decide)
  · exact parseKeyword_exact gStyleMap (by decide)

theorem keyword_grammars_exact_witness :
    (parseVisibility "hiddenx".toList).ok = false ∧
    (parseVisibility "hidd".toList).ok = false ∧
    parseVisibility "hidden".toList = ⟨true, some SkSVGVisibility.kHidden, []⟩ :=
  ⟨keyword_grammars_exact.2.2.2.1.2.2.1 ("hidden", SkSVGVisibility.kHidden) (by decide)
     'x' [] (by decide),
   keyword_grammars_exact.2.2.2.1.2.2.2 ("hidden", SkSVGVisibility.kHidden) (by decide)
     "hidd".toList "en".toList (by decide) (by decide),
   keyword_grammars_exact.2.2.2.1.2.1 ("hidden", SkSVGVisibility.kHidden) (by decide)⟩

/-! ## Dash arrays -/

theorem parseSepToken_idem (cur : Cursor) :
    (parseSepToken (parseSepToken cur).2).2 = (parseSepToken cur).2 := by
  simp [parseSepToken, advanceWhile, skipWhile_idem]

theorem parseSepToken_at_eos (cur : Cursor) (h : parseEOSToken cur = true) :
    parseSepToken cur = (false, cur) := by
  cases cur with
  | nil => rfl
  | cons c cs =>
    have hc : c.toNat = 0 := by simpa [parseEOSToken, peek, is_eos] using h
    have hws : is_ws c = false := by
      cases hw : is_ws c with
      | false => rfl
      | true =>
        have := (is_ws_iff c).1 hw
        omega
    have h1 : c ≠ ',' := by
      intro hcc
      rw [hcc] at hc
      exact absurd hc (by decide)
    have h2 : c ≠ ';' := by
      intro hcc
      rw [hcc] at hc
      exact absurd hc (by decide)
    have hsep : is_sep c = false := by simp [is_sep, hws, h1, h2]
    exact parseSepToken_stop c cs hsep

theorem parseEnumMap_none_cursor {T : Type} (table : List (String × T)) (cur c : Cursor)
    (h : parseEnumMap table cur = (none, c)) : c = cur := by
  induction table with
  | nil =>
    simp only [parseEnumMap, Prod.mk.injEq, true_and] at h
    exact h.symm
  | cons e rest ih =>
    obtain ⟨k, w⟩ := e
    rw [parseEnumMap] at h
    unfold parseExpectedStringToken at h
    cases hm : matchExpected k.toList cur with
    | some c2 =>
      rw [hm] at h
      simp at h
    | none =>
      rw [hm] at h
      simp only [Bool.false_eq_true, if_false] at h
      exact ih h

theorem parseLength_of_dashLength (P : SkParse S) (cur c : Cursor) (l : SkSVGLength S)
    (hl : dashLength P cur = some (l, c))
    (hnext : parseEOSToken c = true ∨ (parseSepToken c).1 = true) :
    parseLength P cur = ⟨true, some l, (parseSepToken c).2⟩ := by
  unfold dashLength at hl
  cases hx : P.FindScalar cur with
  | none =>
    rw [hx] at hl
    exact Option.noConfusion hl
  | some vc =>
    obtain ⟨v, c1⟩ := vc
    rw [hx] at hl
    simp only at hl
    have hs := parseScalarToken_some P cur c1 v hx
    unfold parseLength
    rw [hs]
    simp only
    cases hu : parseLengthUnitToken c1 with
    | mk o c2 =>
      rw [hu] at hl
      cases o with
      | some u =>
        simp only [Option.some.injEq, Prod.mk.injEq] at hl
        obtain ⟨rfl, rfl⟩ := hl
        rfl
      | none =>
        simp only [Option.some.injEq, Prod.mk.injEq] at hl
        obtain ⟨rfl, rfl⟩ := hl
        have hc2 : c2 = c1 := parseEnumMap_none_cursor gUnitInfo c1 c2 hu
        subst hc2
        simp only
        have hcond : ((parseSepToken c2).1 || parseEOSToken (parseSepToken c2).2) = true := by
          rcases hnext with he | hsep
          · rw [parseSepToken_at_eos c2 he]
            simp [he]
          · simp [hsep]
        rw [if_pos hcond, parseSepToken_idem]

theorem dashLoop_of_dashLengths (P : SkParse S)
    (hP : ∀ c, parseEOSToken c = true → P.FindScalar c = none) :
    ∀ (fuel : Nat) (cur : Cursor) (acc ls : List (SkSVGLength S)),
      dashLengths P fuel cur = some ls →
      ∃ c, dashLoop P (fuel + 1) cur acc = some (acc ++ ls, c) ∧ parseEOSToken c = true := by
  intro fuel
  induction fuel with
  | zero =>
    intro cur acc ls h
    simp [dashLengths] at h
  | succ fuel ih =>
    intro cur acc ls h
    rw [dashLengths] at h
    cases hl : dashLength P cur with
    | none =>
      rw [hl] at h
      exact Option.noConfusion h
    | some lc =>
      obtain ⟨l, c⟩ := lc
      rw [hl] at h
      simp only at h
      by_cases heos : parseEOSToken c = true
      · rw [if_pos heos] at h
        simp only [Option.some.injEq] at h
        subst h
        have hlen := parseLength_of_dashLength P cur c l hl (Or.inl heos)
        rw [parseSepToken_at_eos c heos] at hlen
        have hstop : parseLength P c = ⟨false, none, c⟩ := by
          unfold parseLength
          rw [parseScalarToken_none P c (hP c heos)]
        refine ⟨c, ?_, heos⟩
        rw [dashLoop]
        simp only [hlen, Bool.not_true, Bool.false_eq_true, if_false, Option.toList]
        rw [dashLoop]
        simp only [hstop, Bool.not_false, if_true]
      · rw [if_neg heos] at h
        by_cases hsep : (parseSepToken c).1 = true
        · rw [if_pos hsep] at h
          simp only [Option.map_eq_some'] at h
          obtain ⟨ls1, hrest, rfl⟩ := h
          have hlen := parseLength_of_dashLength P cur c l hl (Or.inr hsep)
          obtain ⟨c3, hc3, he3⟩ := ih (parseSepToken c).2 (acc ++ [l]) ls1 hrest
          refine ⟨c3, ?_, he3⟩
          rw [dashLoop]
          simp only [hlen, Bool.not_true, Bool.false_eq_true, if_false, Option.toList]
          rw [hc3]
          simp
        · rw [if_neg hsep] at h
          exact Option.noConfusion h

theorem dashLengths_ne_nil (P : SkParse S) (fuel : Nat) (cur : Cursor)
    (ls : List (SkSVGLength S)) (h : dashLengths P fuel cur = some ls) : ls ≠ [] := by
  cases fuel with
  | zero => simp [dashLengths] at h
  | succ fuel =>
    rw [dashLengths] at h
    cases hl : dashLength P cur with
    | none =>
      rw [hl] at h
      exact Option.noConfusion h
    | some lc =>
      obtain ⟨l, c⟩ := lc
      rw [hl] at h
      simp only at h
      split at h
      · simp only [Option.some.injEq] at h
        rw [← h]
        exact List.cons_ne_nil _ _
      · split at h
        · simp only [Option.map_eq_some'] at h
          obtain ⟨ls1, _, rfl⟩ := h
          exact List.cons_ne_nil _ _
        · exact Option.noConfusion h

theorem parseDashArray_out_nonempty (P : SkParse S) (cur : Cursor)
    (r : Outcome (SkSVGDashArray S)) (ds : List (SkSVGLength S))
    (hr : parseDashArray P cur = some r) (hout : r.out = some (SkSVGDashArray.kDashArray ds)) :
    ds ≠ [] := by
  unfold parseDashArray at hr
  simp only at hr
  split at hr
  · simp only [Option.some.injEq] at hr
    rw [← hr] at hout
    simp [storeThenEOS] at hout
  · split at hr
    · simp only [Option.some.injEq] at hr
      rw [← hr] at hout
      simp [storeThenEOS] at hout
    · split at hr
      · exact Option.noConfusion hr
      · rename_i dashes c hloop
        split at hr
        · simp only [Option.some.injEq] at hr
          rw [← hr] at hout
          simp at hout
        · rename_i hne
          simp only [Option.some.injEq] at hr
          rw [← hr] at hout
          simp only [storeThenEOS, Option.some.injEq, SkSVGDashArray.kDashArray.injEq] at hout
          subst hout
          intro hnil
          apply hne
          rw [hnil]
          rfl

/-- C17: `parseDashArray` yields none, inherit, or a non-empty list.  `"none"`
yields the none value and `"inherit"` the inherit value.  When the input is a
list of `n >= 1` lengths, each a scalar with an optional unit, separated by
separators and ending at the end of input, the call yields exactly these
lengths in textual order (the scalar tokenizer reading nothing at the end of
input).  A stored dash list is never empty, and the empty string fails. -/
theorem parseDashArray_none_inherit_or_list :
    (∀ P : SkParse S,
      parseDashArray P "none".toList = some ⟨true, some SkSVGDashArray.kNone, []⟩ ∧
      parseDashArray P "inherit".toList = some ⟨true, some SkSVGDashArray.kInherit, []⟩) ∧
    (∀ (P : SkParse S) (cur : Cursor) (ls : List (SkSVGLength S)),
      (∀ c, parseEOSToken c = true → P.FindScalar c = none) →
      (∀ t, cur ≠ "none".toList ++ t) → (∀ t, cur ≠ "inherit".toList ++ t) →
      dashLengths P cur.length cur = some ls →
      ls ≠ [] ∧
      ∃ c, parseDashArray P cur = some ⟨true, some (SkSVGDashArray.kDashArray ls), c⟩ ∧
        parseEOSToken c = true) ∧
    (∀ (P : SkParse S) (cur : Cursor) (r : Outcome (SkSVGDashArray S))
        (ds : List (SkSVGLength S)),
      parseDashArray P cur = some r → r.out = some (SkSVGDashArray.kDashArray ds) →
      ds ≠ []) ∧
    (∀ P : SkParse S, P.FindScalar [] = none →
      parseDashArray P [] = some ⟨false, none, []⟩) ∧
    parseDashArray refParse "5,3 2px".toList
      = some ⟨true, some (SkSVGDashArray.kDashArray
          [⟨5, SkSVGLength.Unit.kNumber⟩, ⟨3, SkSVGLength.Unit.kNumber⟩,
           ⟨2, SkSVGLength.Unit.kPX⟩]), []⟩ := by
  refine ⟨fun P => ⟨rfl, rfl⟩, ?_, parseDashArray_out_nonempty, ?_, by decide⟩
  · intro P cur ls hP hnone hinherit hls
    have hne := dashLengths_ne_nil P _ cur ls hls
    refine ⟨hne, ?_⟩
    obtain ⟨c, hc, hce⟩ := dashLoop_of_dashLengths P hP cur.length cur [] ls hls
    refine ⟨c, ?_, hce⟩
    have hemp : ls.isEmpty = false := by
      cases ls with
      | nil => exact absurd rfl hne
      | cons a as => rfl
    unfold parseDashArray
    simp only [parseExpectedStringToken_fail hnone, parseExpectedStringToken_fail hinherit,
      Bool.false_eq_true, if_false, hc, List.nil_append, hemp, storeThenEOS, hce]
  · intro P hP
    have hstop : parseLength P [] = ⟨false, none, []⟩ := by
      unfold parseLength
      rw [parseScalarToken_none P [] hP]
    have hloop : dashLoop P 1 [] [] = some ([], []) := by
      rw [dashLoop]
      simp only [hstop, Bool.not_false, if_true]
    have h1 : parseExpectedStringToken "none".toList [] = (false, []) := by decide
    have h2 : parseExpectedStringToken "inherit".toList [] = (false, []) := by decide
    unfold parseDashArray
    simp only [h1, h2, Bool.false_eq_true, if_false, List.length_nil, Nat.zero_add, hloop,
      List.isEmpty_nil, if_true]

theorem parseDashArray_none_inherit_or_list_witness :
    dashLengths refParse 8 "4 1em;2%".toList
      = some [⟨4, SkSVGLength.Unit.kNumber⟩, ⟨1, SkSVGLength.Unit.kEMS⟩,
          ⟨2, SkSVGLength.Unit.kPercentage⟩] ∧
    ∃ c, parseDashArray refParse "4 1em;2%".toList
        = some ⟨true, some (SkSVGDashArray.kDashArray
            [⟨4, SkSVGLength.Unit.kNumber⟩, ⟨1, SkSVGLength.Unit.kEMS⟩,
             ⟨2, SkSVGLength.Unit.kPercentage⟩]), c⟩ ∧
      parseEOSToken c = true :=
  ⟨by decide,
   ((@parseDashArray_none_inherit_or_list Int).2.1 refParse "4 1em;2%".toList
      [⟨4, SkSVGLength.Unit.kNumber⟩, ⟨1, SkSVGLength.Unit.kEMS⟩,
       ⟨2, SkSVGLength.Unit.kPercentage⟩]
      (by
        intro c hc
        cases c with
        | nil => rfl
        | cons x xs =>
          have hx : x.toNat = 0 := by simpa [parseEOSToken, peek, is_eos] using hc
          have h1 : x ≠ '-' := by
            intro hcc
            rw [hcc] at hx
            exact absurd hx (by decide)
          have h2 : ¬ (48 ≤ x.toNat ∧ x.toNat ≤ 57) := by omega
          simp [refParse, refFindS32, refDigits, h1, h2])
      (by
        intro t ht
        simp at ht)
      (by
        intro t ht
        simp at ht)
      (by decide)).2⟩

/-! ## Dangling coordinates -/

theorem pointsLoop_nonempty (P : SkParse S) :
    ∀ (fuel : Nat) (cur : Cursor) (pts : List (S × S)) (parsedValue : Bool)
      (r : List (S × S) × Bool × Cursor),
      (parsedValue = true → pts ≠ []) →
      pointsLoop P fuel cur pts parsedValue = some r → r.2.1 = true → r.1 ≠ [] := by
  intro fuel
  induction fuel with
  | zero =>
    intro cur pts parsedValue r _ h
    simp [pointsLoop] at h
  | succ n ih =>
    intro cur pts parsedValue r hinv h
    rw [pointsLoop] at h
    dsimp only at h
    generalize (if parsedValue = true then parseCommaWspToken cur else (true, cur)) = r0 at h
    split at h
    · simp only [Option.some.injEq] at h
      subst h
      exact hinv
    · cases hx : parseScalarToken P r0.2 with
      | mk o c1 =>
        rw [hx] at h
        cases o with
        | none =>
          simp only [Option.some.injEq] at h
          subst h
          exact hinv
        | some x =>
          dsimp only at h
          split at h
          · simp only [Option.some.injEq] at h
            subst h
            exact hinv
          · cases hy : parseScalarToken P (parseCommaWspToken c1).2 with
            | mk o2 c2 =>
              rw [hy] at h
              cases o2 with
              | none =>
                simp only [Option.some.injEq] at h
                subst h
                exact hinv
              | some y =>
                dsimp only at h
                exact ih _ _ _ _ (fun _ => by simp) h

theorem parsePoints_ok_nonempty (P : SkParse S) (cur : Cursor)
    (r : Outcome (SkSVGPointsType S)) (h : parsePoints P cur = some r) (hok : r.ok = true) :
    ∃ pts, r.out = some pts ∧ pts ≠ [] := by
  unfold parsePoints at h
  dsimp only at h
  cases hl : pointsLoop P ((advanceWhile is_ws cur).2.length + 1) (advanceWhile is_ws cur).2
      [] false with
  | none =>
    rw [hl] at h
    simp at h
  | some t =>
    obtain ⟨pts, parsedValue, c⟩ := t
    have hne := pointsLoop_nonempty P _ _ _ _ _ (fun hf => Bool.noConfusion hf) hl
    rw [hl] at h
    dsimp only at h
    split at h
    · rename_i hc
      simp only [Option.some.injEq] at h
      subst h
      have hpv : parsedValue = true := by
        cases parsedValue
        · simp at hc
        · rfl
      exact ⟨pts, rfl, hne hpv⟩
    · simp only [Option.some.injEq] at h
      subst h
      simp at hok

/-- C21 (failing input): on `"0,0 10"` the second iteration reads `10`, finds
the end of input where the separator of the pair should be, goes on to the
second coordinate, fails there and leaves the loop; the pair read before keeps
`parsedValue` true, so `parsePoints` returns success with the single point
(0, 0) and the coordinate `10` is dropped.  A successful call does store a
non-empty list. -/
theorem parsePoints_dangling_coordinate_accepted :
    parsePoints refParse "0,0 10".toList = some ⟨true, some [(0, 0)], []⟩ ∧
    (∀ (P : SkParse Int) (cur : Cursor) (r : Outcome (SkSVGPointsType Int)),
      parsePoints P cur = some r → r.ok = true → ∃ pts, r.out = some pts ∧ pts ≠ []) := by
  refine ⟨by decide, ?_⟩
  intro P cur r h hok
  exact parsePoints_ok_nonempty P cur r h hok

/-! ## The cursor after a failed attempt -/

theorem parseColorComponentToken_fail_cursor (P : SkParse S) (cur : Cursor)
    (h : (parseColorComponentToken P cur).1 = none) :
    (parseColorComponentToken P cur).2 = cur := by
  have hi : (parseIntegral P cur).1 = none → (parseIntegral P cur).2 = cur := by
    unfold parseIntegral
    split
    · intro _; rfl
    · split
      · intro _; rfl
      · split <;> intro h1 <;> simp at h1
  have hf : (parseFractional P cur).1 = none → (parseFractional P cur).2 = cur := by
    unfold parseFractional
    split
    · intro _; rfl
    · split
      · intro _; rfl
      · intro h1
        simp at h1
  unfold parseColorComponentToken at h ⊢
  cases h1 : parseIntegral P cur with
  | mk o c1 =>
    rw [h1] at h hi
    cases o with
    | some v => simp at h
    | none =>
      have hc1 : c1 = cur := hi rfl
      subst hc1
      simp only at h ⊢
      cases h2 : parseFractional P c1 with
      | mk o2 c2 =>
        rw [h2] at h hf
        cases o2 with
        | some v => simp at h
        | none => exact hf rfl

/-- C22 (failing input): `parseParenthesized` and the hex-color token return
failure with the cursor moved.  On `"rgb(x"` the rgb() token fails at `x`, after
`rgb(`; on `"#12"` the hex-color token fails at the end of input, after the
digits; on `"#xyz"` it fails after `#`.  Only the color-component token keeps the
cursor on every failure. -/
theorem failed_attempts_move_the_cursor :
    parseParenthesized (some "rgb") (rgbBody refParse) "rgb(x".toList = (none, "x".toList) ∧
    parseRGBColorToken refParse "rgb(x".toList = (none, "x".toList) ∧
    parseHexColorToken refParse "#12".toList = (none, []) ∧
    parseHexColorToken refParse "#xyz".toList = (none, "xyz".toList) ∧
    (∀ (P : SkParse Int) (cur : Cursor), (parseColorComponentToken P cur).1 = none →
      (parseColorComponentToken P cur).2 = cur) := by
  refine ⟨by decide, by decide, by decide, by decide, ?_⟩
  intro P cur h
  exact parseColorComponentToken_fail_cursor P cur h

/-! ## The comma-wsp separator -/

/-- C23 (failing input): on `" , 5"` the whitespace skip succeeds and the call
returns at once, with the cursor on `", 5"`: neither the comma nor the
whitespace after it is consumed.  On `", 5"` the comma alone is consumed.  When
the input begins with neither whitespace nor a comma the call fails and the
cursor stays. -/
theorem parseCommaWspToken_stops_before_comma :
    parseCommaWspToken " , 5".toList = (true, ", 5".toList) ∧
    parseCommaWspToken ", 5".toList = (true, " 5".toList) ∧
    (∀ cur : Cursor, (parseCommaWspToken cur).1 = false → (parseCommaWspToken cur).2 = cur) ∧
    (∀ (c : Char) (cs : Cursor), is_ws c = false → c ≠ ',' →
      parseCommaWspToken (c :: cs) = (false, c :: cs)) := by
  refine ⟨by decide, by decide, parseCommaWspToken_unmoved, ?_⟩
  intro c cs hws hc
  simp [parseCommaWspToken, parseWSToken, advanceWhile, skipWhile, hws,
    parseExpectedStringToken, matchExpected, hc]

/-! ## Literals and keyword tables -/

theorem matchExpected_length_lt (s r : Cursor) (h : r.length < s.length) :
    matchExpected s r = none := by
  cases hm : matchExpected s r with
  | none => rfl
  | some c =>
    have := matchExpected_eq_some hm
    rw [this, List.length_append] at h
    omega

/-- C24: `parseExpectedStringToken` is an exact prefix match.  It succeeds if
and only if the remaining input starts with the literal byte for byte; on
success the cursor has advanced by exactly the length of the literal; on
failure the cursor is unchanged, also when the input ends before the literal
does.  The match is case-sensitive and skips no whitespace. -/
theorem parseExpectedStringToken_exact (s r : Cursor) :
    ((parseExpectedStringToken s r).1 = true ↔ ∃ t, r = s ++ t) ∧
    ((parseExpectedStringToken s r).1 = true →
      r = s ++ (parseExpectedStringToken s r).2 ∧
      (parseExpectedStringToken s r).2 = r.drop s.length ∧
      r.length = s.length + (parseExpectedStringToken s r).2.length) ∧
    ((parseExpectedStringToken s r).1 = false → (parseExpectedStringToken s r).2 = r) ∧
    (r.length < s.length → parseExpectedStringToken s r = (false, r)) ∧
    parseExpectedStringToken "butt".toList "Butt".toList = (false, "Butt".toList) ∧
    parseExpectedStringToken "butt".toList " butt".toList = (false, " butt".toList) ∧
    parseExpectedStringToken "butt".toList "but".toList = (false, "but".toList) ∧
    parseExpectedStringToken "butt".toList "butter".toList = (true, "er".toList) := by
  refine ⟨?_, ?_, ?_, ?_, by decide, by decide, by decide, by decide⟩
  · constructor
    · intro h
      unfold parseExpectedStringToken at h
      cases hm : matchExpected s r with
      | none =>
        rw [hm] at h
        exact Bool.noConfusion h
      | some c => exact ⟨c, matchExpected_eq_some hm⟩
    · rintro ⟨t, rfl⟩
      rw [parseExpectedStringToken_append]
  · intro h
    unfold parseExpectedStringToken at h ⊢
    cases hm : matchExpected s r with
    | none =>
      rw [hm] at h
      exact Bool.noConfusion h
    | some c =>
      have hr := matchExpected_eq_some hm
      refine ⟨hr, ?_, ?_⟩
      · simp only
        rw [hr, List.drop_left]
      · simp only
        rw [hr, List.length_append]
  · intro h
    unfold parseExpectedStringToken at h ⊢
    cases hm : matchExpected s r with
    | none => rfl
    | some c =>
      rw [hm] at h
      exact Bool.noConfusion h
  · intro h
    unfold parseExpectedStringToken
    rw [matchExpected_length_lt s r h]

/-- C25: `parseEnumMap` returns the first hit in declaration order.  If some key
is a prefix of the remaining input, the call succeeds with the value paired with
the first such key of the table and the cursor advanced by exactly that key; if
no key is a prefix, it fails, the cursor is unchanged and no value is
written. -/
theorem parseEnumMap_first_hit {T : Type} (table : List (String × T)) (cur : Cursor) :
    ((∃ p ∈ table, ∃ t, cur = p.1.toList ++ t) →
      ∃ (before : List (String × T)) (k : String) (v : T) (after : List (String × T))
        (t : Cursor),
        table = before ++ (k, v) :: after ∧
        (∀ q ∈ before, ∀ u, cur ≠ q.1.toList ++ u) ∧
        cur = k.toList ++ t ∧
        parseEnumMap table cur = (some v, t) ∧
        cur.length = k.toList.length + t.length) ∧
    ((∀ p ∈ table, ∀ t, cur ≠ p.1.toList ++ t) →
      parseEnumMap table cur = (none, cur)) := by
  refine ⟨?_, parseEnumMap_none table cur⟩
  induction table with
  | nil =>
    rintro ⟨p, hp, _⟩
    exact absurd hp (List.not_mem_nil p)
  | cons e rest ih =>
    obtain ⟨k, w⟩ := e
    intro h
    cases hm : matchExpected k.toList cur with
    | some c =>
      have hc := matchExpected_eq_some hm
      refine ⟨[], k, w, rest, c, rfl, ?_, hc, ?_, ?_⟩
      · intro q hq
        exact absurd hq (List.not_mem_nil q)
      · rw [parseEnumMap]
        simp only [parseExpectedStringToken, hm, if_true]
      · rw [hc, List.length_append]
    | none =>
      have hk : ∀ u, cur ≠ k.toList ++ u := by
        intro u hu
        rw [hu, matchExpected_append] at hm
        exact Option.noConfusion hm
      have hrest : ∃ p ∈ rest, ∃ t, cur = p.1.toList ++ t := by
        obtain ⟨p, hp, t, ht⟩ := h
        rcases List.mem_cons.1 hp with hpe | hpr
        · subst hpe
          exact absurd ht (hk t)
        · exact ⟨p, hpr, t, ht⟩
      obtain ⟨before, k2, v2, after, t, htab, hbefore, hcur, hres, hlen⟩ := ih hrest
      refine ⟨(k, w) :: before, k2, v2, after, t, ?_, ?_, hcur, ?_, hlen⟩
      · rw [htab]
        rfl
      · intro q hq
        rcases List.mem_cons.1 hq with hqe | hqr
        · subst hqe
          exact hk
        · exact hbefore q hqr
      · rw [parseEnumMap]
        simp only [parseExpectedStringToken, hm, Bool.false_eq_true, if_false]
        exact hres

theorem parseEnumMap_first_hit_witness :
    parseEnumMap gWeightMap "bolder".toList = (some SkSVGFontWeight.kBold, "er".toList) ∧
    parseEnumMap gWeightMap "heavy".toList = (none, "heavy".toList) :=
  ⟨by decide,
   (parseEnumMap_first_hit gWeightMap "heavy".toList).2 (by
     intro p hp t
     unfold gWeightMap at hp
     fin_cases hp <;> simp)⟩

/-! ## The cursor invariant -/

theorem Advances.refl (p : Cursor) : Advances p p := ⟨[], rfl⟩

theorem Advances.trans {p q r : Cursor} (h1 : Advances p q) (h2 : Advances q r) :
    Advances p r := by
  obtain ⟨a, rfl⟩ := h1
  obtain ⟨b, rfl⟩ := h2
  exact ⟨a ++ b, (List.append_assoc a b r).symm⟩

theorem Advances.length_le {p q : Cursor} (h : Advances p q) : q.length ≤ p.length := by
  obtain ⟨a, rfl⟩ := h
  rw [List.length_append]
  omega

theorem Advances.tail (p : Cursor) : Advances p p.tail := by
  cases p with
  | nil => exact ⟨[], rfl⟩
  | cons c cs => exact ⟨[c], rfl⟩

theorem Advances.drop (n : Nat) (p : Cursor) : Advances p (p.drop n) :=
  ⟨p.take n, (List.take_append_drop n p).symm⟩

theorem skipWhile_adv (f : Char → Bool) (cur : Cursor) : Advances cur (skipWhile f cur) := by
  induction cur with
  | nil => exact Advances.refl []
  | cons c cs ih =>
    by_cases h : f c = true
    · simp only [skipWhile, h, if_true]
      exact (Advances.tail (c :: cs)).trans ih
    · simp only [skipWhile, h, if_false, Bool.false_eq_true]
      exact Advances.refl _

theorem advanceWhile_adv (f : Char → Bool) (cur : Cursor) :
    Advances cur (advanceWhile f cur).2 := skipWhile_adv f cur

theorem parseWSToken_adv (cur : Cursor) : Advances cur (parseWSToken cur).2 :=
  skipWhile_adv is_ws cur

theorem parseSepToken_adv (cur : Cursor) : Advances cur (parseSepToken cur).2 :=
  skipWhile_adv is_sep cur

theorem parseExpectedStringToken_adv (e cur : Cursor) :
    Advances cur (parseExpectedStringToken e cur).2 := by
  unfold parseExpectedStringToken
  cases hm : matchExpected e cur with
  | none => exact Advances.refl cur
  | some c => exact ⟨e, matchExpected_eq_some hm⟩

theorem parseCommaWspToken_adv (cur : Cursor) : Advances cur (parseCommaWspToken cur).2 := by
  unfold parseCommaWspToken
  simp only
  split
  · exact parseWSToken_adv cur
  · exact (parseWSToken_adv cur).trans (parseExpectedStringToken_adv _ _)

theorem parseEnumMap_adv {T : Type} (table : List (String × T)) (cur : Cursor) :
    Advances cur (parseEnumMap table cur).2 := by
  cases h : parseEnumMap table cur with
  | mk o c =>
    cases o with
    | none =>
      rw [parseEnumMap_none_cursor table cur c h]
      exact Advances.refl cur
    | some v =>
      obtain ⟨k, _, hk⟩ := parseEnumMap_some table cur c v h
      exact ⟨k.toList, hk⟩

theorem parseScalarToken_adv (P : SkParse S)
    (hS : ∀ c v n, P.FindScalar c = some (v, n) → Advances c n) (cur : Cursor) :
    Advances cur (parseScalarToken P cur).2 := by
  unfold parseScalarToken
  cases h : P.FindScalar cur with
  | none => exact Advances.refl cur
  | some r => exact hS cur r.1 r.2 h

theorem parseHexToken_adv (P : SkParse S)
    (hH : ∀ c v n, P.FindHex c = some (v, n) → Advances c n) (cur : Cursor) :
    Advances cur (parseHexToken P cur).2 := by
  unfold parseHexToken
  cases h : P.FindHex cur with
  | none => exact Advances.refl cur
  | some r => exact hH cur r.1 r.2 h

theorem parseNamedColorToken_adv (P : SkParse S)
    (hN : ∀ c v n, P.FindNamedColor c = some (v, n) → Advances c n) (cur : Cursor) :
    Advances cur (parseNamedColorToken P cur).2 := by
  unfold parseNamedColorToken
  cases h : P.FindNamedColor cur with
  | none => exact Advances.refl cur
  | some r => exact hN cur r.1 r.2 h

theorem parseLengthUnitToken_adv (cur : Cursor) :
    Advances cur (parseLengthUnitToken cur).2 := parseEnumMap_adv gUnitInfo cur

theorem parseHexColorToken_adv (P : SkParse S)
    (hH : ∀ c v n, P.FindHex c = some (v, n) → Advances c n) (cur : Cursor) :
    Advances cur (parseHexColorToken P cur).2 := by
  have h1 := parseExpectedStringToken_adv ['#'] cur
  have h2 := h1.trans (parseHexToken_adv P hH (parseExpectedStringToken ['#'] cur).2)
  unfold parseHexColorToken
  simp only
  split
  · exact h1
  · cases hx : parseHexToken P (parseExpectedStringToken ['#'] cur).2 with
    | mk o c =>
      rw [hx] at h2
      cases o with
      | none => exact h2
      | some v =>
        simp only
        split
        · exact h2
        · split
          · exact h2
          · exact h2

theorem parseIntegral_adv (P : SkParse S)
    (hI : ∀ c v n, P.FindS32 c = some (v, n) → Advances c n) (cur : Cursor) :
    Advances cur (parseIntegral P cur).2 := by
  unfold parseIntegral
  cases h : P.FindS32 cur with
  | none => exact Advances.refl cur
  | some r =>
    obtain ⟨n, p⟩ := r
    have hp := hI cur n p h
    simp only
    split
    · exact Advances.refl cur
    · split
      · exact hp.trans (Advances.tail p)
      · exact hp

theorem parseFractional_adv (P : SkParse S)
    (hS : ∀ c v n, P.FindScalar c = some (v, n) → Advances c n) (cur : Cursor) :
    Advances cur (parseFractional P cur).2 := by
  unfold parseFractional
  cases h : P.FindScalar cur with
  | none => exact Advances.refl cur
  | some r =>
    obtain ⟨s, p⟩ := r
    have hp := hS cur s p h
    simp only
    split
    · exact Advances.refl cur
    · exact hp.trans (Advances.tail p)

theorem parseColorComponentToken_adv (P : SkParse S)
    (hS : ∀ c v n, P.FindScalar c = some (v, n) → Advances c n)
    (hI : ∀ c v n, P.FindS32 c = some (v, n) → Advances c n) (cur : Cursor) :
    Advances cur (parseColorComponentToken P cur).2 := by
  have h1 := parseIntegral_adv P hI cur
  unfold parseColorComponentToken
  cases hx : parseIntegral P cur with
  | mk o c1 =>
    rw [hx] at h1
    cases o with
    | some v => exact h1
    | none =>
      simp only
      have h2 := h1.trans (parseFractional_adv P hS c1)
      cases hy : parseFractional P c1 with
      | mk o2 c2 =>
        rw [hy] at h2
        cases o2 <;> exact h2

theorem parseParenthesized_adv {T : Type} (pre : Option String)
    (f : Cursor → Option T × Cursor) (hf : ∀ c, Advances c (f c).2) (cur : Cursor) :
    Advances cur (parseParenthesized pre f cur).2 := by
  have h1 := parseWSToken_adv cur
  unfold parseParenthesized
  cases pre with
  | none =>
    simp only [Bool.not_true, Bool.false_eq_true, if_false]
    have h2 := h1.trans (parseWSToken_adv (parseWSToken cur).2)
    have h3 := h2.trans (parseExpectedStringToken_adv ['('] _)
    split
    · exact h3
    · have h4 := h3.trans (parseWSToken_adv _)
      have h5 := h4.trans (hf _)
      cases hx : f (parseWSToken (parseExpectedStringToken ['(']
          (parseWSToken (parseWSToken cur).2).2).2).2 with
      | mk o c4 =>
        rw [hx] at h5
        cases o with
        | none => exact h5
        | some v =>
          exact h5.trans ((parseWSToken_adv c4).trans (parseExpectedStringToken_adv [')'] _))
  | some p =>
    simp only
    have h1b := h1.trans (parseExpectedStringToken_adv p.toList (parseWSToken cur).2)
    split
    · exact h1b
    · have h2 := h1b.trans (parseWSToken_adv _)
      have h3 := h2.trans (parseExpectedStringToken_adv ['('] _)
      split
      · exact h3
      · have h4 := h3.trans (parseWSToken_adv _)
        have h5 := h4.trans (hf _)
        cases hx : f (parseWSToken (parseExpectedStringToken ['(']
            (parseWSToken (parseExpectedStringToken p.toList (parseWSToken cur).2).2).2).2).2 with
        | mk o c4 =>
          rw [hx] at h5
          cases o with
          | none => exact h5
          | some v =>
            exact h5.trans
              ((parseWSToken_adv c4).trans (parseExpectedStringToken_adv [')'] _))

theorem adv_of_eq {α : Type} {f : Cursor → α × Cursor} (hf : ∀ c, Advances c (f c).2)
    {p cur c1 : Cursor} {o : α} (heq : f cur = (o, c1)) (h : Advances p cur) :
    Advances p c1 := by
  have h2 := hf cur
  rw [heq] at h2
  exact h.trans h2

theorem parseLength_adv (P : SkParse S)
    (hS : ∀ c v n, P.FindScalar c = some (v, n) → Advances c n) (cur : Cursor) :
    Advances cur (parseLength P cur).cur := by
  unfold parseLength
  dsimp only
  repeat' split
  all_goals try dsimp only
  all_goals
    repeat (first
      | exact Advances.refl _
      | refine Advances.trans ?_ (parseSepToken_adv _)
      | refine adv_of_eq (parseScalarToken_adv P hS) (by assumption) ?_
      | refine adv_of_eq parseLengthUnitToken_adv (by assumption) ?_)

theorem rgbBody_adv (P : SkParse S)
    (hS : ∀ c v n, P.FindScalar c = some (v, n) → Advances c n)
    (hI : ∀ c v n, P.FindS32 c = some (v, n) → Advances c n) (cur : Cursor) :
    Advances cur (rgbBody P cur).2 := by
  unfold rgbBody
  dsimp only
  repeat' split
  all_goals try dsimp only
  all_goals
    repeat (first
      | exact Advances.refl _
      | refine Advances.trans ?_ (parseSepToken_adv _)
      | refine adv_of_eq (parseColorComponentToken_adv P hS hI) (by assumption) ?_)

theorem viewBoxScalars_adv (P : SkParse S)
    (hS : ∀ c v n, P.FindScalar c = some (v, n) → Advances c n) (cur : Cursor) :
    Advances cur (viewBoxScalars P cur).2 := by
  unfold viewBoxScalars
  dsimp only
  repeat' split
  all_goals try dsimp only
  all_goals
    repeat (first
      | exact Advances.refl _
      | refine Advances.trans ?_ (parseSepToken_adv _)
      | refine adv_of_eq (parseScalarToken_adv P hS) (by assumption) ?_)

theorem parseRGBColorToken_adv (P : SkParse S)
    (hS : ∀ c v n, P.FindScalar c = some (v, n) → Advances c n)
    (hI : ∀ c v n, P.FindS32 c = some (v, n) → Advances c n) (cur : Cursor) :
    Advances cur (parseRGBColorToken P cur).2 :=
  parseParenthesized_adv (some "rgb") (rgbBody P) (rgbBody_adv P hS hI) cur

theorem colorToken_adv (P : SkParse S) (hP : TokenizersAdvance P) (cur : Cursor) :
    Advances cur (colorToken P cur).2 := by
  obtain ⟨hS, hH, hI, hN⟩ := hP
  unfold colorToken
  try dsimp only
  repeat' split
  all_goals try dsimp only
  all_goals
    repeat (first
      | exact Advances.refl _
      | refine Advances.trans ?_ (parseRGBColorToken_adv P hS hI _)
      | refine adv_of_eq (parseHexColorToken_adv P hH) (by assumption) ?_
      | refine adv_of_eq (parseNamedColorToken_adv P hN) (by assumption) ?_)

theorem parseColor_adv (P : SkParse S) (hP : TokenizersAdvance P) (cur : Cursor) :
    Advances cur (parseColor P cur).cur := by
  unfold parseColor storeThenEOS
  try dsimp only
  repeat' split
  all_goals try dsimp only
  all_goals
    repeat (first
      | exact Advances.refl _
      | refine Advances.trans ?_ (parseWSToken_adv _)
      | refine adv_of_eq (colorToken_adv P hP) (by assumption) ?_)

theorem parseIRI_adv (cur : Cursor) : Advances cur (parseIRI cur).2 := by
  unfold parseIRI
  try dsimp only
  repeat' split
  all_goals try dsimp only
  all_goals
    repeat (first
      | exact Advances.refl _
      | refine Advances.trans ?_ (advanceWhile_adv _ _)
      | refine Advances.trans ?_ (parseExpectedStringToken_adv _ _)
      | refine Advances.trans ?_ (parseWSToken_adv _))

theorem parseFuncIRI_adv (cur : Cursor) : Advances cur (parseFuncIRI cur).2 :=
  parseParenthesized_adv (some "url") parseIRI parseIRI_adv cur

theorem parseNumber_adv (P : SkParse S)
    (hS : ∀ c v n, P.FindScalar c = some (v, n) → Advances c n) (cur : Cursor) :
    Advances cur (parseNumber P cur).cur := by
  unfold parseNumber
  try dsimp only
  repeat' split
  all_goals try dsimp only
  all_goals
    repeat (first
      | exact Advances.refl _
      | refine Advances.trans ?_ (parseWSToken_adv _)
      | refine Advances.trans ?_ (parseSepToken_adv _)
      | refine adv_of_eq (parseScalarToken_adv P hS) (by assumption) ?_)

theorem parseViewBox_adv (P : SkParse S)
    (hS : ∀ c v n, P.FindScalar c = some (v, n) → Advances c n) (cur : Cursor) :
    Advances cur (parseViewBox P cur).cur := by
  unfold parseViewBox storeThenEOS
  try dsimp only
  repeat' split
  all_goals try dsimp only
  all_goals
    repeat (first
      | exact Advances.refl _
      | refine Advances.trans ?_ (parseWSToken_adv _)
      | refine adv_of_eq (viewBoxScalars_adv P hS) (by assumption) ?_)

theorem matrixScalars_adv (P : SkParse S)
    (hS : ∀ c v n, P.FindScalar c = some (v, n) → Advances c n) :
    ∀ (n i : Nat) (acc : List S) (cur : Cursor),
      Advances cur (matrixScalars P n i acc cur).2 := by
  intro n
  induction n with
  | zero =>
    intro i acc cur
    exact Advances.refl cur
  | succ n ih =>
    intro i acc cur
    rw [matrixScalars]
    dsimp only
    repeat' split
    all_goals try dsimp only
    all_goals
      repeat (first
        | exact Advances.refl _
        | refine Advances.trans ?_ (ih _ _ _)
        | refine Advances.trans ?_ (parseSepToken_adv _)
        | refine adv_of_eq (parseScalarToken_adv P hS) (by assumption) ?_)

theorem parseMatrixToken_adv (P : SkParse S) (M : SkMatrixOps S Mat)
    (hS : ∀ c v n, P.FindScalar c = some (v, n) → Advances c n) (cur : Cursor) :
    Advances cur (parseMatrixToken P M cur).2 := by
  unfold parseMatrixToken
  refine parseParenthesized_adv _ _ ?_ cur
  intro c
  try dsimp only
  repeat' split
  all_goals try dsimp only
  all_goals
    repeat (first
      | exact Advances.refl _
      | refine adv_of_eq (matrixScalars_adv P hS 6 0 []) (by assumption) ?_)

theorem parseTranslateToken_adv (P : SkParse S) (M : SkMatrixOps S Mat)
    (hS : ∀ c v n, P.FindScalar c = some (v, n) → Advances c n) (cur : Cursor) :
    Advances cur (parseTranslateToken P M cur).2 := by
  unfold parseTranslateToken
  refine parseParenthesized_adv _ _ ?_ cur
  intro c
  try dsimp only
  repeat' split
  all_goals try dsimp only
  all_goals
    repeat (first
      | exact Advances.refl _
      | refine Advances.trans ?_ (parseWSToken_adv _)
      | refine Advances.trans ?_ (parseSepToken_adv _)
      | refine adv_of_eq (parseScalarToken_adv P hS) (by assumption) ?_)

theorem parseScaleToken_adv (P : SkParse S) (M : SkMatrixOps S Mat)
    (hS : ∀ c v n, P.FindScalar c = some (v, n) → Advances c n) (cur : Cursor) :
    Advances cur (parseScaleToken P M cur).2 := by
  unfold parseScaleToken
  refine parseParenthesized_adv _ _ ?_ cur
  intro c
  try dsimp only
  repeat' split
  all_goals try dsimp only
  all_goals
    repeat (first
      | exact Advances.refl _
      | refine Advances.trans ?_ (parseSepToken_adv _)
      | refine adv_of_eq (parseScalarToken_adv P hS) (by assumption) ?_)

theorem parseRotateToken_adv (P : SkParse S) (M : SkMatrixOps S Mat)
    (hS : ∀ c v n, P.FindScalar c = some (v, n) → Advances c n) (cur : Cursor) :
    Advances cur (parseRotateToken P M cur).2 := by
  unfold parseRotateToken
  refine parseParenthesized_adv _ _ ?_ cur
  intro c
  try dsimp only
  repeat' split
  all_goals try dsimp only
  all_goals
    repeat (first
      | exact Advances.refl _
      | refine Advances.trans ?_ (parseSepToken_adv _)
      | refine adv_of_eq (parseScalarToken_adv P hS) (by assumption) ?_)

theorem parseSkewXToken_adv (P : SkParse S) (M : SkMatrixOps S Mat)
    (hS : ∀ c v n, P.FindScalar c = some (v, n) → Advances c n) (cur : Cursor) :
    Advances cur (parseSkewXToken P M cur).2 := by
  unfold parseSkewXToken
  refine parseParenthesized_adv _ _ ?_ cur
  intro c
  try dsimp only
  repeat' split
  all_goals try dsimp only
  all_goals
    repeat (first
      | exact Advances.refl _
      | refine adv_of_eq (parseScalarToken_adv P hS) (by assumption) ?_)

theorem parseSkewYToken_adv (P : SkParse S) (M : SkMatrixOps S Mat)
    (hS : ∀ c v n, P.FindScalar c = some (v, n) → Advances c n) (cur : Cursor) :
    Advances cur (parseSkewYToken P M cur).2 := by
  unfold parseSkewYToken
  refine parseParenthesized_adv _ _ ?_ cur
  intro c
  try dsimp only
  repeat' split
  all_goals try dsimp only
  all_goals
    repeat (first
      | exact Advances.refl _
      | refine adv_of_eq (parseScalarToken_adv P hS) (by assumption) ?_)

theorem transformToken_adv (P : SkParse S) (M : SkMatrixOps S Mat)
    (hS : ∀ c v n, P.FindScalar c = some (v, n) → Advances c n) (cur : Cursor) :
    Advances cur (transformToken P M cur).2 := by
  unfold transformToken
  try dsimp only
  repeat' split
  all_goals try dsimp only
  all_goals
    repeat (first
      | exact Advances.refl _
      | refine Advances.trans ?_ (parseSkewYToken_adv P M hS _)
      | refine adv_of_eq (parseSkewXToken_adv P M hS) (by assumption) ?_
      | refine adv_of_eq (parseRotateToken_adv P M hS) (by assumption) ?_
      | refine adv_of_eq (parseScaleToken_adv P M hS) (by assumption) ?_
      | refine adv_of_eq (parseTranslateToken_adv P M hS) (by assumption) ?_
      | refine adv_of_eq (parseMatrixToken_adv P M hS) (by assumption) ?_)

theorem transformLoop_adv (P : SkParse S) (M : SkMatrixOps S Mat)
    (hS : ∀ c v n, P.FindScalar c = some (v, n) → Advances c n) :
    ∀ (fuel : Nat) (cur : Cursor) (matrix : Mat) (parsed : Bool) (r : Mat × Bool × Cursor),
      transformLoop P M fuel cur matrix parsed = some r → Advances cur r.2.2 := by
  intro fuel
  induction fuel with
  | zero =>
    intro cur matrix parsed r h
    simp [transformLoop] at h
  | succ n ih =>
    intro cur matrix parsed r h
    have ht := transformToken_adv P M hS cur
    rw [transformLoop] at h
    cases hx : transformToken P M cur with
    | mk o c =>
      rw [hx] at h ht
      cases o with
      | none =>
        simp only [Option.some.injEq] at h
        subst h
        exact ht
      | some m =>
        simp only at h
        exact ht.trans ((parseCommaWspToken_adv c).trans (ih _ _ _ _ h))

theorem parseTransform_adv (P : SkParse S) (M : SkMatrixOps S Mat)
    (hS : ∀ c v n, P.FindScalar c = some (v, n) → Advances c n) (cur : Cursor)
    (r : Outcome Mat) (h : parseTransform P M cur = some r) : Advances cur r.cur := by
  unfold parseTransform at h
  cases hl : transformLoop P M (cur.length + 1) cur M.I false with
  | none =>
    rw [hl] at h
    simp at h
  | some t =>
    obtain ⟨matrix, parsed, c⟩ := t
    have h1 := transformLoop_adv P M hS _ _ _ _ _ hl
    rw [hl] at h
    dsimp only at h
    have h2 := h1.trans (parseWSToken_adv c)
    split at h
    · simp only [Option.some.injEq] at h
      subst h
      exact h2
    · simp only [Option.some.injEq] at h
      subst h
      exact h2

theorem parsePaint_adv (P : SkParse S) (hP : TokenizersAdvance P) (cur : Cursor) :
    Advances cur (parsePaint P cur).cur := by
  unfold parsePaint storeThenEOS
  try dsimp only
  repeat' split
  all_goals try dsimp only
  all_goals
    repeat (first
      | exact Advances.refl _
      | refine Advances.trans ?_ (parseExpectedStringToken_adv _ _)
      | refine Advances.trans ?_ (parseColor_adv P hP _)
      | refine adv_of_eq parseFuncIRI_adv (by assumption) ?_)

theorem parseClipPath_adv (cur : Cursor) : Advances cur (parseClipPath cur).cur := by
  unfold parseClipPath storeThenEOS
  try dsimp only
  repeat' split
  all_goals try dsimp only
  all_goals
    repeat (first
      | exact Advances.refl _
      | refine Advances.trans ?_ (parseExpectedStringToken_adv _ _)
      | refine adv_of_eq parseFuncIRI_adv (by assumption) ?_)

theorem parseKeyword_adv {T : Type} (table : List (String × T)) (cur : Cursor) :
    Advances cur (parseKeyword table cur).cur := by
  unfold parseKeyword storeThenEOS
  try dsimp only
  repeat' split
  all_goals try dsimp only
  all_goals
    repeat (first
      | exact Advances.refl _
      | refine adv_of_eq (parseEnumMap_adv table) (by assumption) ?_)

theorem parseStopColor_adv (P : SkParse S) (hP : TokenizersAdvance P) (cur : Cursor) :
    Advances cur (parseStopColor P cur).cur := by
  unfold parseStopColor storeThenEOS
  try dsimp only
  repeat' split
  all_goals try dsimp only
  all_goals
    repeat (first
      | exact Advances.refl _
      | refine Advances.trans ?_ (parseExpectedStringToken_adv _ _)
      | refine Advances.trans ?_ (parseColor_adv P hP _))

theorem parseGradientUnits_adv (cur : Cursor) :
    Advances cur (parseGradientUnits cur).cur := by
  unfold parseGradientUnits storeThenEOS
  try dsimp only
  repeat' split
  all_goals try dsimp only
  all_goals
    repeat (first
      | exact Advances.refl _
      | refine Advances.trans ?_ (parseExpectedStringToken_adv _ _))

theorem pointsLoop_adv (P : SkParse S)
    (hS : ∀ c v n, P.FindScalar c = some (v, n) → Advances c n) :
    ∀ (fuel : Nat) (cur : Cursor) (pts : List (S × S)) (parsedValue : Bool)
      (r : List (S × S) × Bool × Cursor),
      pointsLoop P fuel cur pts parsedValue = some r → Advances cur r.2.2 := by
  intro fuel
  induction fuel with
  | zero =>
    intro cur pts parsedValue r h
    simp [pointsLoop] at h
  | succ n ih =>
    intro cur pts parsedValue r h
    rw [pointsLoop] at h
    dsimp only at h
    have h0 : Advances cur (if parsedValue = true then parseCommaWspToken cur
        else (true, cur)).2 := by
      split
      · exact parseCommaWspToken_adv cur
      · exact Advances.refl cur
    generalize (if parsedValue = true then parseCommaWspToken cur else (true, cur)) = r0
      at h h0
    split at h
    · simp only [Option.some.injEq] at h
      subst h
      exact h0
    · have h1 := parseScalarToken_adv P hS r0.2
      cases hx : parseScalarToken P r0.2 with
      | mk o c1 =>
        rw [hx] at h h1
        cases o with
        | none =>
          simp only [Option.some.injEq] at h
          subst h
          exact h0.trans h1
        | some x =>
          dsimp only at h
          have h2 := (h0.trans h1).trans (parseCommaWspToken_adv c1)
          split at h
          · simp only [Option.some.injEq] at h
            subst h
            exact h2
          · have h3 := parseScalarToken_adv P hS (parseCommaWspToken c1).2
            cases hy : parseScalarToken P (parseCommaWspToken c1).2 with
            | mk o2 c2 =>
              rw [hy] at h h3
              cases o2 with
              | none =>
                simp only [Option.some.injEq] at h
                subst h
                exact h2.trans h3
              | some y =>
                dsimp only at h
                exact (h2.trans h3).trans (ih _ _ _ _ h)

theorem parsePoints_adv (P : SkParse S)
    (hS : ∀ c v n, P.FindScalar c = some (v, n) → Advances c n) (cur : Cursor)
    (r : Outcome (SkSVGPointsType S)) (h : parsePoints P cur = some r) :
    Advances cur r.cur := by
  unfold parsePoints at h
  dsimp only at h
  cases hl : pointsLoop P ((advanceWhile is_ws cur).2.length + 1) (advanceWhile is_ws cur).2
      [] false with
  | none =>
    rw [hl] at h
    simp at h
  | some t =>
    obtain ⟨pts, parsedValue, c⟩ := t
    have h1 := (advanceWhile_adv is_ws cur).trans (pointsLoop_adv P hS _ _ _ _ _ hl)
    rw [hl] at h
    dsimp only at h
    split at h
    · simp only [Option.some.injEq] at h
      subst h
      exact h1
    · simp only [Option.some.injEq] at h
      subst h
      exact h1

theorem dashLoop_adv (P : SkParse S)
    (hS : ∀ c v n, P.FindScalar c = some (v, n) → Advances c n) :
    ∀ (fuel : Nat) (cur : Cursor) (dashes : List (SkSVGLength S))
      (r : List (SkSVGLength S) × Cursor),
      dashLoop P fuel cur dashes = some r → Advances cur r.2 := by
  intro fuel
  induction fuel with
  | zero =>
    intro cur dashes r h
    simp [dashLoop] at h
  | succ n ih =>
    intro cur dashes r h
    rw [dashLoop] at h
    have h1 := parseLength_adv P hS cur
    split at h
    · simp only [Option.some.injEq] at h
      subst h
      exact h1
    · exact h1.trans (ih _ _ _ h)

theorem parseDashArray_adv (P : SkParse S)
    (hS : ∀ c v n, P.FindScalar c = some (v, n) → Advances c n) (cur : Cursor)
    (r : Outcome (SkSVGDashArray S)) (h : parseDashArray P cur = some r) :
    Advances cur r.cur := by
  unfold parseDashArray storeThenEOS at h
  dsimp only at h
  have e1 := parseExpectedStringToken_adv "none".toList cur
  have e2 := e1.trans (parseExpectedStringToken_adv "inherit".toList
    (parseExpectedStringToken "none".toList cur).2)
  split at h
  · simp only [Option.some.injEq] at h
    subst h
    exact e1
  · split at h
    · simp only [Option.some.injEq] at h
      subst h
      exact e2
    · split at h
      · simp at h
      · rename_i dashes c hl
        have h3 := e2.trans (dashLoop_adv P hS _ _ _ _ hl)
        split at h
        · simp only [Option.some.injEq] at h
          subst h
          exact h3
        · simp only [Option.some.injEq] at h
          subst h
          exact h3

theorem parseFontFamily_adv (cur : Cursor) : Advances cur (parseFontFamily cur).cur := by
  unfold parseFontFamily storeThenEOS
  try dsimp only
  repeat' split
  all_goals try dsimp only
  all_goals
    repeat (first
      | exact Advances.refl _
      | refine Advances.trans ?_ (Advances.drop _ _)
      | refine Advances.trans ?_ (parseExpectedStringToken_adv _ _))

theorem parseFontSize_adv (P : SkParse S)
    (hS : ∀ c v n, P.FindScalar c = some (v, n) → Advances c n) (cur : Cursor) :
    Advances cur (parseFontSize P cur).cur := by
  unfold parseFontSize storeThenEOS
  try dsimp only
  repeat' split
  all_goals try dsimp only
  all_goals
    repeat (first
      | exact Advances.refl _
      | refine Advances.trans ?_ (parseLength_adv P hS _)
      | refine Advances.trans ?_ (parseExpectedStringToken_adv _ _))

theorem parsePreserveAspectRatio_adv (cur : Cursor) (par : SkSVGPreserveAspectRatio) :
    Advances cur (parsePreserveAspectRatio cur par).cur := by
  unfold parsePreserveAspectRatio
  try dsimp only
  repeat' split
  all_goals try dsimp only
  all_goals
    repeat (first
      | exact Advances.refl _
      | refine Advances.trans ?_ (parseWSToken_adv _)
      | refine Advances.trans ?_ (parseExpectedStringToken_adv _ _)
      | refine adv_of_eq (parseEnumMap_adv gAlignMap) (by assumption) ?_
      | refine adv_of_eq (parseEnumMap_adv gScaleMap) (by assumption) ?_)

theorem endsWithin_of_adv {input : List Char} {p : Nat} {cur c : Cursor}
    (h : AtPosition input p cur) (ha : Advances cur c) : EndsWithin input p c := by
  obtain ⟨hp, rfl⟩ := h
  obtain ⟨k, hk⟩ := ha
  have hlen : (List.drop p input).length = k.length + c.length := by
    rw [hk, List.length_append]
  rw [List.length_drop] at hlen
  refine ⟨p + k.length, Nat.le_add_right p k.length, ?_, ?_⟩
  · omega
  · have h2 : List.drop (p + k.length) input = List.drop k.length (List.drop p input) := by
      rw [List.drop_drop, Nat.add_comm]
    rw [h2, hk, List.drop_left]

theorem refDigits_adv : ∀ (cur : Cursor) (acc : Nat), Advances cur (refDigits acc cur).2 := by
  intro cur
  induction cur with
  | nil =>
    intro acc
    exact Advances.refl []
  | cons c cs ih =>
    intro acc
    rw [refDigits]
    split
    · exact (Advances.tail (c :: cs)).trans (ih _)
    · exact Advances.refl _

theorem refHexDigits_adv :
    ∀ (cur : Cursor) (acc : Nat), Advances cur (refHexDigits acc cur).2 := by
  intro cur
  induction cur with
  | nil =>
    intro acc
    exact Advances.refl []
  | cons c cs ih =>
    intro acc
    rw [refHexDigits]
    split
    · exact (Advances.tail (c :: cs)).trans (ih _)
    · exact Advances.refl _

theorem consumed_of_adv_lt {p q : Cursor} (h : Advances p q) (hlt : q.length < p.length) :
    ∃ consumed, consumed ≠ [] ∧ p = consumed ++ q := by
  obtain ⟨k, hk⟩ := h
  refine ⟨k, ?_, hk⟩
  intro hnil
  rw [hnil, List.nil_append] at hk
  rw [hk] at hlt
  exact Nat.lt_irrefl _ hlt

theorem refFindS32_consumes (cur : Cursor) (v : Int) (n : Cursor)
    (h : refFindS32 cur = some (v, n)) : ∃ consumed, consumed ≠ [] ∧ cur = consumed ++ n := by
  unfold refFindS32 at h
  cases cur with
  | nil => simp at h
  | cons c cs =>
    dsimp only at h
    split at h
    · split at h
      · simp only [Option.some.injEq, Prod.mk.injEq] at h
        obtain ⟨k, hk⟩ := refDigits_adv cs 0
        rw [h.2] at hk
        exact ⟨c :: k, List.cons_ne_nil c k, by rw [hk]; rfl⟩
      · simp at h
    · split at h
      · rename_i hlt
        simp only [Option.some.injEq, Prod.mk.injEq] at h
        have ha := refDigits_adv (c :: cs) 0
        rw [h.2] at ha hlt
        exact consumed_of_adv_lt ha hlt
      · simp at h

theorem refFindHex_consumes (cur : Cursor) (v : Nat) (n : Cursor)
    (h : refFindHex cur = some (v, n)) : ∃ consumed, consumed ≠ [] ∧ cur = consumed ++ n := by
  unfold refFindHex at h
  split at h
  · rename_i hlt
    simp only [Option.some.injEq, Prod.mk.injEq] at h
    have ha := refHexDigits_adv cur 0
    rw [h.2] at ha hlt
    exact consumed_of_adv_lt ha hlt
  · simp at h

theorem adv_of_consumed {p q : Cursor} (h : ∃ consumed, consumed ≠ [] ∧ p = consumed ++ q) :
    Advances p q := by
  obtain ⟨k, _, hk⟩ := h
  exact ⟨k, hk⟩

theorem refFindNamedColor_adv (cur : Cursor) (v : Nat) (n : Cursor)
    (h : refFindNamedColor cur = some (v, n)) : Advances cur n := by
  unfold refFindNamedColor at h
  have ha := parseEnumMap_adv refColorNames cur
  cases hx : parseEnumMap refColorNames cur with
  | mk o c =>
    rw [hx] at h ha
    cases o with
    | none => simp at h
    | some w =>
      simp only [Option.some.injEq, Prod.mk.injEq] at h
      rw [← h.2]
      exact ha

theorem refParse_numeric_tokens_consume : NumericTokensConsume refParse :=
  ⟨refFindS32_consumes, refFindHex_consumes, refFindS32_consumes⟩

theorem refParse_tokenizers_advance : TokenizersAdvance refParse :=
  ⟨fun c v n h => adv_of_consumed (refFindS32_consumes c v n h),
   fun c v n h => adv_of_consumed (refFindHex_consumes c v n h),
   fun c v n h => adv_of_consumed (refFindS32_consumes c v n h),
   refFindNamedColor_adv⟩

/-- C26: the cursor invariant.  Assume each external tokenizer (scalar, hex,
integer, named color) returns a position between the one it was given and the
end of the input.  Then every token primitive, combinator and value grammar,
entered with the cursor at an offset `p` of the input with `p ≤ length`, stops
with the cursor at an offset `q` with `p ≤ q ≤ length`: the cursor never moves
backward and never passes the end.  The scans that skip whitespace, skip
separators and read an IRI stop at the terminator, because the NUL byte, which
is the byte read at the end of the input, satisfies none of the three
predicates.  The looping grammars are covered whatever their number of
iterations. -/
theorem cursor_stays_within_input (P : SkParse S) (hP : TokenizersAdvance P)
    (M : SkMatrixOps S Mat) (input : List Char) (p : Nat) (cur : Cursor)
    (hcur : AtPosition input p cur) :
    (peek [] = Char.ofNat 0 ∧ is_ws (Char.ofNat 0) = false ∧ is_sep (Char.ofNat 0) = false ∧
      (!is_eos (Char.ofNat 0) && Char.ofNat 0 != ')') = false) ∧
    -- token primitives
    ((∀ f : Char → Bool, f (Char.ofNat 0) = false →
        EndsWithin input p (advanceWhile f cur).2) ∧
      EndsWithin input p (parseSepToken cur).2 ∧
      EndsWithin input p (parseWSToken cur).2 ∧
      EndsWithin input p (parseCommaWspToken cur).2 ∧
      (∀ expected, EndsWithin input p (parseExpectedStringToken expected cur).2) ∧
      (∀ (T : Type) (table : List (String × T)),
        EndsWithin input p (parseEnumMap table cur).2) ∧
      EndsWithin input p (parseScalarToken P cur).2 ∧
      EndsWithin input p (parseHexToken P cur).2 ∧
      EndsWithin input p (parseLengthUnitToken cur).2 ∧
      EndsWithin input p (parseNamedColorToken P cur).2 ∧
      EndsWithin input p (parseHexColorToken P cur).2 ∧
      EndsWithin input p (parseIntegral P cur).2 ∧
      EndsWithin input p (parseFractional P cur).2 ∧
      EndsWithin input p (parseColorComponentToken P cur).2 ∧
      EndsWithin input p (parseRGBColorToken P cur).2 ∧
      EndsWithin input p (parseIRI cur).2 ∧
      EndsWithin input p (parseFuncIRI cur).2 ∧
      EndsWithin input p (parseMatrixToken P M cur).2 ∧
      EndsWithin input p (parseTranslateToken P M cur).2 ∧
      EndsWithin input p (parseScaleToken P M cur).2 ∧
      EndsWithin input p (parseRotateToken P M cur).2 ∧
      EndsWithin input p (parseSkewXToken P M cur).2 ∧
      EndsWithin input p (parseSkewYToken P M cur).2) ∧
    -- combinators and shared chains
    ((∀ (T : Type) (pre : Option String) (f : Cursor → Option T × Cursor),
        (∀ c, Advances c (f c).2) →
        EndsWithin input p (parseParenthesized pre f cur).2) ∧
      EndsWithin input p (rgbBody P cur).2 ∧
      EndsWithin input p (colorToken P cur).2 ∧
      EndsWithin input p (viewBoxScalars P cur).2 ∧
      (∀ n i acc, EndsWithin input p (matrixScalars P n i acc cur).2) ∧
      EndsWithin input p (transformToken P M cur).2 ∧
      (∀ fuel matrix parsed r, transformLoop P M fuel cur matrix parsed = some r →
        EndsWithin input p r.2.2) ∧
      (∀ fuel pts parsedValue r, pointsLoop P fuel cur pts parsedValue = some r →
        EndsWithin input p r.2.2) ∧
      (∀ fuel dashes r, dashLoop P fuel cur dashes = some r → EndsWithin input p r.2) ∧
      (∀ (T : Type) (table : List (String × T)),
        EndsWithin input p (parseKeyword table cur).cur)) ∧
    -- value grammars
    (EndsWithin input p (parseNumber P cur).cur ∧
      EndsWithin input p (parseLength P cur).cur ∧
      EndsWithin input p (parseColor P cur).cur ∧
      EndsWithin input p (parseViewBox P cur).cur ∧
      (∀ r, parseTransform P M cur = some r → EndsWithin input p r.cur) ∧
      EndsWithin input p (parsePaint P cur).cur ∧
      EndsWithin input p (parseClipPath cur).cur ∧
      EndsWithin input p (parseLineCap cur).cur ∧
      EndsWithin input p (parseLineJoin cur).cur ∧
      EndsWithin input p (parseSpreadMethod cur).cur ∧
      EndsWithin input p (parseStopColor P cur).cur ∧
      EndsWithin input p (parseGradientUnits cur).cur ∧
      EndsWithin input p (parseFillRule cur).cur ∧
      EndsWithin input p (parseVisibility cur).cur ∧
      (∀ r, parsePoints P cur = some r → EndsWithin input p r.cur) ∧
      (∀ r, parseDashArray P cur = some r → EndsWithin input p r.cur) ∧
      EndsWithin input p (parseFontFamily cur).cur ∧
      EndsWithin input p (parseFontSize P cur).cur ∧
      EndsWithin input p (parseFontStyle cur).cur ∧
      EndsWithin input p (parseFontWeight cur).cur ∧
      (∀ par, EndsWithin input p (parsePreserveAspectRatio cur par).cur)) := by
  have hS := hP.1
  have hH := hP.2.1
  have hI := hP.2.2.1
  have hN := hP.2.2.2
  have w : ∀ c, Advances cur c → EndsWithin input p c := fun c h => endsWithin_of_adv hcur h
  refine ⟨⟨rfl, by decide, by decide, by decide⟩, ⟨?_, ?_, ?_, ?_, ?_, ?_, ?_, ?_, ?_, ?_, ?_,
    ?_, ?_, ?_, ?_, ?_, ?_, ?_, ?_, ?_, ?_, ?_, ?_⟩, ⟨?_, ?_, ?_, ?_, ?_, ?_, ?_, ?_, ?_, ?_⟩,
    ⟨?_, ?_, ?_, ?_, ?_, ?_, ?_, ?_, ?_, ?_, ?_, ?_, ?_, ?_, ?_, ?_, ?_, ?_, ?_, ?_, ?_⟩⟩
  · exact fun f _ => w _ (advanceWhile_adv f cur)
  · exact w _ (parseSepToken_adv cur)
  · exact w _ (parseWSToken_adv cur)
  · exact w _ (parseCommaWspToken_adv cur)
  · exact fun e => w _ (parseExpectedStringToken_adv e cur)
  · exact fun T table => w _ (parseEnumMap_adv table cur)
  · exact w _ (parseScalarToken_adv P hS cur)
  · exact w _ (parseHexToken_adv P hH cur)
  · exact w _ (parseLengthUnitToken_adv cur)
  · exact w _ (parseNamedColorToken_adv P hN cur)
  · exact w _ (parseHexColorToken_adv P hH cur)
  · exact w _ (parseIntegral_adv P hI cur)
  · exact w _ (parseFractional_adv P hS cur)
  · exact w _ (parseColorComponentToken_adv P hS hI cur)
  · exact w _ (parseRGBColorToken_adv P hS hI cur)
  · exact w _ (parseIRI_adv cur)
  · exact w _ (parseFuncIRI_adv cur)
  · exact w _ (parseMatrixToken_adv P M hS cur)
  · exact w _ (parseTranslateToken_adv P M hS cur)
  · exact w _ (parseScaleToken_adv P M hS cur)
  · exact w _ (parseRotateToken_adv P M hS cur)
  · exact w _ (parseSkewXToken_adv P M hS cur)
  · exact w _ (parseSkewYToken_adv P M hS cur)
  · exact fun T pre f hf => w _ (parseParenthesized_adv pre f hf cur)
  · exact w _ (rgbBody_adv P hS hI cur)
  · exact w _ (colorToken_adv P hP cur)
  · exact w _ (viewBoxScalars_adv P hS cur)
  · exact fun n i acc => w _ (matrixScalars_adv P hS n i acc cur)
  · exact w _ (transformToken_adv P M hS cur)
  · exact fun fuel matrix parsed r h => w _ (transformLoop_adv P M hS fuel cur matrix parsed r h)
  · exact fun fuel pts pv r h => w _ (pointsLoop_adv P hS fuel cur pts pv r h)
  · exact fun fuel dashes r h => w _ (dashLoop_adv P hS fuel cur dashes r h)
  · exact fun T table => w _ (parseKeyword_adv table cur)
  · exact w _ (parseNumber_adv P hS cur)
  · exact w _ (parseLength_adv P hS cur)
  · exact w _ (parseColor_adv P hP cur)
  · exact w _ (parseViewBox_adv P hS cur)
  · exact fun r h => w _ (parseTransform_adv P M hS cur r h)
  · exact w _ (parsePaint_adv P hP cur)
  · exact w _ (parseClipPath_adv cur)
  · exact w _ (parseKeyword_adv gCapInfo cur)
  · exact w _ (parseKeyword_adv gJoinInfo cur)
  · exact w _ (parseKeyword_adv gSpreadInfo cur)
  · exact w _ (parseStopColor_adv P hP cur)
  · exact w _ (parseGradientUnits_adv cur)
  · exact w _ (parseKeyword_adv gFillRuleInfo cur)
  · exact w _ (parseKeyword_adv gVisibilityInfo cur)
  · exact fun r h => w _ (parsePoints_adv P hS cur r h)
  · exact fun r h => w _ (parseDashArray_adv P hS cur r h)
  · exact w _ (parseFontFamily_adv cur)
  · exact w _ (parseFontSize_adv P hS cur)
  · exact w _ (parseKeyword_adv gStyleMap cur)
  · exact w _ (parseKeyword_adv gWeightMap cur)
  · exact fun par => w _ (parsePreserveAspectRatio_adv cur par)

theorem cursor_stays_within_input_witness :
    TokenizersAdvance refParse ∧ AtPosition " 10px ".toList 1 "10px ".toList ∧
    EndsWithin " 10px ".toList 1 (parseLength refParse "10px ".toList).cur ∧
    (∀ r, parsePoints refParse "10px ".toList = some r → EndsWithin " 10px ".toList 1 r.cur) := by
  have h := cursor_stays_within_input refParse refParse_tokenizers_advance
    (refMatrixOps (fun _ _ _ => ⟨1, 0, 0, 0, 1, 0⟩) (fun t => t)) " 10px ".toList 1
    "10px ".toList ⟨by decide, by decide⟩
  obtain ⟨_, _, _, hg⟩ := h
  exact ⟨refParse_tokenizers_advance, ⟨by decide, by decide⟩, hg.2.1,
    hg.2.2.2.2.2.2.2.2.2.2.2.2.2.2.1⟩

/-! ## Termination of the looping grammars -/

theorem length_lt_of_consumed {p q : Cursor}
    (h : ∃ consumed, consumed ≠ [] ∧ p = consumed ++ q) : q.length < p.length := by
  obtain ⟨k, hk, rfl⟩ := h
  have hpos : 0 < k.length := List.length_pos.mpr hk
  rw [List.length_append]
  omega

theorem lt_of_eq {α : Type} {f : Cursor → Option α × Cursor}
    (hf : ∀ c, (f c).1.isSome = true → (f c).2.length < c.length)
    {p cur c1 : Cursor} {v : α} (heq : f cur = (some v, c1)) (h : Advances p cur) :
    c1.length < p.length := by
  have h2 := hf cur
  rw [heq] at h2
  have h3 := h2 rfl
  have h4 := h.length_le
  exact Nat.lt_of_lt_of_le h3 h4

theorem lt_of_adv {p cur c1 : Cursor} (h1 : c1.length < cur.length) (h : Advances p cur) :
    c1.length < p.length := Nat.lt_of_lt_of_le h1 h.length_le

theorem parseScalarToken_lt (P : SkParse S)
    (hC : ∀ c v n, P.FindScalar c = some (v, n) → ∃ consumed, consumed ≠ [] ∧ c = consumed ++ n)
    (cur : Cursor) :
    (parseScalarToken P cur).1.isSome = true → (parseScalarToken P cur).2.length < cur.length := by
  unfold parseScalarToken
  cases h : P.FindScalar cur with
  | none =>
    intro hs
    simp at hs
  | some r =>
    intro _
    exact length_lt_of_consumed (hC cur r.1 r.2 h)

theorem parseExpectedStringToken_true {e cur : Cursor}
    (h : (parseExpectedStringToken e cur).1 = true) :
    cur = e ++ (parseExpectedStringToken e cur).2 := by
  unfold parseExpectedStringToken at h ⊢
  cases hm : matchExpected e cur with
  | none =>
    rw [hm] at h
    simp at h
  | some c => exact matchExpected_eq_some hm

theorem parseParenthesized_lt {T : Type} (pre : Option String)
    (f : Cursor → Option T × Cursor) (hf : ∀ c, Advances c (f c).2) (cur : Cursor) :
    (parseParenthesized pre f cur).1.isSome = true →
      (parseParenthesized pre f cur).2.length < cur.length := by
  have h1 := parseWSToken_adv cur
  unfold parseParenthesized
  cases pre with
  | none =>
    simp only [Bool.not_true, Bool.false_eq_true, if_false]
    have h2 := h1.trans (parseWSToken_adv (parseWSToken cur).2)
    have h3 := h2.trans (parseExpectedStringToken_adv ['('] _)
    split
    · intro hs
      simp at hs
    · have h4 := h3.trans (parseWSToken_adv _)
      have h5 := h4.trans (hf _)
      cases hx : f (parseWSToken (parseExpectedStringToken ['(']
          (parseWSToken (parseWSToken cur).2).2).2).2 with
      | mk o c4 =>
        rw [hx] at h5
        cases o with
        | none =>
          intro hs
          simp at hs
        | some v =>
          dsimp only
          intro hs
          have ht : (parseExpectedStringToken [')'] (parseWSToken c4).2).1 = true := by
            by_contra hne
            simp [hne] at hs
          have hlen := congrArg List.length (parseExpectedStringToken_true ht)
          have hl := (h5.trans (parseWSToken_adv c4)).length_le
          simp only [List.length_append, List.length_singleton] at hlen
          omega
  | some p =>
    simp only
    have h1b := h1.trans (parseExpectedStringToken_adv p.toList (parseWSToken cur).2)
    split
    · intro hs
      simp at hs
    · have h2 := h1b.trans (parseWSToken_adv _)
      have h3 := h2.trans (parseExpectedStringToken_adv ['('] _)
      split
      · intro hs
        simp at hs
      · have h4 := h3.trans (parseWSToken_adv _)
        have h5 := h4.trans (hf _)
        cases hx : f (parseWSToken (parseExpectedStringToken ['(']
            (parseWSToken (parseExpectedStringToken p.toList (parseWSToken cur).2).2).2).2).2 with
        | mk o c4 =>
          rw [hx] at h5
          cases o with
          | none =>
            intro hs
            simp at hs
          | some v =>
            dsimp only
            intro hs
            have ht : (parseExpectedStringToken [')'] (parseWSToken c4).2).1 = true := by
              by_contra hne
              simp [hne] at hs
            have hlen := congrArg List.length (parseExpectedStringToken_true ht)
            have hl := (h5.trans (parseWSToken_adv c4)).length_le
            simp only [List.length_append, List.length_singleton] at hlen
            omega

theorem parseMatrixToken_lt (P : SkParse S) (M : SkMatrixOps S Mat)
    (hS : ∀ c v n, P.FindScalar c = some (v, n) → Advances c n) (cur : Cursor) :
    (parseMatrixToken P M cur).1.isSome = true → (parseMatrixToken P M cur).2.length < cur.length := by
  unfold parseMatrixToken
  refine parseParenthesized_lt _ _ ?_ cur
  intro c
  try dsimp only
  repeat' split
  all_goals try dsimp only
  all_goals
    repeat (first
      | exact Advances.refl _
      | refine adv_of_eq (matrixScalars_adv P hS 6 0 []) (by assumption) ?_)

theorem parseTranslateToken_lt (P : SkParse S) (M : SkMatrixOps S Mat)
    (hS : ∀ c v n, P.FindScalar c = some (v, n) → Advances c n) (cur : Cursor) :
    (parseTranslateToken P M cur).1.isSome = true → (parseTranslateToken P M cur).2.length < cur.length := by
  unfold parseTranslateToken
  refine parseParenthesized_lt _ _ ?_ cur
  intro c
  try dsimp only
  repeat' split
  all_goals try dsimp only
  all_goals
    repeat (first
      | exact Advances.refl _
      | refine Advances.trans ?_ (parseWSToken_adv _)
      | refine Advances.trans ?_ (parseSepToken_adv _)
      | refine adv_of_eq (parseScalarToken_adv P hS) (by assumption) ?_)

theorem parseScaleToken_lt (P : SkParse S) (M : SkMatrixOps S Mat)
    (hS : ∀ c v n, P.FindScalar c = some (v, n) → Advances c n) (cur : Cursor) :
    (parseScaleToken P M cur).1.isSome = true → (parseScaleToken P M cur).2.length < cur.length := by
  unfold parseScaleToken
  refine parseParenthesized_lt _ _ ?_ cur
  intro c
  try dsimp only
  repeat' split
  all_goals try dsimp only
  all_goals
    repeat (first
      | exact Advances.refl _
      | refine Advances.trans ?_ (parseSepToken_adv _)
      | refine adv_of_eq (parseScalarToken_adv P hS) (by assumption) ?_)

theorem parseRotateToken_lt (P : SkParse S) (M : SkMatrixOps S Mat)
    (hS : ∀ c v n, P.FindScalar c = some (v, n) → Advances c n) (cur : Cursor) :
    (parseRotateToken P M cur).1.isSome = true → (parseRotateToken P M cur).2.length < cur.length := by
  unfold parseRotateToken
  refine parseParenthesized_lt _ _ ?_ cur
  intro c
  try dsimp only
  repeat' split
  all_goals try dsimp only
  all_goals
    repeat (first
      | exact Advances.refl _
      | refine Advances.trans ?_ (parseSepToken_adv _)
      | refine adv_of_eq (parseScalarToken_adv P hS) (by assumption) ?_)

theorem parseSkewXToken_lt (P : SkParse S) (M : SkMatrixOps S Mat)
    (hS : ∀ c v n, P.FindScalar c = some (v, n) → Advances c n) (cur : Cursor) :
    (parseSkewXToken P M cur).1.isSome = true → (parseSkewXToken P M cur).2.length < cur.length := by
  unfold parseSkewXToken
  refine parseParenthesized_lt _ _ ?_ cur
  intro c
  try dsimp only
  repeat' split
  all_goals try dsimp only
  all_goals
    repeat (first
      | exact Advances.refl _
      | refine adv_of_eq (parseScalarToken_adv P hS) (by assumption) ?_)

theorem parseSkewYToken_lt (P : SkParse S) (M : SkMatrixOps S Mat)
    (hS : ∀ c v n, P.FindScalar c = some (v, n) → Advances c n) (cur : Cursor) :
    (parseSkewYToken P M cur).1.isSome = true → (parseSkewYToken P M cur).2.length < cur.length := by
  unfold parseSkewYToken
  refine parseParenthesized_lt _ _ ?_ cur
  intro c
  try dsimp only
  repeat' split
  all_goals try dsimp only
  all_goals
    repeat (first
      | exact Advances.refl _
      | refine adv_of_eq (parseScalarToken_adv P hS) (by assumption) ?_)

theorem transformToken_lt (P : SkParse S) (M : SkMatrixOps S Mat)
    (hS : ∀ c v n, P.FindScalar c = some (v, n) → Advances c n) (cur : Cursor) :
    (transformToken P M cur).1.isSome = true → (transformToken P M cur).2.length < cur.length := by
  unfold transformToken
  repeat' split
  all_goals try dsimp only
  all_goals intro hs
  all_goals
    first
      | refine lt_of_eq (parseMatrixToken_lt P M hS) (by assumption) ?_
      | refine lt_of_eq (parseTranslateToken_lt P M hS) (by assumption) ?_
      | refine lt_of_eq (parseScaleToken_lt P M hS) (by assumption) ?_
      | refine lt_of_eq (parseRotateToken_lt P M hS) (by assumption) ?_
      | refine lt_of_eq (parseSkewXToken_lt P M hS) (by assumption) ?_
      | refine lt_of_adv (parseSkewYToken_lt P M hS _ hs) ?_
  all_goals
    repeat (first
      | exact Advances.refl _
      | refine adv_of_eq (parseSkewXToken_adv P M hS) (by assumption) ?_
      | refine adv_of_eq (parseRotateToken_adv P M hS) (by assumption) ?_
      | refine adv_of_eq (parseScaleToken_adv P M hS) (by assumption) ?_
      | refine adv_of_eq (parseTranslateToken_adv P M hS) (by assumption) ?_
      | refine adv_of_eq (parseMatrixToken_adv P M hS) (by assumption) ?_)

theorem transformToken_next_lt (P : SkParse S) (M : SkMatrixOps S Mat)
    (hS : ∀ c v n, P.FindScalar c = some (v, n) → Advances c n) (cur c : Cursor) (m : Mat)
    (h : transformToken P M cur = (some m, c)) :
    (parseCommaWspToken c).2.length < cur.length := by
  have h1 := transformToken_lt P M hS cur
  rw [h] at h1
  have h2 := (parseCommaWspToken_adv c).length_le
  have h3 := h1 rfl
  dsimp only at h3
  omega

theorem transformLoop_isSome (P : SkParse S) (M : SkMatrixOps S Mat)
    (hS : ∀ c v n, P.FindScalar c = some (v, n) → Advances c n) :
    ∀ (fuel : Nat) (cur : Cursor) (matrix : Mat) (parsed : Bool), cur.length < fuel →
      (transformLoop P M fuel cur matrix parsed).isSome = true := by
  intro fuel
  induction fuel with
  | zero =>
    intro cur matrix parsed h
    exact absurd h (Nat.not_lt_zero _)
  | succ n ih =>
    intro cur matrix parsed h
    rw [transformLoop]
    cases hx : transformToken P M cur with
    | mk o c =>
      cases o with
      | none => rfl
      | some m =>
        dsimp only
        have h1 := transformToken_next_lt P M hS cur c m hx
        exact ih _ _ _ (by omega)

theorem transformLoop_fuel (P : SkParse S) (M : SkMatrixOps S Mat)
    (hS : ∀ c v n, P.FindScalar c = some (v, n) → Advances c n) :
    ∀ (fuel fuel2 : Nat) (cur : Cursor) (matrix : Mat) (parsed : Bool),
      cur.length < fuel → cur.length < fuel2 →
      transformLoop P M fuel cur matrix parsed = transformLoop P M fuel2 cur matrix parsed := by
  intro fuel
  induction fuel with
  | zero =>
    intro fuel2 cur matrix parsed h
    exact absurd h (Nat.not_lt_zero _)
  | succ n ih =>
    intro fuel2 cur matrix parsed h h2
    cases fuel2 with
    | zero => exact absurd h2 (Nat.not_lt_zero _)
    | succ k =>
      rw [transformLoop, transformLoop]
      cases hx : transformToken P M cur with
      | mk o c =>
        cases o with
        | none => rfl
        | some m =>
          dsimp only
          have h1 := transformToken_next_lt P M hS cur c m hx
          exact ih _ _ _ _ (by omega) (by omega)

theorem parseTransform_isSome (P : SkParse S) (M : SkMatrixOps S Mat)
    (hS : ∀ c v n, P.FindScalar c = some (v, n) → Advances c n) (cur : Cursor) :
    (parseTransform P M cur).isSome = true := by
  have h := transformLoop_isSome P M hS (cur.length + 1) cur M.I false (Nat.lt_succ_self _)
  unfold parseTransform
  cases hl : transformLoop P M (cur.length + 1) cur M.I false with
  | none =>
    rw [hl] at h
    simp at h
  | some t =>
    obtain ⟨matrix, parsed, c⟩ := t
    dsimp only
    split <;> rfl

theorem pointsLoop_entry_adv (cur : Cursor) (parsedValue : Bool) :
    Advances cur (if parsedValue = true then parseCommaWspToken cur else (true, cur)).2 := by
  split
  · exact parseCommaWspToken_adv cur
  · exact Advances.refl cur

theorem pointsLoop_next_lt (P : SkParse S)
    (hC : ∀ c v n, P.FindScalar c = some (v, n) → ∃ consumed, consumed ≠ [] ∧ c = consumed ++ n)
    (cur c0 c1 c2 : Cursor) (x y : S) (h0 : Advances cur c0)
    (h1 : parseScalarToken P c0 = (some x, c1))
    (h2 : parseScalarToken P (parseCommaWspToken c1).2 = (some y, c2)) :
    c2.length < cur.length := by
  have a1 := lt_of_eq (parseScalarToken_lt P hC) h1 h0
  have a2 := lt_of_eq (parseScalarToken_lt P hC) h2 (parseCommaWspToken_adv c1)
  omega

theorem pointsLoop_isSome (P : SkParse S)
    (hC : ∀ c v n, P.FindScalar c = some (v, n) → ∃ consumed, consumed ≠ [] ∧ c = consumed ++ n) :
    ∀ (fuel : Nat) (cur : Cursor) (pts : List (S × S)) (parsedValue : Bool),
      cur.length < fuel → (pointsLoop P fuel cur pts parsedValue).isSome = true := by
  intro fuel
  induction fuel with
  | zero =>
    intro cur pts parsedValue h
    exact absurd h (Nat.not_lt_zero _)
  | succ n ih =>
    intro cur pts parsedValue h
    rw [pointsLoop]
    dsimp only
    have h0 := pointsLoop_entry_adv cur parsedValue
    generalize (if parsedValue = true then parseCommaWspToken cur else (true, cur)) = r0
      at h0
    split
    · rfl
    · cases hx : parseScalarToken P r0.2 with
      | mk o c1 =>
        cases o with
        | none => rfl
        | some x =>
          dsimp only
          split
          · rfl
          · cases hy : parseScalarToken P (parseCommaWspToken c1).2 with
            | mk o2 c2 =>
              cases o2 with
              | none => rfl
              | some y =>
                dsimp only
                have hlt := pointsLoop_next_lt P hC cur r0.2 c1 c2 x y h0 hx hy
                exact ih _ _ _ (by omega)

theorem pointsLoop_fuel (P : SkParse S)
    (hC : ∀ c v n, P.FindScalar c = some (v, n) → ∃ consumed, consumed ≠ [] ∧ c = consumed ++ n) :
    ∀ (fuel fuel2 : Nat) (cur : Cursor) (pts : List (S × S)) (parsedValue : Bool),
      cur.length < fuel → cur.length < fuel2 →
      pointsLoop P fuel cur pts parsedValue = pointsLoop P fuel2 cur pts parsedValue := by
  intro fuel
  induction fuel with
  | zero =>
    intro fuel2 cur pts parsedValue h
    exact absurd h (Nat.not_lt_zero _)
  | succ n ih =>
    intro fuel2 cur pts parsedValue h h2
    cases fuel2 with
    | zero => exact absurd h2 (Nat.not_lt_zero _)
    | succ k =>
      rw [pointsLoop, pointsLoop]
      dsimp only
      have h0 := pointsLoop_entry_adv cur parsedValue
      generalize (if parsedValue = true then parseCommaWspToken cur else (true, cur)) = r0
        at h0
      split
      · rfl
      · cases hx : parseScalarToken P r0.2 with
        | mk o c1 =>
          cases o with
          | none => rfl
          | some x =>
            dsimp only
            split
            · rfl
            · cases hy : parseScalarToken P (parseCommaWspToken c1).2 with
              | mk o2 c2 =>
                cases o2 with
                | none => rfl
                | some y =>
                  dsimp only
                  have hlt := pointsLoop_next_lt P hC cur r0.2 c1 c2 x y h0 hx hy
                  exact ih _ _ _ _ (by omega) (by omega)

theorem parsePoints_isSome (P : SkParse S)
    (hC : ∀ c v n, P.FindScalar c = some (v, n) → ∃ consumed, consumed ≠ [] ∧ c = consumed ++ n)
    (cur : Cursor) : (parsePoints P cur).isSome = true := by
  have h := pointsLoop_isSome P hC ((advanceWhile is_ws cur).2.length + 1)
    (advanceWhile is_ws cur).2 [] false (Nat.lt_succ_self _)
  unfold parsePoints
  dsimp only
  cases hl : pointsLoop P ((advanceWhile is_ws cur).2.length + 1) (advanceWhile is_ws cur).2
      [] false with
  | none =>
    rw [hl] at h
    simp at h
  | some t =>
    obtain ⟨pts, parsedValue, c⟩ := t
    dsimp only
    split <;> rfl

theorem parseLength_lt (P : SkParse S)
    (hC : ∀ c v n, P.FindScalar c = some (v, n) → ∃ consumed, consumed ≠ [] ∧ c = consumed ++ n)
    (cur : Cursor) :
    (parseLength P cur).ok = true → (parseLength P cur).cur.length < cur.length := by
  have hS : ∀ c v n, P.FindScalar c = some (v, n) → Advances c n :=
    fun c v n h => adv_of_consumed (hC c v n h)
  have key : ∀ s c1, parseScalarToken P cur = (some s, c1) →
      (parseLength P cur).cur.length < cur.length := by
    intro s c1 hx
    have a1 := lt_of_eq (parseScalarToken_lt P hC) hx (Advances.refl cur)
    have a2 : Advances c1 (parseLength P cur).cur := by
      unfold parseLength
      rw [hx]
      dsimp only
      repeat' split
      all_goals try dsimp only
      all_goals
        repeat (first
          | exact Advances.refl _
          | refine Advances.trans ?_ (parseSepToken_adv _)
          | refine adv_of_eq parseLengthUnitToken_adv (by assumption) ?_)
    have a3 := a2.length_le
    omega
  cases hx : parseScalarToken P cur with
  | mk o c1 =>
    cases o with
    | none =>
      intro hok
      unfold parseLength at hok
      rw [hx] at hok
      simp at hok
    | some s =>
      intro _
      exact key s c1 hx

theorem dashLoop_isSome (P : SkParse S)
    (hC : ∀ c v n, P.FindScalar c = some (v, n) → ∃ consumed, consumed ≠ [] ∧ c = consumed ++ n) :
    ∀ (fuel : Nat) (cur : Cursor) (dashes : List (SkSVGLength S)),
      cur.length < fuel → (dashLoop P fuel cur dashes).isSome = true := by
  intro fuel
  induction fuel with
  | zero =>
    intro cur dashes h
    exact absurd h (Nat.not_lt_zero _)
  | succ n ih =>
    intro cur dashes h
    rw [dashLoop]
    split
    · rfl
    · rename_i hok
      have hlt := parseLength_lt P hC cur (by simpa using hok)
      exact ih _ _ (by omega)

theorem dashLoop_fuel (P : SkParse S)
    (hC : ∀ c v n, P.FindScalar c = some (v, n) → ∃ consumed, consumed ≠ [] ∧ c = consumed ++ n) :
    ∀ (fuel fuel2 : Nat) (cur : Cursor) (dashes : List (SkSVGLength S)),
      cur.length < fuel → cur.length < fuel2 →
      dashLoop P fuel cur dashes = dashLoop P fuel2 cur dashes := by
  intro fuel
  induction fuel with
  | zero =>
    intro fuel2 cur dashes h
    exact absurd h (Nat.not_lt_zero _)
  | succ n ih =>
    intro fuel2 cur dashes h h2
    cases fuel2 with
    | zero => exact absurd h2 (Nat.not_lt_zero _)
    | succ k =>
      rw [dashLoop, dashLoop]
      split
      · rfl
      · rename_i hok
        have hlt := parseLength_lt P hC cur (by simpa using hok)
        exact ih _ _ _ (by omega) (by omega)

theorem parseDashArray_isSome (P : SkParse S)
    (hC : ∀ c v n, P.FindScalar c = some (v, n) → ∃ consumed, consumed ≠ [] ∧ c = consumed ++ n)
    (cur : Cursor) : (parseDashArray P cur).isSome = true := by
  unfold parseDashArray
  dsimp only
  split
  · rfl
  · split
    · rfl
    · have h := dashLoop_isSome P hC
        ((parseExpectedStringToken "inherit".toList
          (parseExpectedStringToken "none".toList cur).2).2.length + 1)
        (parseExpectedStringToken "inherit".toList
          (parseExpectedStringToken "none".toList cur).2).2 [] (Nat.lt_succ_self _)
      split
      · rename_i hl
        rw [hl] at h
        simp at h
      · split <;> rfl

/-- C27: termination of the grammars.  Assume each successful external numeric
token consumes at least one character.  Then an iteration of the loop of
`parseTransform`, `parsePoints` or `parseDashArray` that does not leave the loop
hands a strictly shorter remaining input to the next iteration; so a bound of
more iterations than there are remaining bytes is never reached, and the loop
returns the same result under every such bound; and the three grammars return a
result on every input.  The other grammars have no unbounded loop and are total
by their definition. -/
theorem looping_grammars_terminate (P : SkParse S) (hP : NumericTokensConsume P)
    (M : SkMatrixOps S Mat) (cur : Cursor) :
    -- an iteration that stays in the loop strictly advances the cursor
    ((∀ m c, transformToken P M cur = (some m, c) →
        (parseCommaWspToken c).2.length < cur.length) ∧
      (∀ (parsedValue : Bool) x c1 y c2,
        parseScalarToken P
          (if parsedValue = true then parseCommaWspToken cur else (true, cur)).2 = (some x, c1) →
        parseScalarToken P (parseCommaWspToken c1).2 = (some y, c2) →
        c2.length < cur.length) ∧
      ((parseLength P cur).ok = true → (parseLength P cur).cur.length < cur.length)) ∧
    -- the number of iterations is bounded by the length of the remaining input
    ((∀ fuel matrix parsed, cur.length < fuel →
        (transformLoop P M fuel cur matrix parsed).isSome = true ∧
        transformLoop P M fuel cur matrix parsed
          = transformLoop P M (cur.length + 1) cur matrix parsed) ∧
      (∀ fuel pts parsedValue, cur.length < fuel →
        (pointsLoop P fuel cur pts parsedValue).isSome = true ∧
        pointsLoop P fuel cur pts parsedValue
          = pointsLoop P (cur.length + 1) cur pts parsedValue) ∧
      (∀ fuel dashes, cur.length < fuel →
        (dashLoop P fuel cur dashes).isSome = true ∧
        dashLoop P fuel cur dashes = dashLoop P (cur.length + 1) cur dashes)) ∧
    -- the looping grammars return a result
    ((parseTransform P M cur).isSome = true ∧ (parsePoints P cur).isSome = true ∧
      (parseDashArray P cur).isSome = true) := by
  have hC := hP.1
  have hS : ∀ c v n, P.FindScalar c = some (v, n) → Advances c n :=
    fun c v n h => adv_of_consumed (hC c v n h)
  refine ⟨⟨?_, ?_, ?_⟩, ⟨?_, ?_, ?_⟩, ⟨?_, ?_, ?_⟩⟩
  · exact fun m c h => transformToken_next_lt P M hS cur c m h
  · exact fun pv x c1 y c2 h1 h2 =>
      pointsLoop_next_lt P hC cur _ c1 c2 x y (pointsLoop_entry_adv cur pv) h1 h2
  · exact parseLength_lt P hC cur
  · exact fun fuel matrix parsed h =>
      ⟨transformLoop_isSome P M hS fuel cur matrix parsed h,
       transformLoop_fuel P M hS fuel (cur.length + 1) cur matrix parsed h (Nat.lt_succ_self _)⟩
  · exact fun fuel pts pv h =>
      ⟨pointsLoop_isSome P hC fuel cur pts pv h,
       pointsLoop_fuel P hC fuel (cur.length + 1) cur pts pv h (Nat.lt_succ_self _)⟩
  · exact fun fuel dashes h =>
      ⟨dashLoop_isSome P hC fuel cur dashes h,
       dashLoop_fuel P hC fuel (cur.length + 1) cur dashes h (Nat.lt_succ_self _)⟩
  · exact parseTransform_isSome P M hS cur
  · exact parsePoints_isSome P hC cur
  · exact parseDashArray_isSome P hC cur

theorem looping_grammars_terminate_witness :
    NumericTokensConsume refParse ∧
    (parsePoints refParse "1,2 3,4".toList).isSome = true ∧
    (parseDashArray refParse "5 10px".toList).isSome = true := by
  have h := looping_grammars_terminate refParse refParse_numeric_tokens_consume
    (refMatrixOps (fun _ _ _ => ⟨1, 0, 0, 0, 1, 0⟩) (fun t => t)) "1,2 3,4".toList
  have h2 := looping_grammars_terminate refParse refParse_numeric_tokens_consume
    (refMatrixOps (fun _ _ _ => ⟨1, 0, 0, 0, 1, 0⟩) (fun t => t)) "5 10px".toList
  exact ⟨refParse_numeric_tokens_consume, h.2.2.2.1, h2.2.2.2.2⟩

end SkSVGAttributeParser
